import Mathlib

/-!
# K-means clustering engine: embedding and properties

The sequential program `kmeans.cpp` and the parts of the CPU-parallel program
`open_mp_cpu.cpp` and of the accelerator program `openmp_gpu.cpp` that differ
from it are embedded over an arbitrary linearly ordered field `α` standing for
the exact reals, with the square root taken as an explicit function
`sqrt : α → α` (instantiate `α := ℝ`, `sqrt := Real.sqrt`).  The source
computes in `double`: rounding, underflow and overflow of floating-point
operations are not represented, so every statement about distances, sums and
means below is a statement in exact arithmetic.

Conventions of the embedding:

* a `vector<T>` is a `List T`; `vector<vector<double>>` is `List (List α)`;
* every subscript `v[i]` is checked: reading or writing outside `[0, size)`
  makes the whole computation `none` (the source has undefined behaviour there);
* a division whose divisor is zero makes the computation `none`;
* `int` loop counters that run upward from `0` are natural numbers; `int`
  values that can be negative (the labels, with their sentinel `-1`) are
  integers.  `N`, `K`, `D` and `max_iter` are `int` in the source, so all
  counters and counts stay below `2^31` and no wrap-around occurs; the flat
  subscripts `i*D + d` of the accelerator program are taken to stay in range
  of `int` as well;
* `numeric_limits<double>::infinity()` is the top element of `WithTop α`;
* the random generator is the list of the values it draws;
* the workers of a parallel loop are given by their shares of the rounds, and
  the host and device copies of a mapped array are two lists.

The prime-counting program `tarefa3.c` is embedded at the end of the
definitions, with its `int` arithmetic checked against the 32-bit range.
-/

namespace KMeans

variable {α : Type} [LinearOrderedField α]

/-! ## Primitive operations -/

/-- The loop `for (i = lo; i < lo + n; i++) s = body(i, s)`, failing as soon as
the body fails. -/
def forLoop {σ : Type} (body : Nat → σ → Option σ) : Nat → Nat → σ → Option σ
  | _, 0, s => some s
  | lo, n + 1, s => (body lo s).bind (forLoop body (lo + 1) n)

/-- Read `v[i]` for an `int` subscript. -/
def rd {β : Type} (v : List β) (i : Int) : Option β :=
  if 0 ≤ i then v[i.toNat]? else none

/-- Write `v[i] = x` for an `int` subscript. -/
def wr {β : Type} (v : List β) (i : Int) (x : β) : Option (List β) :=
  if 0 ≤ i ∧ i.toNat < v.length then some (v.set i.toNat x) else none

/-- The quotient `s / c` of a `double` by an `int`, defined when `c` is not zero. -/
def divide (s : α) (c : Int) : Option α :=
  if c = 0 then none else some (s / (c : α))

/-! ## `euclid` (kmeans.cpp, lines 55-62) -/

/-- One round of the loop of `euclid`: `d = a[i] - b[i]; sum += d*d`. -/
def euclidBody (a b : List α) (i : Nat) (sum : α) : Option α :=
  (rd a i).bind fun ai =>
  (rd b i).bind fun bi =>
  let d := ai - bi
  some (sum + d * d)

/-- Euclidean distance: `sqrt` of the sum over `i < a.size()` of `(a[i]-b[i])^2`. -/
def euclid (sqrt : α → α) (a b : List α) : Option α :=
  (forLoop (euclidBody a b) 0 a.length 0).map sqrt

/-! ## Assignment (kmeans.cpp, lines 100-108) -/

/-- One round of the inner loop over `k`: the state is `(best, who)`. -/
def nearestBody (sqrt : α → α) (centroids : List (List α)) (p : List α)
    (k : Nat) (st : WithTop α × Int) : Option (WithTop α × Int) :=
  (rd centroids k).bind fun c =>
  (euclid sqrt p c).bind fun d =>
  if (d : WithTop α) < st.1 then some ((d : WithTop α), (k : Int)) else some st

/-- The inner loop of the assignment for one point `p`: starts from
`best = infinity`, `who = 0` and returns `who`. -/
def nearest (sqrt : α → α) (centroids : List (List α)) (K : Nat) (p : List α) :
    Option Int :=
  (forLoop (nearestBody sqrt centroids p) 0 K (⊤, 0)).map Prod.snd

/-- One round of the assignment loop: the state is `(labels, changed)`. -/
def assignBody (sqrt : α → α) (data centroids : List (List α)) (K : Nat)
    (i : Nat) (st : List Int × Bool) : Option (List Int × Bool) :=
  (rd data i).bind fun p =>
  (nearest sqrt centroids K p).bind fun who =>
  (rd st.1 i).bind fun li =>
  if li ≠ who then (wr st.1 i who).map fun l => (l, true) else some st

/-- The assignment pass: `changed = false`, then the loop over the `N` points.
Returns the new labels and `changed`. -/
def assign (sqrt : α → α) (data centroids : List (List α)) (N K : Nat)
    (labels : List Int) : Option (List Int × Bool) :=
  forLoop (assignBody sqrt data centroids K) 0 N (labels, false)

/-! ## Reduction (kmeans.cpp, lines 114-120) -/

/-- One round of `for d: sum[k][d] += data[i][d]`. -/
def sumBody (data : List (List α)) (i : Nat) (k : Int) (d : Nat)
    (sum : List (List α)) : Option (List (List α)) :=
  (rd sum k).bind fun row =>
  (rd row d).bind fun x =>
  (rd data i).bind fun p =>
  (rd p d).bind fun v =>
  (wr row d (x + v)).bind fun row1 =>
  wr sum k row1

/-- One round of the reduction loop: the state is `(sum, count)`. -/
def reduceBody (data : List (List α)) (D : Nat) (labels : List Int)
    (i : Nat) (st : List (List α) × List Int) : Option (List (List α) × List Int) :=
  (rd labels i).bind fun k =>
  (rd st.2 k).bind fun c =>
  (wr st.2 k (c + 1)).bind fun count1 =>
  (forLoop (sumBody data i k) 0 D st.1).bind fun sum1 =>
  some (sum1, count1)

/-- The reduction: fresh `sum(K, vector(D, 0.0))` and `count(K, 0)`, then the
loop over the `N` points. -/
def reduce (data : List (List α)) (N K D : Nat) (labels : List Int) :
    Option (List (List α) × List Int) :=
  forLoop (reduceBody data D labels) 0 N
    (List.replicate K (List.replicate D 0), List.replicate K 0)

/-! ## Update (kmeans.cpp, lines 121-125) -/

/-- One round of `for d: centroids[k][d] = sum[k][d] / count[k]`. -/
def divBody (sum : List (List α)) (count : List Int) (k d : Nat)
    (centroids : List (List α)) : Option (List (List α)) :=
  (rd sum k).bind fun srow =>
  (rd srow d).bind fun s =>
  (rd count k).bind fun c =>
  (divide s c).bind fun q =>
  (rd centroids k).bind fun crow =>
  (wr crow d q).bind fun crow1 =>
  wr centroids k crow1

/-- One round of the update loop: `if (count[k] == 0) continue;` then the loop
over the coordinates. -/
def updateBody (sum : List (List α)) (count : List Int) (D : Nat) (k : Nat)
    (centroids : List (List α)) : Option (List (List α)) :=
  (rd count k).bind fun c =>
  if c = 0 then some centroids else forLoop (divBody sum count k) 0 D centroids

/-- The update step over the `K` centroids. -/
def update (sum : List (List α)) (count : List Int) (K D : Nat)
    (centroids : List (List α)) : Option (List (List α)) :=
  forLoop (updateBody sum count D) 0 K centroids

/-! ## The convergence loop (kmeans.cpp, lines 96-126) -/

/-- State of the program when the main loop is left: the centroids, the
labels, and the number printed by `Convergiu em ... iterações` when the loop
was left through the `!changed` branch. -/
structure Outcome (α : Type) where
  centroids : List (List α)
  labels : List Int
  converged : Option Nat

/-- The main loop from iteration `iter` on, with `fuel = max_iter - iter`
iterations left. -/
def mainLoop (sqrt : α → α) (data : List (List α)) (N K D : Nat) :
    Nat → Nat → List (List α) → List Int → Option (Outcome α)
  | 0, _, centroids, labels => some ⟨centroids, labels, none⟩
  | fuel + 1, iter, centroids, labels =>
    (assign sqrt data centroids N K labels).bind fun r =>
    if !r.2 then some ⟨centroids, r.1, some iter⟩
    else
      (reduce data N K D r.1).bind fun acc =>
      (update acc.1 acc.2 K D centroids).bind fun centroids1 =>
      mainLoop sqrt data N K D fuel (iter + 1) centroids1 r.1

/-- The program from `vector<int> labels(N, -1)` to the end of the main loop. -/
def kmeans (sqrt : α → α) (data : List (List α)) (N K D : Nat) (max_iter : Int)
    (centroids : List (List α)) : Option (Outcome α) :=
  mainLoop sqrt data N K D max_iter.toNat 0 centroids (List.replicate N (-1))

/-- The cluster-size tally `for (int l : labels) sz[l]++` over `sz(K, 0)`
(kmeans.cpp, lines 135-136). -/
def tally (K : Nat) (labels : List Int) : Option (List Int) :=
  labels.foldlM (fun sz l => (rd sz l).bind fun c => wr sz l (c + 1)) (List.replicate K 0)

/-! ## Tables: the shape of well-formed vectors and matrices -/

/-- The vector `[g 0, ..., g (n-1)]`. -/
def vec {β : Type} (n : Nat) (g : Nat → β) : List β := (List.range n).map g

/-- The `K × D` matrix with entries `f k d`. -/
def mat {β : Type} (K D : Nat) (f : Nat → Nat → β) : List (List β) :=
  vec K fun k => vec D (f k)

/-- Entry `(i, d)` of a list of rows, `0` outside. -/
def entry (M : List (List α)) (i d : Nat) : α := (M.getD i []).getD d 0

/-- Sum of the squared differences of the first `D` coordinates. -/
def sqDist (D : Nat) (x y : Nat → α) : α :=
  ∑ i in Finset.range D, (x i - y i) * (x i - y i)

/-- Index held by `who` after `K` rounds of the inner assignment loop, as a
function of the distances `dist k` to the centroids. -/
def argmin (dist : Nat → α) : Nat → Nat
  | 0 => 0
  | k + 1 => if dist k < dist (argmin dist k) then k else argmin dist k

/-- Value held by `best` after `k` rounds of the inner assignment loop. -/
def bestAt (dist : Nat → α) (k : Nat) : WithTop α :=
  if k = 0 then ⊤ else ((dist (argmin dist k) : α) : WithTop α)

/-- Distance from point `x` to centroid `k` of the table `C`. -/
def distTo (sqrt : α → α) (D : Nat) (C : Nat → Nat → α) (x : Nat → α) (k : Nat) : α :=
  sqrt (sqDist D x (C k))

/-- Label written for point `i` by an assignment pass over the tables `X`
(points) and `C` (centroids). -/
def newLabel (sqrt : α → α) (K D : Nat) (X C : Nat → Nat → α) (i : Nat) : Int :=
  (argmin (distTo sqrt D C (X i)) K : Nat)

/-- Indices `i < n` of the points whose label is `k`. -/
def members (lab : Nat → Int) (n k : Nat) : Finset Nat :=
  (Finset.range n).filter fun i => lab i = (k : Int)

/-- Sum of coordinate `d` over the points `i < n` labelled `k`. -/
def sumOf (X : Nat → Nat → α) (lab : Nat → Int) (n k d : Nat) : α :=
  ∑ i in members lab n k, X i d

/-- Number of points `i < n` labelled `k`. -/
def countOf (lab : Nat → Int) (n k : Nat) : Int := ((members lab n k).card : Int)

/-- Centroid table after the update step. -/
def updated (S : Nat → Nat → α) (cnt : Nat → Int) (C : Nat → Nat → α) (k d : Nat) : α :=
  if cnt k = 0 then C k d else S k d / (cnt k : α)

/-- A list of `n` rows with `D` coordinates each. -/
def Shaped {β : Type} (M : List (List β)) (n D : Nat) : Prop :=
  M.length = n ∧ ∀ p, p ∈ M → p.length = D

/-- The index `k` is the smallest one in `[0, K)` whose distance is minimal:
`dist k ≤ dist j` for every `j < K`, and no smaller index has that property. -/
def IsLowestArgmin (dist : Nat → α) (K k : Nat) : Prop :=
  k < K ∧ (∀ j, j < K → dist k ≤ dist j) ∧
    ∀ k1, k1 < k → ¬ ∀ j, j < K → dist k1 ≤ dist j

/-- Every label lies in `[0, K)`. -/
def InRange (K : Nat) (labels : List Int) : Prop :=
  ∀ l, l ∈ labels → 0 ≤ l ∧ l < (K : Int)

/-- Indices `i < N` of the points whose entry in the label vector is `k`. -/
def cluster (labels : List Int) (N k : Nat) : Finset Nat :=
  (Finset.range N).filter fun i => labels[i]? = some (k : Int)

/-- The output loop over the centroids, `for (k = 0; k < K; k++)` printing the
row `centroids[k]`: the rows in the order they are printed. -/
def printCentroids {β : Type} (K : Nat) (centroids : List (List β)) : Option (List (List β)) :=
  forLoop (fun k out => (rd centroids k).bind fun row => some (out ++ [row])) 0 K []

/-- What the program prints after the main loop: the centroids and the
cluster sizes. -/
structure Report (α : Type) where
  centroids : List (List α)
  sizes : List Int

/-- The output part of `main`: the centroids are printed, then the sizes are
tallied and printed. -/
def report (K : Nat) (out : Outcome α) : Option (Report α) :=
  (printCentroids K out.centroids).bind fun cs =>
  (tally K out.labels).bind fun sz =>
  some ⟨cs, sz⟩

/-- The program from `vector<int> labels(N, -1)` to `return 0`: the main loop
followed by the output. -/
def run (sqrt : α → α) (data : List (List α)) (N K D : Nat) (max_iter : Int)
    (centroids : List (List α)) : Option (Outcome α × Report α) :=
  (kmeans sqrt data N K D max_iter centroids).bind fun out =>
  (report K out).bind fun rep =>
  some (out, rep)

/-! ## Initialization (kmeans.cpp, lines 85-94)

The generator `rng` with its distribution `pick(0, N-1)` is represented by the
list `draws` of the values that successive calls `pick(rng)` return; a loop
that asks for a draw when the list is used up yields `none`. -/

/-- The loop `while ((int)centroids.size() < K)`: the state is the rest of the
draws, the set `used` (its elements in order of insertion) and the vector
`centroids`. -/
def initLoop (data : List (List α)) (K : Nat) :
    List Int → List Int → List (List α) → Option (List Int × List (List α))
  | [], used, centroids => if centroids.length < K then none else some (used, centroids)
  | idx :: rest, used, centroids =>
    if centroids.length < K then
      if idx ∈ used then initLoop data K rest used centroids
      else (rd data idx).bind fun p => initLoop data K rest (used ++ [idx]) (centroids ++ [p])
    else some (used, centroids)

/-- The initialization of the sequential program: `centroids` and `used`
start empty; the result is the final `used` and `centroids`. -/
def initCentroids (data : List (List α)) (K : Nat) (draws : List Int) :
    Option (List Int × List (List α)) :=
  initLoop data K draws [] []

/-! ## `main` after loading (kmeans.cpp, lines 70-140) -/

/-- The function `main` from `auto data = load_csv(filename)` on, given the
loaded `data`: its exit status. -/
def mainFrom (sqrt : α → α) (data : List (List α)) (K max_iter : Int) (draws : List Int) :
    Option Int :=
  let N : Int := data.length
  if N = 0 then some 1
  else
    (rd data 0).bind fun row0 =>
    let D : Int := row0.length
    if K ≤ 0 ∨ K > N then some 1
    else
      (initCentroids data K.toNat draws).bind fun init =>
      (run sqrt data N.toNat K.toNat D.toNat max_iter init.2).bind fun _ =>
      some 0

/-! ## Initialization of the CPU-parallel program (open_mp_cpu.cpp, lines 138-148) -/

/-- The loop `for (int k = 0; k < K; )` over the vector `centroids(K,
vector<double>(D))`: a new index is stored with `centroids[k++] = data[idx]`.
The state is the rest of the draws, `k`, the set `used_indices` and
`centroids`. -/
def initLoopCpu (data : List (List α)) (K : Nat) :
    List Int → Nat → List Int → List (List α) → Option (List Int × List (List α))
  | [], k, used, centroids => if k < K then none else some (used, centroids)
  | idx :: rest, k, used, centroids =>
    if k < K then
      if idx ∈ used then initLoopCpu data K rest k used centroids
      else
        (rd data idx).bind fun p =>
        (wr centroids k p).bind fun centroids1 =>
        initLoopCpu data K rest (k + 1) (used ++ [idx]) centroids1
    else some (used, centroids)

/-- The initialization of the CPU-parallel program: the final `used_indices`
and `centroids`. -/
def initCentroidsCpu (data : List (List α)) (K D : Nat) (draws : List Int) :
    Option (List Int × List (List α)) :=
  initLoopCpu data K draws 0 [] (List.replicate K (List.replicate D 0))

/-! ## Flat arrays and initialization of the accelerator program
(openmp_gpu.cpp, lines 111-129) -/

/-- One round of the flattening loops: `flat_data[i*D + d] = data[i][d]`. -/
def flattenBody {β : Type} (data : List (List β)) (D i d : Nat) (flat_data : List β) :
    Option (List β) :=
  (rd data i).bind fun row =>
  (rd row d).bind fun x =>
  wr flat_data ((i : Int) * (D : Int) + (d : Int)) x

/-- The array `flat_data(N * D)` after the flattening loops. -/
def flatten (data : List (List α)) (N D : Nat) : Option (List α) :=
  forLoop (fun i flat_data => forLoop (flattenBody data D i) 0 D flat_data) 0 N
    (List.replicate (N * D) 0)

/-- One round of `for d: centroids_flat[k*D + d] = flat_data[idx*D + d]`. -/
def copyBody (flat_data : List α) (D k : Nat) (idx : Int) (d : Nat)
    (centroids_flat : List α) : Option (List α) :=
  (rd flat_data (idx * (D : Int) + (d : Int))).bind fun x =>
  wr centroids_flat ((k : Int) * (D : Int) + (d : Int)) x

/-- The loop `for (int k = 0; k < K; )` of the accelerator program: the state
is the rest of the draws, `k`, the set `used` and `centroids_flat`. -/
def initLoopGpu (flat_data : List α) (K D : Nat) :
    List Int → Nat → List Int → List α → Option (List Int × List α)
  | [], k, used, centroids_flat => if k < K then none else some (used, centroids_flat)
  | idx :: rest, k, used, centroids_flat =>
    if k < K then
      if idx ∈ used then initLoopGpu flat_data K D rest k used centroids_flat
      else
        (forLoop (copyBody flat_data D k idx) 0 D centroids_flat).bind fun centroids1 =>
        initLoopGpu flat_data K D rest (k + 1) (used ++ [idx]) centroids1
    else some (used, centroids_flat)

/-- The initialization of the accelerator program, on `centroids_flat(K * D)`:
the final `used` and `centroids_flat`. -/
def initCentroidsGpu (flat_data : List α) (K D : Nat) (draws : List Int) :
    Option (List Int × List α) :=
  initLoopGpu flat_data K D draws 0 [] (List.replicate (K * D) 0)

/-! ## Draws in order of first occurrence -/

/-- The draws in order of first occurrence: the draw at position `t` is kept
when it does not occur at an earlier position. -/
def firstOccurrences (draws : List Int) : List Int :=
  (List.range draws.length).filterMap fun t =>
    if draws.getD t 0 ∈ draws.take t then none else some (draws.getD t 0)

/-- The draws that are new with respect to the set `used` and to the earlier
draws, in order of occurrence. -/
def firstNew : List Int → List Int → List Int
  | _, [] => []
  | used, x :: xs => if x ∈ used then firstNew used xs else x :: firstNew (used ++ [x]) xs

/-- The flat array of an `n × D` table: entry `f i d` at position `i*D + d`. -/
def flatOf {β : Type} (n D : Nat) (f : Nat → Nat → β) : List β :=
  vec (n * D) fun j => f (j / D) (j % D)

/-! ## Reduction of the CPU-parallel program (open_mp_cpu.cpp, lines 178-203)

A worker of the parallel region runs the rounds `i` of its share of the loop
`#pragma omp for nowait` on its private `local_sum`, `local_count`, then adds
them to the shared `sum`, `count` inside the critical section.  The region is
represented by the list of the workers' shares, in the order in which the
workers pass through the critical section. -/

/-- The loop over the points as one worker runs it: the rounds of `chunk`, on
fresh `local_sum(K, vector(D, 0.0))` and `local_count(K, 0)`.  The body is the
one of the sequential reduction. -/
def localReduce (data : List (List α)) (K D : Nat) (labels : List Int) (chunk : List Nat) :
    Option (List (List α) × List Int) :=
  chunk.foldlM (fun st i => reduceBody data D labels i st)
    (List.replicate K (List.replicate D 0), List.replicate K 0)

/-- One round of `for d: sum[k][d] += local_sum[k][d]`. -/
def mergeSumBody (local_sum : List (List α)) (k d : Nat) (sum : List (List α)) :
    Option (List (List α)) :=
  (rd sum k).bind fun row =>
  (rd row d).bind fun x =>
  (rd local_sum k).bind fun lrow =>
  (rd lrow d).bind fun y =>
  (wr row d (x + y)).bind fun row1 =>
  wr sum k row1

/-- One round of the loop over `k` in the critical section:
`count[k] += local_count[k]`, then the loop over `d`. -/
def mergeBody (loc : List (List α) × List Int) (D k : Nat)
    (st : List (List α) × List Int) : Option (List (List α) × List Int) :=
  (rd st.2 k).bind fun c =>
  (rd loc.2 k).bind fun lc =>
  (wr st.2 k (c + lc)).bind fun count1 =>
  (forLoop (mergeSumBody loc.1 k) 0 D st.1).bind fun sum1 =>
  some (sum1, count1)

/-- The critical section: the local accumulator `loc` is added to the shared
`(sum, count)`. -/
def merge (K D : Nat) (st loc : List (List α) × List Int) :
    Option (List (List α) × List Int) :=
  forLoop (mergeBody loc D) 0 K st

/-- The parallel region of the reduction: the shared `sum`, `count` start at
zero and each worker, in the order of `chunks`, adds its local accumulator. -/
def parReduce (data : List (List α)) (K D : Nat) (labels : List Int)
    (chunks : List (List Nat)) : Option (List (List α) × List Int) :=
  chunks.foldlM
    (fun st chunk => (localReduce data K D labels chunk).bind fun loc => merge K D st loc)
    (List.replicate K (List.replicate D 0), List.replicate K 0)

/-- Sum of coordinate `d` over the rounds of `chunk` whose point is labelled `k`. -/
def chunkSum (X : Nat → Nat → α) (lab : Nat → Int) (chunk : List Nat) (k d : Nat) : α :=
  (chunk.map fun i => if lab i = (k : Int) then X i d else 0).sum

/-- Number of rounds of `chunk` whose point is labelled `k`. -/
def chunkCount (lab : Nat → Int) (chunk : List Nat) (k : Nat) : Int :=
  (chunk.map fun i => if lab i = (k : Int) then (1 : Int) else 0).sum

/-! ## The accelerator program (openmp_gpu.cpp, lines 74-81 and 131-189)

The arrays named in `#pragma omp target data map(to: flat_data[0:N*D])
map(tofrom: centroids_flat[0:K*D], labels[0:N])` have a host copy and a device
copy.  The device copies are made when the region is entered and the `tofrom`
arrays are copied back when it is left.  The `target` construct inside the
region finds the arrays present on the device, so its implicit maps transfer
nothing, and the region contains no `target update`: the kernel reads and
writes the device copies, the host code between two kernels reads and writes
the host copies.  The variable `changed` of the clause `reduction(||:changed)`
comes back to the host after each kernel. -/

/-- One round of the loop of `euclid(a, b, D)` called with `a = &flat_data[i*D]`
and `b = &centroids_flat[k*D]`: `diff = a[j] - b[j]; sum += diff * diff`. -/
def euclidFlatBody (flat_data centroids_flat : List α) (D i k j : Nat) (sum : α) : Option α :=
  (rd flat_data ((i : Int) * (D : Int) + (j : Int))).bind fun a =>
  (rd centroids_flat ((k : Int) * (D : Int) + (j : Int))).bind fun b =>
  let diff := a - b
  some (sum + diff * diff)

/-- The call `euclid(xi, ck, D)` of the kernel. -/
def euclidFlat (sqrt : α → α) (flat_data centroids_flat : List α) (D i k : Nat) : Option α :=
  (forLoop (euclidFlatBody flat_data centroids_flat D i k) 0 D 0).map sqrt

/-- One round of the loop over the centroids in the kernel: the state is
`(best_dist, best_k)`. -/
def nearestFlatBody (sqrt : α → α) (flat_data centroids_flat : List α) (D i k : Nat)
    (st : WithTop α × Int) : Option (WithTop α × Int) :=
  (euclidFlat sqrt flat_data centroids_flat D i k).bind fun dist =>
  if (dist : WithTop α) < st.1 then some ((dist : WithTop α), (k : Int)) else some st

/-- One round `i` of the kernel: the state is `(labels, changed)`. -/
def kernelBody (sqrt : α → α) (flat_data centroids_flat : List α) (K D i : Nat)
    (st : List Int × Bool) : Option (List Int × Bool) :=
  (forLoop (nearestFlatBody sqrt flat_data centroids_flat D i) 0 K (⊤, 0)).bind fun r =>
  (rd st.1 i).bind fun li =>
  if li ≠ r.2 then (wr st.1 i r.2).map fun l => (l, true) else some st

/-- The assignment kernel over the `N` points, on the arrays it is given:
the new `labels` and the combined `changed`. -/
def kernel (sqrt : α → α) (flat_data centroids_flat : List α) (N K D : Nat)
    (labels : List Int) : Option (List Int × Bool) :=
  forLoop (kernelBody sqrt flat_data centroids_flat K D) 0 N (labels, false)

/-- One round of `for d: sum[c*D + d] += flat_data[i*D + d]` on the host. -/
def sumFlatBody (flat_data : List α) (D i : Nat) (c : Int) (d : Nat) (sum : List α) :
    Option (List α) :=
  (rd sum (c * (D : Int) + (d : Int))).bind fun x =>
  (rd flat_data ((i : Int) * (D : Int) + (d : Int))).bind fun v =>
  wr sum (c * (D : Int) + (d : Int)) (x + v)

/-- One round of the host reduction loop: the state is `(sum, count)`. -/
def reduceFlatBody (flat_data : List α) (D : Nat) (labels : List Int) (i : Nat)
    (st : List α × List Int) : Option (List α × List Int) :=
  (rd labels i).bind fun c =>
  (rd st.2 c).bind fun n =>
  (wr st.2 c (n + 1)).bind fun count1 =>
  (forLoop (sumFlatBody flat_data D i c) 0 D st.1).bind fun sum1 =>
  some (sum1, count1)

/-- The host reduction on fresh `sum(K * D, 0.0)` and `count(K, 0)`. -/
def reduceFlat (flat_data : List α) (N K D : Nat) (labels : List Int) :
    Option (List α × List Int) :=
  forLoop (reduceFlatBody flat_data D labels) 0 N
    (List.replicate (K * D) 0, List.replicate K 0)

/-- One round of `for d: centroids_flat[k*D + d] = sum[k*D + d] / count[k]`. -/
def divFlatBody (sum : List α) (count : List Int) (D k d : Nat) (centroids_flat : List α) :
    Option (List α) :=
  (rd sum ((k : Int) * (D : Int) + (d : Int))).bind fun s =>
  (rd count k).bind fun c =>
  (divide s c).bind fun q =>
  wr centroids_flat ((k : Int) * (D : Int) + (d : Int)) q

/-- One round of the host update loop. -/
def updateFlatBody (sum : List α) (count : List Int) (D k : Nat) (centroids_flat : List α) :
    Option (List α) :=
  (rd count k).bind fun c =>
  if c = 0 then some centroids_flat else forLoop (divFlatBody sum count D k) 0 D centroids_flat

/-- The host update over the `K` centroids. -/
def updateFlat (sum : List α) (count : List Int) (K D : Nat) (centroids_flat : List α) :
    Option (List α) :=
  forLoop (updateFlatBody sum count D) 0 K centroids_flat

/-- The host and device copies of the arrays mapped `tofrom`. -/
structure Copies (α : Type) where
  hostCentroids : List α
  hostLabels : List Int
  devCentroids : List α
  devLabels : List Int

/-- The loop inside the `target data` region from iteration `iter` on, with
`fuel = max_iter - iter` iterations left: the kernel works on the device
copies, the reduction and the update on the host copies.  Returns the copies
when the loop is left and the iteration count printed on convergence. -/
def gpuLoop (sqrt : α → α) (flat_data : List α) (N K D : Nat) :
    Nat → Nat → Copies α → Option (Copies α × Option Nat)
  | 0, _, s => some (s, none)
  | fuel + 1, iter, s =>
    (kernel sqrt flat_data s.devCentroids N K D s.devLabels).bind fun r =>
    if !r.2 then some ({ s with devLabels := r.1 }, some iter)
    else
      (reduceFlat flat_data N K D s.hostLabels).bind fun acc =>
      (updateFlat acc.1 acc.2 K D s.hostCentroids).bind fun centroids1 =>
      gpuLoop sqrt flat_data N K D fuel (iter + 1)
        { s with devLabels := r.1, hostCentroids := centroids1 }

/-- What the accelerator program holds on the host after the region: the
arrays `centroids_flat` and `labels`, and the printed iteration count. -/
structure FlatOutcome (α : Type) where
  centroids_flat : List α
  labels : List Int
  converged : Option Nat

/-- The accelerator program from `vector<int> labels(N, -1)` to the end of the
`target data` region: the device copies are made on entry, the loop runs, the
`tofrom` arrays are copied back to the host on exit. -/
def gpuKmeans (sqrt : α → α) (flat_data : List α) (N K D : Nat) (max_iter : Int)
    (centroids_flat : List α) : Option (FlatOutcome α) :=
  (gpuLoop sqrt flat_data N K D max_iter.toNat 0
    ⟨centroids_flat, List.replicate N (-1), centroids_flat, List.replicate N (-1)⟩).map
    fun r => ⟨r.1.devCentroids, r.1.devLabels, r.2⟩

/-! ## Counting the passes of the main loop -/

/-- An iteration of the main loop that goes on to the next one: the
assignment pass changes some label, then the reduction and the update run.
The state is `(centroids, labels)`; there is no result when the pass changes
no label. -/
def fullIteration (sqrt : α → α) (data : List (List α)) (N K D : Nat)
    (s : List (List α) × List Int) : Option (List (List α) × List Int) :=
  (assign sqrt data s.1 N K s.2).bind fun r =>
  if r.2 then
    (reduce data N K D r.1).bind fun acc =>
    (update acc.1 acc.2 K D s.1).bind fun centroids1 =>
    some (centroids1, r.1)
  else none

/-- The state after `m` iterations in a row that each go on to the next one. -/
def passes (sqrt : α → α) (data : List (List α)) (N K D : Nat) :
    Nat → List (List α) × List Int → Option (List (List α) × List Int)
  | 0, s => some s
  | m + 1, s => (fullIteration sqrt data N K D s).bind (passes sqrt data N K D m)

/-! ## `load_csv` (kmeans.cpp, lines 13-52)

The file is the list of its characters.  The library functions are
represented as follows: `getline` by the list of the lines it returns one
after the other, `isspace` by the six white-space characters of the C locale,
and `stod` by a parameter that gives, for a cell, the number read or the
exception thrown. -/

/-- Result of `stod` on a cell. -/
inductive Parsed (α : Type) where
  | value (x : α)
  | invalidArgument
  | outOfRange

/-- The strings that successive calls `getline(stream, s, delim)` return until
one fails: `cur` is the part of the current string read so far.  A call fails
when the stream is at its end before any character is read. -/
def getlines (delim : Char) : List Char → List Char → List (List Char)
  | [], cur => if cur = [] then [] else [cur]
  | c :: cs, cur =>
    if c = delim then cur :: getlines delim cs [] else getlines delim cs (cur ++ [c])

/-- The function `isspace` of the C locale. -/
def isspace (c : Char) : Bool :=
  c = ' ' || c = '\t' || c = '\n' || c = Char.ofNat 11 || c = Char.ofNat 12 || c = '\r'

/-- The two `cell.erase` calls: white space is removed at both ends. -/
def trim (cell : List Char) : List Char :=
  ((cell.dropWhile isspace).reverse.dropWhile isspace).reverse

/-- The loop `while (!line.empty() && (line.back()=='\r' || line.back()=='\n' ||
line.back()==',')) line.pop_back()`. -/
def stripLine (line : List Char) : List Char :=
  (line.reverse.dropWhile fun c => c = '\r' || c = '\n' || c = ',').reverse

/-- The loop `while (getline(ss, cell, ','))` over the cells of a line: the
state is `row`.  A cell that makes `stod` throw `invalid_argument` is skipped;
`out_of_range` is not caught and ends the program. -/
def parseCells {β : Type} (stod : List Char → Parsed β) :
    List (List Char) → List β → Option (List β)
  | [], row => some row
  | cell :: rest, row =>
    match stod (trim cell) with
    | Parsed.value x => parseCells stod rest (row ++ [x])
    | Parsed.invalidArgument => parseCells stod rest row
    | Parsed.outOfRange => none

/-- The row read from a line that is not empty after `stripLine`, before the
last column is removed. -/
def parseLine {β : Type} (stod : List Char → Parsed β) (line : List Char) : Option (List β) :=
  parseCells stod (getlines ',' (stripLine line) []) []

/-- The loop `while (getline(in, line))` over the lines after the header: the
state is `data`. -/
def loadLines {β : Type} (stod : List Char → Parsed β) :
    List (List Char) → List (List β) → Option (List (List β))
  | [], data => some data
  | line :: rest, data =>
    if stripLine line = [] then loadLines stod rest data
    else
      (parseLine stod line).bind fun row =>
      let row1 := if !row.isEmpty then row.dropLast else row
      if !row1.isEmpty then loadLines stod rest (data ++ [row1]) else loadLines stod rest data

/-- The function `load_csv` with `SKIP_HEADER` set, on the characters of a
file that could be opened: `none` when the program ends with `exit(1)` (no
header line) or with an exception that is not caught. -/
def load_csv {β : Type} (stod : List Char → Parsed β) (text : List Char) :
    Option (List (List β)) :=
  match getlines '\n' text [] with
  | [] => none
  | _ :: rest => loadLines stod rest []

/-- The number that `stod` reads from a cell made of decimal digits only; on
any other cell this stand-in reports `invalid_argument`. -/
def stodDigits (cell : List Char) : Parsed α :=
  if cell ≠ [] ∧ cell.all Char.isDigit then
    Parsed.value ((cell.foldl (fun n c => 10 * n + (c.toNat - 48)) 0 : Nat) : α)
  else Parsed.invalidArgument

/-! ## The parallel assignment loop of the CPU-parallel program
(open_mp_cpu.cpp, lines 154-171)

The body of the loop `#pragma omp parallel for schedule(static)` is the one of
the sequential assignment loop (`assignBody`).  The variables `labels` and
`changed` are declared outside the loop and the directive has no `reduction`
clause, so both are shared, and the body contains no `atomic` or `critical`
construct: its writes are plain writes, not ordered between workers before the
barrier at the end of the loop. -/

/-- A shared variable written by the rounds of the loop. -/
inductive Loc where
  | label (i : Nat)
  | changed
  deriving DecidableEq

/-- The shared variables that round `i` writes: `labels[i] = best_k;
changed = true;` when the label differs from `best_k`, nothing otherwise. -/
def roundWrites (sqrt : α → α) (data centroids : List (List α)) (K : Nat)
    (labels : List Int) (i : Nat) : Option (List Loc) :=
  (rd data i).bind fun p =>
  (nearest sqrt centroids K p).bind fun best_k =>
  (rd labels i).bind fun li =>
  if li ≠ best_k then some [Loc.label i, Loc.changed] else some []

/-- The rounds of the loop run one at a time in the order `order`, from
`changed = false`. -/
def assignInOrder (sqrt : α → α) (data centroids : List (List α)) (K : Nat)
    (labels : List Int) (order : List Nat) : Option (List Int × Bool) :=
  order.foldlM (fun st i => assignBody sqrt data centroids K i st) (labels, false)

/-- A data race on the shared variable `loc`: two rounds that belong to the
shares of two different workers both write it.  `shares` lists the rounds of
each worker and `writes i` the variables that round `i` writes. -/
def RaceOn (loc : Loc) (shares : List (List Nat)) (writes : Nat → List Loc) : Prop :=
  ∃ t1 t2 i j, t1 ≠ t2 ∧ i ∈ shares.getD t1 [] ∧ j ∈ shares.getD t2 [] ∧
    loc ∈ writes i ∧ loc ∈ writes j

/-! ## Clustering cost

The cost is not computed by the program; it is the quantity the claim on the
descent of the iteration speaks of. -/

/-- Clustering cost of the labels `lab` against the centroid table `C`: the
sum over the points `i < N` of the squared Euclidean distance (the sum that
`euclid` accumulates before taking the root) from point `i` to the centroid of
its label. -/
def costOf (N D : Nat) (X C : Nat → Nat → α) (lab : Nat → Int) : α :=
  ∑ i in Finset.range N, sqDist D (X i) (C (lab i).toNat)

/-- Clustering cost of a label vector against a list of centroids. -/
def cost (data centroids : List (List α)) (labels : List Int) (N D : Nat) : α :=
  costOf N D (entry data) (entry centroids) fun i => labels.getD i 0

/-! ## The sieve (tarefa3.c, lines 12-46)

The loops are read in program order, one round after the other.  An `int` is
an integer; an arithmetic result outside the range of a 32-bit `int` is
undefined in C and gives no result here.  `malloc` is taken to succeed, and the
array `prime` is a list of `n + 1` flags.  The counters `p` of the two counted
loops end at most at `n + 1`, a value that the size computation has already
checked.  The inner loop is a loop on a condition, so it carries an explicit
bound `fuel` on its number of rounds; running out of fuel gives no result. -/

/-- Largest value of an `int`. -/
def INT_MAX : Int := 2147483647

/-- Smallest value of an `int`. -/
def INT_MIN : Int := -2147483648

/-- The result of an `int` computation whose exact value is `x`: signed
overflow is undefined. -/
def checked (x : Int) : Option Int :=
  if INT_MIN ≤ x ∧ x ≤ INT_MAX then some x else none

/-- The inner loop `for (i = p*2; i <= n; i += p) prime[i] = false;` from the
current value of `i` on. -/
def markLoop (n p : Int) : Nat → Int → List Bool → Option (List Bool)
  | 0, _, _ => none
  | fuel + 1, i, prime =>
    if i ≤ n then
      (wr prime i false).bind fun prime1 =>
      (checked (i + p)).bind fun i1 => markLoop n p fuel i1 prime1
    else some prime

/-- One round of the outer loop `for (p = 2; p <= sqrt_n; p++)`: when
`prime[p] == true`, the multiples of `p` from `p*2` on are marked. -/
def sieveBody (fuel : Nat) (n : Int) (p : Nat) (prime : List Bool) : Option (List Bool) :=
  (rd prime p).bind fun b =>
  if b = true then (checked ((p : Int) * 2)).bind fun i => markLoop n p fuel i prime
  else some prime

/-- The array `prime` after the marking loops.  The size `n + 1` is an `int`
sum; `int sqrt_n = sqrt(n)` is the integer part of the square root for
`n ≥ 0` (the root of an `int` is computed in double precision with correct
rounding, which never reaches the next integer) and has no defined value for
`n < 0`; `memset` sets all `n + 1` flags to `true`. -/
def sieveArray (fuel : Nat) (n : Int) : Option (List Bool) :=
  (checked (n + 1)).bind fun size =>
  if n < 0 then none
  else forLoop (sieveBody fuel n) 2 (Nat.sqrt n.toNat - 1) (List.replicate size.toNat true)

/-- One round of the counting loop `for (int p = 2; p <= n; p++)`. -/
def countBody (prime : List Bool) (p : Nat) (primes : Int) : Option Int :=
  (rd prime p).bind fun b => if b = true then checked (primes + 1) else some primes

/-- The function `sieveOfEratosthenes`: the marking loops, then the count. -/
def sieveOfEratosthenes (fuel : Nat) (n : Int) : Option Int :=
  (sieveArray fuel n).bind fun prime => forLoop (countBody prime) 2 (n.toNat - 1) 0

/-- No `d` with `2 ≤ d < q` is a proper divisor of `m`: the flag of `m` after
the rounds `p < q` of the outer loop. -/
def Unmarked (q m : Nat) : Prop :=
  ∀ d, d < q → ¬ (2 ≤ d ∧ d ∣ m ∧ d < m)

instance (q m : Nat) : Decidable (Unmarked q m) := by
  unfold Unmarked
  infer_instance

/-! ## Generic facts about loops, reads and writes -/

theorem forLoop_closed {σ : Type} (body : Nat → σ → Option σ) (F : Nat → σ) :
    ∀ (n lo : Nat), (∀ i, lo ≤ i → i < lo + n → body i (F i) = some (F (i + 1))) →
      forLoop body lo n (F lo) = some (F (lo + n))
  | 0, lo, _ => by simp [forLoop]
  | n + 1, lo, h => by
    have h1 := h lo (Nat.le_refl _) (by omega)
    have h2 := forLoop_closed body F n (lo + 1) (fun i hi1 hi2 => h i (by omega) (by omega))
    simp only [forLoop, h1, Option.some_bind, h2]
    congr 2
    omega

theorem forLoop_some_inv {σ : Type} (body : Nat → σ → Option σ) (Inv : Nat → σ → Prop)
    (hstep : ∀ i s s1, body i s = some s1 → Inv i s → Inv (i + 1) s1) :
    ∀ (n lo : Nat) (s s1 : σ), forLoop body lo n s = some s1 → Inv lo s → Inv (lo + n) s1
  | 0, lo, s, s1, h, h0 => by
    simp only [forLoop, Option.some.injEq] at h
    subst h
    exact h0
  | n + 1, lo, s, s1, h, h0 => by
    simp only [forLoop] at h
    cases hb : body lo s with
    | none => simp [hb] at h
    | some s2 =>
      rw [hb, Option.some_bind] at h
      have := forLoop_some_inv body Inv hstep n (lo + 1) s2 s1 h (hstep lo s s2 hb h0)
      have e : lo + (n + 1) = lo + 1 + n := by omega
      rw [e]
      exact this

@[simp] theorem vec_length {β : Type} (n : Nat) (g : Nat → β) : (vec n g).length = n := by
  simp [vec]

theorem vec_getElem? {β : Type} {n i : Nat} (g : Nat → β) (h : i < n) :
    (vec n g)[i]? = some (g i) := by
  simp [vec, List.getElem?_range h]

theorem vec_congr {β : Type} {n : Nat} {g g1 : Nat → β} (h : ∀ i, i < n → g i = g1 i) :
    vec n g = vec n g1 := by
  apply List.ext_getElem? 
  intro i
  by_cases hi : i < n
  · rw [vec_getElem? g hi, vec_getElem? g1 hi, h i hi]
  · rw [List.getElem?_eq_none (by simpa using hi), List.getElem?_eq_none (by simpa using hi)]

theorem rd_vec {β : Type} {n i : Nat} (g : Nat → β) (h : i < n) :
    rd (vec n g) (i : Int) = some (g i) := by
  simp [rd, vec_getElem? g h]

theorem wr_vec {β : Type} {n i : Nat} (g : Nat → β) (h : i < n) (x : β) :
    wr (vec n g) (i : Int) x = some (vec n (Function.update g i x)) := by
  have hl : i < (vec n g).length := by simpa using h
  simp only [wr, Int.toNat_ofNat, hl, Int.natCast_nonneg, and_self, if_true]
  congr 1
  apply List.ext_getElem?
  intro j
  by_cases hj : j < n
  · rw [vec_getElem? _ hj, List.getElem?_set]
    by_cases e : i = j
    · subst e; simp [hj]
    · simp [e, vec_getElem? g hj, Function.update_noteq (Ne.symm e)]
  · rw [List.getElem?_eq_none (by simpa using hj), List.getElem?_eq_none (by simpa using hj)]

theorem eq_vec {β : Type} (l : List β) (x : β) : l = vec l.length (fun i => l.getD i x) := by
  apply List.ext_getElem?
  intro i
  by_cases hi : i < l.length
  · rw [vec_getElem? _ hi, List.getD_eq_getElem?_getD, List.getElem?_eq_getElem hi]
    simp
  · rw [List.getElem?_eq_none (by simpa using hi), List.getElem?_eq_none (by simpa using hi)]

theorem eq_mat {M : List (List α)} {N D : Nat} (hN : M.length = N)
    (hD : ∀ p ∈ M, p.length = D) : M = mat N D (entry M) := by
  subst hN
  unfold mat
  conv_lhs => rw [eq_vec M []]
  apply vec_congr
  intro i hi
  have : (M.getD i []).length = D := by
    apply hD
    rw [List.getD_eq_getElem?_getD, List.getElem?_eq_getElem hi]
    simp
  conv_lhs => rw [eq_vec (M.getD i []) 0, this]
  rfl

/-! ## Closed form of `euclid` and of the assignment pass -/

theorem euclid_vec (sqrt : α → α) (D : Nat) (x y : Nat → α) :
    euclid sqrt (vec D x) (vec D y) = some (sqrt (sqDist D x y)) := by
  have h := forLoop_closed (euclidBody (vec D x) (vec D y))
    (fun i => ∑ j in Finset.range i, (x j - y j) * (x j - y j)) D 0 (by
      intro i _ hi
      have hi : i < D := by omega
      simp [euclidBody, rd_vec x hi, rd_vec y hi, Finset.sum_range_succ])
  simp only [Finset.range_zero, Finset.sum_empty, Nat.zero_add] at h
  simp [euclid, h, sqDist]

theorem argmin_lt (dist : Nat → α) : ∀ K, 0 < K → argmin dist K < K
  | 1, _ => by simp [argmin]
  | K + 2, _ => by
    have := argmin_lt dist (K + 1) (by omega)
    rw [argmin]
    split <;> omega

theorem argmin_le (dist : Nat → α) : ∀ K j, j < K → dist (argmin dist K) ≤ dist j
  | K + 1, j, hj => by
    rw [argmin]
    by_cases e : j = K
    · subst e
      split
      · exact le_refl _
      · exact le_of_not_lt (by assumption)
    · have ih := argmin_le dist K j (by omega)
      split
      · exact le_trans (le_of_lt (by assumption)) ih
      · exact ih

theorem argmin_first (dist : Nat → α) :
    ∀ K j, j < argmin dist K → dist (argmin dist K) < dist j
  | 0, j, hj => by simp [argmin] at hj
  | K + 1, j, hj => by
    rw [argmin] at hj ⊢
    split
    · rename_i h
      rw [if_pos h] at hj
      by_cases hK : K = 0
      · omega
      · exact lt_of_lt_of_le h (argmin_le dist K j hj)
    · rename_i h
      rw [if_neg h] at hj
      exact argmin_first dist K j hj

theorem nearest_mat (sqrt : α → α) (K D : Nat) (C : Nat → Nat → α) (x : Nat → α) :
    nearest sqrt (mat K D C) K (vec D x)
      = some ((argmin (distTo sqrt D C x) K : Nat) : Int) := by
  have h := forLoop_closed (nearestBody sqrt (mat K D C) (vec D x))
    (fun k => (bestAt (distTo sqrt D C x) k, ((argmin (distTo sqrt D C x) k : Nat) : Int)))
    K 0 (by
      intro k _ hk
      have hk : k < K := by omega
      have hr : rd (mat K D C) (k : Int) = some (vec D (C k)) := rd_vec _ hk
      simp only [nearestBody, hr, Option.some_bind, euclid_vec]
      by_cases h0 : k = 0
      · subst h0
        simp [bestAt, argmin, distTo]
      · simp only [bestAt, h0, if_false, WithTop.coe_lt_coe, Nat.succ_ne_zero]
        rw [argmin]
        simp only [distTo]
        split <;> rfl)
  simp only [Nat.zero_add] at h
  have e : (bestAt (distTo sqrt D C x) 0, ((argmin (distTo sqrt D C x) 0 : Nat) : Int))
      = ((⊤ : WithTop α), (0 : Int)) := by simp [bestAt, argmin]
  rw [e] at h
  simp [nearest, h]

theorem assign_mat (sqrt : α → α) (N K D : Nat) (X C : Nat → Nat → α) (lab : Nat → Int) :
    assign sqrt (mat N D X) (mat K D C) N K (vec N lab)
      = some (vec N (newLabel sqrt K D X C),
          decide (∃ j, j < N ∧ lab j ≠ newLabel sqrt K D X C j)) := by
  have h := forLoop_closed (assignBody sqrt (mat N D X) (mat K D C) K)
    (fun i => (vec N (fun j => if j < i then newLabel sqrt K D X C j else lab j),
        decide (∃ j, j < i ∧ lab j ≠ newLabel sqrt K D X C j)))
    N 0 (by
      intro i _ hi
      have hi : i < N := by omega
      have hr : rd (mat N D X) (i : Int) = some (vec D (X i)) := rd_vec _ hi
      simp only [assignBody, hr, Option.some_bind, nearest_mat, rd_vec _ hi,
        lt_irrefl, if_false]
      by_cases hc : lab i = newLabel sqrt K D X C i
      · have hc1 : ¬ lab i ≠ ((argmin (distTo sqrt D C (X i)) K : Nat) : Int) := by
          simpa [newLabel] using hc
        rw [if_neg hc1]
        congr 2
        · apply vec_congr
          intro j _
          by_cases hj : j = i
          · subst hj; simp [hc]
          · have : j < i + 1 ↔ j < i := by omega
            simp [this]
        · apply decide_eq_decide.2
          constructor
          · rintro ⟨j, hj, hne⟩
            exact ⟨j, by omega, hne⟩
          · rintro ⟨j, hj, hne⟩
            have : j ≠ i := by
              rintro rfl
              exact hne hc
            exact ⟨j, by omega, hne⟩
      · have hc1 : lab i ≠ ((argmin (distTo sqrt D C (X i)) K : Nat) : Int) := by
          simpa [newLabel] using hc
        rw [if_pos hc1, wr_vec _ hi]
        simp only [Option.map_some', Option.some.injEq, Prod.mk.injEq]
        constructor
        · apply vec_congr
          intro j _
          by_cases hj : j = i
          · subst hj; simp [newLabel]
          · have : j < i + 1 ↔ j < i := by omega
            simp [this, Function.update_noteq hj]
        · symm
          apply decide_eq_true
          exact ⟨i, by omega, hc⟩)
  simp only [Nat.zero_add] at h
  have e0 : vec N (fun j => if j < 0 then newLabel sqrt K D X C j else lab j) = vec N lab :=
    vec_congr (by intro j _; simp)
  have eN : vec N (fun j => if j < N then newLabel sqrt K D X C j else lab j)
      = vec N (newLabel sqrt K D X C) :=
    vec_congr (by intro j hj; simp [hj])
  simp only [e0, eN, Nat.not_lt_zero, false_and, exists_false, decide_False] at h
  exact h

/-! ## Closed form of the reduction and of the update -/

theorem mat_congr {β : Type} {K D : Nat} {f g : Nat → Nat → β}
    (h : ∀ k, k < K → ∀ d, d < D → f k d = g k d) : mat K D f = mat K D g :=
  vec_congr fun k hk => vec_congr fun d hd => h k hk d hd

theorem rd_mat {β : Type} {K k : Nat} (D : Nat) (f : Nat → Nat → β) (h : k < K) :
    rd (mat K D f) (k : Int) = some (vec D (f k)) := rd_vec _ h

theorem wr_mat {β : Type} {K k : Nat} (D : Nat) (f : Nat → Nat → β) (h : k < K)
    (g : Nat → β) :
    wr (mat K D f) (k : Int) (vec D g) = some (mat K D (Function.update f k g)) := by
  unfold mat
  rw [wr_vec _ h]
  congr 1
  apply vec_congr
  intro j _
  by_cases e : j = k
  · subst e; simp
  · simp [Function.update_noteq e]

theorem replicate_eq_vec {β : Type} (n : Nat) (x : β) : List.replicate n x = vec n fun _ => x := by
  apply List.ext_getElem?
  intro i
  by_cases hi : i < n
  · rw [vec_getElem? _ hi, List.getElem?_replicate]
    simp [hi]
  · rw [List.getElem?_eq_none (by simpa using hi), List.getElem?_eq_none (by simpa using hi)]

theorem replicate_eq_mat {β : Type} (K D : Nat) (x : β) :
    List.replicate K (List.replicate D x) = mat K D fun _ _ => x := by
  rw [replicate_eq_vec K, replicate_eq_vec D]
  rfl

theorem sumLoop_mat (N K D : Nat) (X S : Nat → Nat → α) {i k : Nat} (hi : i < N)
    (hk : k < K) :
    forLoop (sumBody (mat N D X) i (k : Int)) 0 D (mat K D S)
      = some (mat K D fun k1 d1 => if k1 = k then S k1 d1 + X i d1 else S k1 d1) := by
  have h := forLoop_closed (sumBody (mat N D X) i (k : Int))
    (fun d => mat K D fun k1 d1 => if k1 = k ∧ d1 < d then S k1 d1 + X i d1 else S k1 d1)
    D 0 (by
      intro d _ hd
      have hd : d < D := by omega
      simp only [sumBody, rd_mat D _ hk, rd_mat D _ hi, rd_vec _ hd, wr_vec _ hd,
        Option.some_bind, wr_mat D _ hk]
      congr 1
      apply mat_congr
      intro k1 _ d1 _
      by_cases e : k1 = k
      · subst e
        by_cases e1 : d1 = d
        · subst e1; simp
        · have : d1 < d + 1 ↔ d1 < d := by omega
          simp [Function.update_noteq e1, this]
      · simp [Function.update_noteq e, e])
  simp only [Nat.zero_add] at h
  rw [show (mat K D fun k1 d1 => if k1 = k ∧ d1 < 0 then S k1 d1 + X i d1 else S k1 d1)
      = mat K D S from mat_congr (by intro k1 _ d1 _; simp)] at h
  rw [h]
  congr 1
  apply mat_congr
  intro k1 _ d1 hd1
  simp [hd1]

theorem members_succ (lab : Nat → Int) (n k : Nat) :
    members lab (n + 1) k
      = if lab n = (k : Int) then insert n (members lab n k) else members lab n k := by
  unfold members
  rw [Finset.range_succ, Finset.filter_insert]

theorem not_mem_members (lab : Nat → Int) (n k : Nat) : n ∉ members lab n k := by
  simp [members]

theorem reduce_mat (N K D : Nat) (X : Nat → Nat → α) (lab : Nat → Int)
    (hlab : ∀ i, i < N → 0 ≤ lab i ∧ lab i < (K : Int)) :
    reduce (mat N D X) N K D (vec N lab)
      = some (mat K D (sumOf X lab N), vec K (countOf lab N)) := by
  have h := forLoop_closed (reduceBody (mat N D X) D (vec N lab))
    (fun i => (mat K D (sumOf X lab i), vec K (countOf lab i))) N 0 (by
      intro i _ hi
      have hi : i < N := by omega
      obtain ⟨h0, h1⟩ := hlab i hi
      obtain ⟨k, hk⟩ := Int.eq_ofNat_of_zero_le h0
      have hkK : k < K := by omega
      simp only [reduceBody, rd_vec _ hi, hk, rd_vec _ hkK, wr_vec _ hkK, Option.some_bind,
        sumLoop_mat N K D X _ hi hkK, Option.some.injEq, Prod.mk.injEq]
      constructor
      · apply mat_congr
        intro k1 _ d1 _
        simp only [sumOf, members_succ, hk, Nat.cast_inj]
        by_cases e : k1 = k
        · subst e
          simp [Finset.sum_insert (not_mem_members lab i k1), add_comm]
        · simp [e, Ne.symm e]
      · apply vec_congr
        intro k1 _
        simp only [countOf, members_succ, hk, Nat.cast_inj]
        by_cases e : k1 = k
        · subst e
          simp [Finset.card_insert_of_not_mem (not_mem_members lab i k1)]
        · simp [Function.update_noteq e, Ne.symm e, countOf])
  simp only [Nat.zero_add] at h
  have e1 : (mat K D fun _ _ => (0 : α)) = mat K D (sumOf X lab 0) :=
    mat_congr (by intro k _ d _; simp [sumOf, members])
  have e2 : (vec K fun _ => (0 : Int)) = vec K (countOf lab 0) :=
    vec_congr (by intro k _; simp [countOf, members])
  rw [reduce, replicate_eq_mat, replicate_eq_vec, e1, e2, h]

theorem divLoop_mat (K D : Nat) (S C : Nat → Nat → α) (cnt : Nat → Int) {k : Nat}
    (hk : k < K) (hc : cnt k ≠ 0) :
    forLoop (divBody (mat K D S) (vec K cnt) k) 0 D (mat K D C)
      = some (mat K D fun k1 d1 => if k1 = k then S k1 d1 / (cnt k1 : α) else C k1 d1) := by
  have h := forLoop_closed (divBody (mat K D S) (vec K cnt) k)
    (fun d => mat K D fun k1 d1 =>
      if k1 = k ∧ d1 < d then S k1 d1 / (cnt k1 : α) else C k1 d1)
    D 0 (by
      intro d _ hd
      have hd : d < D := by omega
      simp only [divBody, rd_mat D _ hk, rd_vec _ hk, rd_vec _ hd, wr_vec _ hd, divide, hc,
        if_false, Option.some_bind, wr_mat D _ hk]
      congr 1
      apply mat_congr
      intro k1 _ d1 _
      by_cases e : k1 = k
      · subst e
        by_cases e1 : d1 = d
        · subst e1; simp
        · have : d1 < d + 1 ↔ d1 < d := by omega
          simp [Function.update_noteq e1, this]
      · simp [Function.update_noteq e, e])
  simp only [Nat.zero_add] at h
  rw [show (mat K D fun k1 d1 => if k1 = k ∧ d1 < 0 then S k1 d1 / (cnt k1 : α) else C k1 d1)
      = mat K D C from mat_congr (by intro k1 _ d1 _; simp)] at h
  rw [h]
  congr 1
  apply mat_congr
  intro k1 _ d1 hd1
  simp [hd1]

theorem update_mat (K D : Nat) (S C : Nat → Nat → α) (cnt : Nat → Int) :
    update (mat K D S) (vec K cnt) K D (mat K D C) = some (mat K D (updated S cnt C)) := by
  have h := forLoop_closed (updateBody (mat K D S) (vec K cnt) D)
    (fun k => mat K D fun k1 d1 => if k1 < k then updated S cnt C k1 d1 else C k1 d1)
    K 0 (by
      intro k _ hk
      have hk : k < K := by omega
      simp only [updateBody, rd_vec _ hk, Option.some_bind]
      by_cases hc : cnt k = 0
      · rw [if_pos hc]
        congr 1
        apply mat_congr
        intro k1 _ d1 _
        by_cases e : k1 = k
        · subst e; simp [updated, hc]
        · have : k1 < k + 1 ↔ k1 < k := by omega
          simp [this]
      · rw [if_neg hc, divLoop_mat K D S _ cnt hk hc]
        congr 1
        apply mat_congr
        intro k1 _ d1 _
        by_cases e : k1 = k
        · subst e; simp [updated, hc]
        · have : k1 < k + 1 ↔ k1 < k := by omega
          simp [this, e])
  simp only [Nat.zero_add] at h
  rw [show (mat K D fun k1 d1 => if k1 < 0 then updated S cnt C k1 d1 else C k1 d1)
      = mat K D C from mat_congr (by intro k1 _ d1 _; simp)] at h
  rw [update, h]
  congr 1
  apply mat_congr
  intro k1 hk1 d1 _
  simp [hk1]

/-! ## From well-formed lists to tables -/

theorem vec_getElem?_eq_some {β : Type} {n i : Nat} {g : Nat → β} {p : β}
    (h : (vec n g)[i]? = some p) : i < n ∧ p = g i := by
  by_cases hi : i < n
  · rw [vec_getElem? g hi] at h
    exact ⟨hi, (Option.some.inj h).symm⟩
  · rw [List.getElem?_eq_none (by simpa using hi)] at h
    cases h

theorem shaped_eq_mat {M : List (List α)} {n D : Nat} (h : Shaped M n D) :
    M = mat n D (entry M) := eq_mat h.1 h.2

theorem shaped_mat {β : Type} (n D : Nat) (f : Nat → Nat → β) : Shaped (mat n D f) n D := by
  refine ⟨by simp [mat], ?_⟩
  intro p hp
  obtain ⟨i, hi⟩ := List.getElem?_of_mem hp
  obtain ⟨_, rfl⟩ := vec_getElem?_eq_some hi
  simp

theorem entry_mat {n D i d : Nat} (f : Nat → Nat → α) (hi : i < n) (hd : d < D) :
    entry (mat n D f) i d = f i d := by
  simp [entry, mat, List.getD_eq_getElem?_getD, vec_getElem? _ hi, vec_getElem? _ hd]

theorem labels_eq_vec {labels : List Int} {N : Nat} (h : labels.length = N) :
    labels = vec N fun i => labels.getD i 0 := by
  subst h
  exact eq_vec labels 0

theorem getD_of_getElem? {β : Type} {l : List β} {i : Nat} {x y : β} (h : l[i]? = some x) :
    l.getD i y = x := by
  rw [List.getD_eq_getElem?_getD, h, Option.getD_some]

theorem getElem?_of_lt_length {labels : List Int} {N i : Nat} (h : labels.length = N)
    (hi : i < N) : labels[i]? = some (labels.getD i 0) := by
  conv_lhs => rw [labels_eq_vec h]
  exact vec_getElem? _ hi

theorem inRange_getD {labels : List Int} {N K : Nat} (h : labels.length = N)
    (hr : InRange K labels) : ∀ i, i < N → 0 ≤ labels.getD i 0 ∧ labels.getD i 0 < (K : Int) := by
  intro i hi
  apply hr
  exact List.getElem?_mem (getElem?_of_lt_length h hi)

theorem newLabel_range (sqrt : α → α) {K : Nat} (hK : 0 < K) (D : Nat) (X C : Nat → Nat → α)
    (i : Nat) : 0 ≤ newLabel sqrt K D X C i ∧ newLabel sqrt K D X C i < (K : Int) := by
  unfold newLabel
  have := argmin_lt (distTo sqrt D C (X i)) K hK
  omega

theorem inRange_vec {N K : Nat} {lab : Nat → Int}
    (h : ∀ i, i < N → 0 ≤ lab i ∧ lab i < (K : Int)) : InRange K (vec N lab) := by
  intro l hl
  obtain ⟨i, hi⟩ := List.getElem?_of_mem hl
  obtain ⟨hi2, rfl⟩ := vec_getElem?_eq_some hi
  exact h i hi2

theorem members_eq_cluster {labels : List Int} {N : Nat} (h : labels.length = N) (k : Nat) :
    members (fun i => labels.getD i 0) N k = cluster labels N k := by
  unfold members cluster
  apply Finset.filter_congr
  intro i hi
  rw [getElem?_of_lt_length h (Finset.mem_range.1 hi)]
  simp

theorem vec_sum (n : Nat) (g : Nat → Int) : (vec n g).sum = ∑ k in Finset.range n, g k := by
  induction n with
  | zero => simp [vec]
  | succ n ih =>
    unfold vec at ih ⊢
    rw [List.range_succ, List.map_append, List.sum_append, ih, Finset.sum_range_succ]
    simp

theorem countOf_sum {N K : Nat} {lab : Nat → Int}
    (h : ∀ i, i < N → 0 ≤ lab i ∧ lab i < (K : Int)) :
    ∑ k in Finset.range K, countOf lab N k = (N : Int) := by
  have hmaps : ∀ i ∈ Finset.range N, (lab i).toNat ∈ Finset.range K := by
    intro i hi
    have := h i (Finset.mem_range.1 hi)
    rw [Finset.mem_range]
    omega
  have hcard := Finset.card_eq_sum_card_fiberwise hmaps
  rw [Finset.card_range] at hcard
  have hfib : ∀ k, (Finset.range N).filter (fun i => (lab i).toNat = k) = members lab N k := by
    intro k
    unfold members
    apply Finset.filter_congr
    intro i hi
    have := h i (Finset.mem_range.1 hi)
    omega
  simp only [hfib] at hcard
  unfold countOf
  rw [← Nat.cast_sum, ← hcard]

/-! ## Auxiliary facts for the claims -/

theorem mainLoop_mat (sqrt : α → α) (N K D : Nat) (hK : 0 < K) (X C : Nat → Nat → α)
    (lab : Nat → Int) (fuel iter : Nat) :
    mainLoop sqrt (mat N D X) N K D (fuel + 1) iter (mat K D C) (vec N lab)
      = if ∃ j, j < N ∧ lab j ≠ newLabel sqrt K D X C j then
          mainLoop sqrt (mat N D X) N K D fuel (iter + 1)
            (mat K D (updated (sumOf X (newLabel sqrt K D X C) N)
              (countOf (newLabel sqrt K D X C) N) C))
            (vec N (newLabel sqrt K D X C))
        else some ⟨mat K D C, vec N (newLabel sqrt K D X C), some iter⟩ := by
  rw [mainLoop, assign_mat]
  simp only [Option.some_bind]
  by_cases h : ∃ j, j < N ∧ lab j ≠ newLabel sqrt K D X C j
  · simp only [h, decide_True, Bool.not_true, if_true]
    rw [reduce_mat N K D X _ (fun i _ => newLabel_range sqrt hK D X C i)]
    simp only [Option.some_bind, update_mat]
    rfl
  · simp [h]

theorem mainLoop_total (sqrt : α → α) (N K D : Nat) (hK : 0 < K) (X : Nat → Nat → α) :
    ∀ (fuel iter : Nat) (C : Nat → Nat → α) (lab : Nat → Int),
      ∃ out, mainLoop sqrt (mat N D X) N K D (fuel + 1) iter (mat K D C) (vec N lab) = some out ∧
        Shaped out.centroids K D ∧ out.labels.length = N ∧ InRange K out.labels
  | 0, iter, C, lab => by
    rw [mainLoop_mat sqrt N K D hK]
    split
    · exact ⟨_, rfl, shaped_mat _ _ _, by simp,
        inRange_vec fun i _ => newLabel_range sqrt hK D X _ i⟩
    · exact ⟨_, rfl, shaped_mat _ _ _, by simp,
        inRange_vec fun i _ => newLabel_range sqrt hK D X _ i⟩
  | fuel + 1, iter, C, lab => by
    rw [mainLoop_mat sqrt N K D hK]
    split
    · exact mainLoop_total sqrt N K D hK X fuel (iter + 1) _ _
    · exact ⟨_, rfl, shaped_mat _ _ _, by simp,
        inRange_vec fun i _ => newLabel_range sqrt hK D X _ i⟩

theorem count_eq_vec {count : List Int} {K : Nat} (h : count.length = K) :
    count = vec K fun k => count.getD k 0 := labels_eq_vec h

theorem assign_unchanged (sqrt : α → α) (data centroids : List (List α)) (N K : Nat)
    (labels labels1 : List Int)
    (h : assign sqrt data centroids N K labels = some (labels1, false)) : labels1 = labels := by
  have := forLoop_some_inv (assignBody sqrt data centroids K)
    (fun _ st => st.2 = false → st.1 = labels) (by
      intro i s s1 hb hinv
      simp only [assignBody, Option.bind_eq_some] at hb
      obtain ⟨p, _, who, _, li, _, hb⟩ := hb
      split at hb
      · simp only [Option.map_eq_some'] at hb
        obtain ⟨l, _, rfl⟩ := hb
        intro hf
        cases hf
      · cases hb
        exact hinv) N 0 (labels, false) (labels1, false) h (fun _ => rfl)
  exact this rfl

theorem first_pass_changes (sqrt : α → α) {N K : Nat} (hN : 0 < N) (hK : 0 < K) (D : Nat)
    (X C : Nat → Nat → α) : ∃ j, j < N ∧ (-1 : Int) ≠ newLabel sqrt K D X C j := by
  refine ⟨0, hN, ?_⟩
  have := newLabel_range sqrt hK D X C 0
  omega

theorem sqrt_lt (sqrt : α → α) (hs : StrictMonoOn sqrt (Set.Ici 0)) {a b : α} (ha : 0 ≤ a)
    (hab : a < b) : sqrt a < sqrt b :=
  hs (Set.mem_Ici.2 ha) (Set.mem_Ici.2 (le_trans ha (le_of_lt hab))) hab

theorem scenario_assign1 (sqrt : α → α) (hs : StrictMonoOn sqrt (Set.Ici 0)) :
    assign sqrt [[0, 0], [0, 1], [10, 0], [10, 1]] [[0, 0], [10, 0]] 4 2 [-1, -1, -1, -1]
      = some ([0, 0, 1, 1], true) := by
  have h1 : sqrt 0 < sqrt 100 := sqrt_lt sqrt hs (by norm_num) (by norm_num)
  have h2 : sqrt 1 < sqrt 101 := sqrt_lt sqrt hs (by norm_num) (by norm_num)
  simp [assign, forLoop, assignBody, nearest, nearestBody, euclid, euclidBody, rd, wr]
  norm_num
  simp [h1, h2, not_lt_of_lt h1, not_lt_of_lt h2]

theorem scenario_reduce :
    reduce [[(0 : α), 0], [0, 1], [10, 0], [10, 1]] 4 2 2 [0, 0, 1, 1]
      = some ([[0, 1], [20, 1]], [2, 2]) := by
  simp [reduce, forLoop, reduceBody, sumBody, rd, wr]
  norm_num

theorem scenario_update :
    update [[(0 : α), 1], [20, 1]] [2, 2] 2 2 [[0, 0], [10, 0]]
      = some [[0, 1 / 2], [10, 1 / 2]] := by
  simp [update, forLoop, updateBody, divBody, divide, rd, wr]
  norm_num

theorem scenario_assign2 (sqrt : α → α) (hs : StrictMonoOn sqrt (Set.Ici 0)) :
    assign sqrt [[0, 0], [0, 1], [10, 0], [10, 1]] [[0, 1 / 2], [10, 1 / 2]] 4 2 [0, 0, 1, 1]
      = some ([0, 0, 1, 1], false) := by
  have h1 : sqrt 4⁻¹ < sqrt (401 / 4) := sqrt_lt sqrt hs (by norm_num) (by norm_num)
  simp [assign, forLoop, assignBody, nearest, nearestBody, euclid, euclidBody, rd, wr]
  norm_num
  simp [h1, not_lt_of_lt h1]

theorem scenario_loop (sqrt : α → α) (hs : StrictMonoOn sqrt (Set.Ici 0)) (fuel : Nat) :
    mainLoop sqrt [[0, 0], [0, 1], [10, 0], [10, 1]] 4 2 2 (fuel + 2) 0 [[0, 0], [10, 0]]
        [-1, -1, -1, -1]
      = some ⟨[[0, 1 / 2], [10, 1 / 2]], [0, 0, 1, 1], some 1⟩ := by
  rw [mainLoop, scenario_assign1 sqrt hs]
  simp only [Option.some_bind, Bool.not_true, Bool.false_eq_true, if_false, scenario_reduce,
    scenario_update]
  rw [mainLoop, scenario_assign2 sqrt hs]
  rfl

theorem real_sqrt_strictMonoOn : StrictMonoOn Real.sqrt (Set.Ici 0) :=
  fun _ ha _ _ hab => Real.sqrt_lt_sqrt (Set.mem_Ici.1 ha) hab

theorem scenario_tally : tally 2 [0, 0, 1, 1] = some [2, 2] := by
  decide

theorem sqDist_nonneg (D : Nat) (x y : Nat → α) : 0 ≤ sqDist D x y :=
  Finset.sum_nonneg fun i _ => mul_self_nonneg (x i - y i)

theorem sqDist_eq_zero {D : Nat} {x y : Nat → α} :
    sqDist D x y = 0 ↔ ∀ d, d < D → x d = y d := by
  unfold sqDist
  rw [Finset.sum_eq_zero_iff_of_nonneg (fun i _ => mul_self_nonneg (x i - y i))]
  constructor
  · intro h d hd
    have := h d (Finset.mem_range.2 hd)
    exact sub_eq_zero.1 (mul_self_eq_zero.1 this)
  · intro h d hd
    rw [h d (Finset.mem_range.1 hd), sub_self, mul_zero]

theorem entry_eq_of_row_eq {M M1 : List (List α)} {i k : Nat} {p : List α}
    (h1 : M[i]? = some p) (h2 : M1[k]? = some p) (d : Nat) : entry M i d = entry M1 k d := by
  unfold entry
  rw [getD_of_getElem? h1, getD_of_getElem? h2]

theorem row_of_shaped {M : List (List α)} {n D i : Nat} (h : Shaped M n D) (hi : i < n) :
    M[i]? = some (vec D (entry M i)) := by
  conv_lhs => rw [shaped_eq_mat h]
  exact vec_getElem? _ hi

theorem cluster_vec (N k : Nat) (lab : Nat → Int) :
    cluster (vec N lab) N k = members lab N k := by
  unfold members cluster
  apply Finset.filter_congr
  intro i hi
  rw [vec_getElem? _ (Finset.mem_range.1 hi)]
  simp

/-- With a centroid equal to the point among the `K` centroids, the nearest
centroid of the point is equal to the point. -/
theorem nearest_is_copy (sqrt : α → α) (hs : StrictMonoOn sqrt (Set.Ici 0)) (K D : Nat)
    (C : Nat → Nat → α) (x : Nat → α) (k0 : Nat) (hk0 : k0 < K)
    (hcopy : ∀ d, d < D → x d = C k0 d) :
    ∀ d, d < D → x d = C (argmin (distTo sqrt D C x) K) d := by
  apply sqDist_eq_zero.1
  by_contra hne
  have hpos : 0 < sqDist D x (C (argmin (distTo sqrt D C x) K)) :=
    lt_of_le_of_ne (sqDist_nonneg _ _ _) (Ne.symm hne)
  have h1 := sqrt_lt sqrt hs (le_refl 0) hpos
  have h2 := argmin_le (distTo sqrt D C x) K k0 hk0
  have h3 : distTo sqrt D C x k0 = sqrt 0 := by
    unfold distTo
    rw [sqDist_eq_zero.2 hcopy]
  rw [h3] at h2
  exact absurd h1 (not_lt.2 h2)

theorem shaped_of_perm {β : Type} {data centroids : List (List β)} {N D : Nat}
    (hdata : Shaped data N D)
    (hperm : centroids.Perm data) : Shaped centroids N D :=
  ⟨hperm.length_eq.trans hdata.1, fun p hp => hdata.2 p (hperm.mem_iff.1 hp)⟩

theorem lt_of_getElem?_shaped {β : Type} {M : List (List β)} {n D i : Nat} {p : List β}
    (h : Shaped M n D) (hp : M[i]? = some p) : i < n := by
  rw [← h.1]
  exact (List.getElem?_eq_some.1 hp).1

theorem own_label (sqrt : α → α) (hs : StrictMonoOn sqrt (Set.Ici 0))
    (data centroids : List (List α)) (N D : Nat) (hdata : Shaped data N D)
    (hperm : centroids.Perm data) (i : Nat) (hi : i < N) :
    argmin (distTo sqrt D (entry centroids) (entry data i)) N < N ∧
    centroids[argmin (distTo sqrt D (entry centroids) (entry data i)) N]? = data[i]? := by
  have hcent := shaped_of_perm hdata hperm
  have ht := argmin_lt (distTo sqrt D (entry centroids) (entry data i)) N (by omega)
  refine ⟨ht, ?_⟩
  have hrow := row_of_shaped hdata hi
  obtain ⟨k0, hk0⟩ := List.getElem?_of_mem (hperm.mem_iff.2 (List.getElem?_mem hrow))
  have hcopy := nearest_is_copy sqrt hs N D (entry centroids) (entry data i) k0
    (lt_of_getElem?_shaped hcent hk0) (fun d _ => entry_eq_of_row_eq hrow hk0 d)
  rw [row_of_shaped hcent ht, hrow]
  congr 1
  exact vec_congr fun d hd => (hcopy d hd).symm

theorem own_cluster (sqrt : α → α) (hs : StrictMonoOn sqrt (Set.Ici 0))
    (data centroids : List (List α)) (N D : Nat) (hdata : Shaped data N D)
    (hnodup : data.Nodup) (hperm : centroids.Perm data) (k : Nat) (hk : k < N) :
    ∃ i0, i0 < N ∧ centroids[k]? = data[i0]? ∧
      members (newLabel sqrt N D (entry data) (entry centroids)) N k = {i0} := by
  have hcent := shaped_of_perm hdata hperm
  have hrow := row_of_shaped hcent hk
  obtain ⟨i0, hi0⟩ := List.getElem?_of_mem (hperm.mem_iff.1 (List.getElem?_mem hrow))
  have hi0N := lt_of_getElem?_shaped hdata hi0
  obtain ⟨ht0, hc0⟩ := own_label sqrt hs data centroids N D hdata hperm i0 hi0N
  have hkk : argmin (distTo sqrt D (entry centroids) (entry data i0)) N = k :=
    List.getElem?_inj (by rw [hcent.1]; exact ht0) (hperm.nodup_iff.2 hnodup)
      (by rw [hc0, hi0, hrow])
  refine ⟨i0, hi0N, by rw [hrow, hi0], ?_⟩
  ext i
  simp only [members, Finset.mem_filter, Finset.mem_range, Finset.mem_singleton, newLabel,
    Nat.cast_inj]
  constructor
  · rintro ⟨hi, hik⟩
    obtain ⟨_, hc⟩ := own_label sqrt hs data centroids N D hdata hperm i hi
    rw [hik, hrow, ← hi0] at hc
    exact List.getElem?_inj (by rw [hdata.1]; exact hi) hnodup hc.symm
  · rintro rfl
    exact ⟨hi0N, hkk⟩

theorem own_update (sqrt : α → α) (hs : StrictMonoOn sqrt (Set.Ici 0))
    (data centroids : List (List α)) (N D : Nat) (hdata : Shaped data N D)
    (hnodup : data.Nodup) (hperm : centroids.Perm data) :
    mat N D (updated (sumOf (entry data) (newLabel sqrt N D (entry data) (entry centroids)) N)
        (countOf (newLabel sqrt N D (entry data) (entry centroids)) N) (entry centroids))
      = centroids := by
  conv_rhs => rw [shaped_eq_mat (shaped_of_perm hdata hperm)]
  apply mat_congr
  intro k hk d _
  obtain ⟨i0, hi0N, hrow, hmem⟩ := own_cluster sqrt hs data centroids N D hdata hnodup hperm k hk
  obtain ⟨p, hp⟩ : ∃ p, data[i0]? = some p := ⟨_, row_of_shaped hdata hi0N⟩
  have he : entry data i0 d = entry centroids k d :=
    entry_eq_of_row_eq hp (hrow.trans hp) d
  simp [updated, countOf, sumOf, hmem, he]

theorem dup_assign1 (sqrt : α → α) :
    assign sqrt [[0], [0]] [[0], [0]] 2 2 [-1, -1] = some ([0, 0], true) := by
  simp [assign, forLoop, assignBody, nearest, nearestBody, euclid, euclidBody, rd, wr]

theorem dup_reduce : reduce [[(0 : α)], [0]] 2 2 1 [0, 0] = some ([[0], [0]], [2, 0]) := by
  simp [reduce, forLoop, reduceBody, sumBody, rd, wr]

theorem dup_update : update [[(0 : α)], [0]] [2, 0] 2 1 [[0], [0]] = some [[0], [0]] := by
  simp [update, forLoop, updateBody, divBody, divide, rd, wr]

theorem dup_assign2 (sqrt : α → α) :
    assign sqrt [[0], [0]] [[0], [0]] 2 2 [0, 0] = some ([0, 0], false) := by
  simp [assign, forLoop, assignBody, nearest, nearestBody, euclid, euclidBody, rd, wr]

theorem dup_loop1 (sqrt : α → α) :
    mainLoop sqrt [[0], [0]] 2 2 1 1 0 [[0], [0]] [-1, -1]
      = some ⟨[[0], [0]], [0, 0], none⟩ := by
  rw [mainLoop, dup_assign1]
  simp only [Option.some_bind, Bool.not_true, Bool.false_eq_true, if_false, dup_reduce,
    dup_update]
  rfl

theorem dup_loop (sqrt : α → α) (fuel : Nat) :
    mainLoop sqrt [[0], [0]] 2 2 1 (fuel + 2) 0 [[0], [0]] [-1, -1]
      = some ⟨[[0], [0]], [0, 0], some 1⟩ := by
  rw [mainLoop, dup_assign1]
  simp only [Option.some_bind, Bool.not_true, Bool.false_eq_true, if_false, dup_reduce,
    dup_update]
  rw [mainLoop, dup_assign2]
  rfl

theorem pair_assign1 (sqrt : α → α) (hs : StrictMonoOn sqrt (Set.Ici 0)) :
    assign sqrt [[0], [1]] [[0], [1]] 2 2 [-1, -1] = some ([0, 1], true) := by
  have h1 : sqrt 0 < sqrt 1 := sqrt_lt sqrt hs (by norm_num) (by norm_num)
  simp [assign, forLoop, assignBody, nearest, nearestBody, euclid, euclidBody, rd, wr, h1,
    not_lt_of_lt h1]

theorem pair_reduce : reduce [[(0 : α)], [1]] 2 2 1 [0, 1] = some ([[0], [1]], [1, 1]) := by
  simp [reduce, forLoop, reduceBody, sumBody, rd, wr]

theorem pair_update : update [[(0 : α)], [1]] [1, 1] 2 1 [[0], [1]] = some [[0], [1]] := by
  simp [update, forLoop, updateBody, divBody, divide, rd, wr]

theorem pair_loop1 (sqrt : α → α) (hs : StrictMonoOn sqrt (Set.Ici 0)) :
    mainLoop sqrt [[0], [1]] 2 2 1 1 0 [[0], [1]] [-1, -1]
      = some ⟨[[0], [1]], [0, 1], none⟩ := by
  rw [mainLoop, pair_assign1 sqrt hs]
  simp only [Option.some_bind, Bool.not_true, Bool.false_eq_true, if_false, pair_reduce,
    pair_update]
  rfl

/-! ## The claims -/

/-- C1: assignment is a lowest-index argmin.  For every point set, every
`K ≥ 1` and every list of `K` centroids of the points' dimension, the
assignment pass returns, and the label it writes for point `i` is the smallest
`k` in `[0, K)` with `euclid(data[i], centroids[k]) ≤ euclid(data[i], centroids[j])`
for every `j` in `[0, K)`. -/
theorem assign_lowest_index_argmin (sqrt : α → α) (data centroids : List (List α))
    (labels : List Int) (N K D : Nat) (hK : 1 ≤ K) (hdata : Shaped data N D)
    (hcent : Shaped centroids K D) (hlab : labels.length = N) :
    ∃ labels1 changed, assign sqrt data centroids N K labels = some (labels1, changed) ∧
      labels1.length = N ∧
      ∀ (i : Nat) (p : List α), data[i]? = some p →
        ∃ (k : Nat) (dist : Nat → α), labels1[i]? = some (k : Int) ∧
          (∀ j c, centroids[j]? = some c → euclid sqrt p c = some (dist j)) ∧
          IsLowestArgmin dist K k := by
  rw [shaped_eq_mat hdata, shaped_eq_mat hcent, labels_eq_vec hlab, assign_mat]
  refine ⟨_, _, rfl, by simp, ?_⟩
  intro i p hp
  obtain ⟨hi, rfl⟩ := vec_getElem?_eq_some hp
  refine ⟨argmin (distTo sqrt D (entry centroids) (entry data i)) K,
    distTo sqrt D (entry centroids) (entry data i), ?_, ?_, ?_, ?_, ?_⟩
  · rw [vec_getElem? _ hi]
    rfl
  · intro j c hc
    obtain ⟨_, rfl⟩ := vec_getElem?_eq_some hc
    rw [euclid_vec]
    rfl
  · exact argmin_lt _ K hK
  · exact argmin_le _ K
  · intro k1 hk1 hall
    have h1 := argmin_first _ K k1 hk1
    have h2 := hall _ (argmin_lt (distTo sqrt D (entry centroids) (entry data i)) K hK)
    exact absurd h1 (not_lt.2 h2)

/-- Instance of C1 on a concrete input over the reals, with `Real.sqrt`. -/
theorem assign_lowest_index_argmin_witness :
    (1 ≤ 2) ∧ Shaped [[(0 : ℝ), 0], [3, 4]] 2 2 ∧ Shaped [[(3 : ℝ), 4], [0, 0]] 2 2 ∧
    [(-1 : Int), -1].length = 2 ∧
    ∃ labels1 changed,
      assign Real.sqrt [[(0 : ℝ), 0], [3, 4]] [[(3 : ℝ), 4], [0, 0]] 2 2 [-1, -1]
        = some (labels1, changed) ∧
      labels1.length = 2 ∧
      ∀ (i : Nat) (p : List ℝ), [[(0 : ℝ), 0], [3, 4]][i]? = some p →
        ∃ (k : Nat) (dist : Nat → ℝ), labels1[i]? = some (k : Int) ∧
          (∀ j c, [[(3 : ℝ), 4], [0, 0]][j]? = some c → euclid Real.sqrt p c = some (dist j)) ∧
          IsLowestArgmin dist 2 k :=
  ⟨by decide, by simp [Shaped], by simp [Shaped], by simp,
    assign_lowest_index_argmin Real.sqrt _ _ _ 2 2 2 (by decide) (by simp [Shaped])
      (by simp [Shaped]) (by simp)⟩

/-- C2: for a valid input and any centroid state, an assignment pass returns
and leaves every label in `[0, K)`, hence different from the sentinel `-1`;
and whenever the main loop runs at least one iteration, from any labels, it
returns with every label in `[0, K)`, so the property holds after the first
pass and after every later one. -/
theorem assign_labels_in_range (sqrt : α → α) (data centroids : List (List α))
    (labels : List Int) (N K D : Nat) (hK : 1 ≤ K)
    (hdata : Shaped data N D) (hcent : Shaped centroids K D) (hlab : labels.length = N) :
    (∃ labels1 changed, assign sqrt data centroids N K labels = some (labels1, changed) ∧
      labels1.length = N ∧ ∀ l, l ∈ labels1 → 0 ≤ l ∧ l < (K : Int) ∧ l ≠ -1) ∧
    ∀ fuel iter, ∃ out, mainLoop sqrt data N K D (fuel + 1) iter centroids labels = some out ∧
      out.labels.length = N ∧ ∀ l, l ∈ out.labels → 0 ≤ l ∧ l < (K : Int) ∧ l ≠ -1 := by
  rw [shaped_eq_mat hdata, shaped_eq_mat hcent, labels_eq_vec hlab, assign_mat]
  constructor
  · refine ⟨_, _, rfl, by simp, ?_⟩
    intro l hl
    have := inRange_vec (fun i _ => newLabel_range sqrt hK D (entry data) (entry centroids) i)
      l hl
    omega
  · intro fuel iter
    obtain ⟨out, h1, _, h3, h4⟩ := mainLoop_total sqrt N K D hK (entry data) fuel iter
      (entry centroids) (fun i => labels.getD i 0)
    refine ⟨out, h1, h3, ?_⟩
    intro l hl
    have := h4 l hl
    omega

/-- Instance of C2 on a concrete input over the reals, with `Real.sqrt`. -/
theorem assign_labels_in_range_witness :
    (1 ≤ 2) ∧ Shaped [[(0 : ℝ), 0], [3, 4]] 2 2 ∧ Shaped [[(3 : ℝ), 4], [0, 0]] 2 2 ∧
    [(-1 : Int), -1].length = 2 ∧
    ((∃ labels1 changed,
        assign Real.sqrt [[(0 : ℝ), 0], [3, 4]] [[(3 : ℝ), 4], [0, 0]] 2 2 [-1, -1]
          = some (labels1, changed) ∧
        labels1.length = 2 ∧ ∀ l, l ∈ labels1 → 0 ≤ l ∧ l < ((2 : Nat) : Int) ∧ l ≠ -1) ∧
      ∀ fuel iter, ∃ out,
        mainLoop Real.sqrt [[(0 : ℝ), 0], [3, 4]] 2 2 2 (fuel + 1) iter [[(3 : ℝ), 4], [0, 0]]
          [-1, -1] = some out ∧
        out.labels.length = 2 ∧ ∀ l, l ∈ out.labels → 0 ≤ l ∧ l < ((2 : Nat) : Int) ∧ l ≠ -1) :=
  ⟨by decide, by simp [Shaped], by simp [Shaped], by simp,
    assign_labels_in_range Real.sqrt _ _ _ 2 2 2 (by decide) (by simp [Shaped])
      (by simp [Shaped]) (by simp)⟩

/-- C3: the reduction is exact.  For every label vector with all labels in
`[0, K)` the reduction loop returns, and for every `k < K` the entry
`count[k]` is the number of points `i` with `labels[i] == k` and `sum[k][d]`
is the sum of `data[i][d]` over exactly those points, for every `d < D`. -/
theorem reduce_exact (data : List (List α)) (labels : List Int) (N K D : Nat)
    (hdata : Shaped data N D) (hlen : labels.length = N) (hlab : InRange K labels) :
    ∃ sum count, reduce data N K D labels = some (sum, count) ∧
      Shaped sum K D ∧ count.length = K ∧
      ∀ k, k < K →
        count[k]? = some ((cluster labels N k).card : Int) ∧
        ∀ d, d < D → entry sum k d = ∑ i in cluster labels N k, entry data i d := by
  have h := reduce_mat N K D (entry data) (fun i => labels.getD i 0) (inRange_getD hlen hlab)
  rw [← shaped_eq_mat hdata, ← labels_eq_vec hlen] at h
  refine ⟨_, _, h, shaped_mat _ _ _, by simp, ?_⟩
  intro k hk
  constructor
  · rw [vec_getElem? _ hk, countOf, members_eq_cluster hlen]
  · intro d hd
    rw [entry_mat _ hk hd, sumOf, members_eq_cluster hlen]

/-- Instance of C3 on a concrete input over the reals. -/
theorem reduce_exact_witness :
    Shaped [[(1 : ℝ), 2], [3, 4], [5, 6]] 3 2 ∧ [(1 : Int), 0, 1].length = 3 ∧
    InRange 2 [1, 0, 1] ∧
    ∃ sum count, reduce [[(1 : ℝ), 2], [3, 4], [5, 6]] 3 2 2 [1, 0, 1] = some (sum, count) ∧
      Shaped sum 2 2 ∧ count.length = 2 ∧
      ∀ k, k < 2 →
        count[k]? = some ((cluster [1, 0, 1] 3 k).card : Int) ∧
        ∀ d, d < 2 → entry sum k d
          = ∑ i in cluster [1, 0, 1] 3 k, entry [[(1 : ℝ), 2], [3, 4], [5, 6]] i d :=
  ⟨by simp [Shaped], by simp, by simp [InRange],
    reduce_exact _ _ 3 2 2 (by simp [Shaped]) (by simp) (by simp [InRange])⟩

/-- C5: empty-cluster stability.  The update step returns a result, which in
this embedding means that no division with divisor zero (and no subscript out
of range) was evaluated, since `divide s 0` is `none` and `none` propagates;
and for every `k` with `count[k] == 0` centroid `k` after the update is the
centroid `k` from before, coordinate for coordinate. -/
theorem update_empty_cluster_stable (sum centroids : List (List α)) (count : List Int)
    (K D : Nat) (hsum : Shaped sum K D) (hcount : count.length = K)
    (hcent : Shaped centroids K D) :
    ∃ centroids1, update sum count K D centroids = some centroids1 ∧
      ∀ k : Nat, count[k]? = some 0 → centroids1[k]? = centroids[k]? := by
  have h := update_mat K D (entry sum) (entry centroids) (fun k => count.getD k 0)
  rw [← shaped_eq_mat hsum, ← count_eq_vec hcount] at h
  conv at h => lhs; rw [← shaped_eq_mat hcent]
  refine ⟨_, h, ?_⟩
  intro k hc
  have hk : k < K := by
    rw [← hcount]
    exact (List.getElem?_eq_some.1 hc).1
  have hc1 : count.getD k 0 = 0 := getD_of_getElem? hc
  conv_rhs => rw [shaped_eq_mat hcent]
  unfold mat
  rw [vec_getElem? _ hk, vec_getElem? _ hk]
  congr 1
  apply vec_congr
  intro d _
  rw [updated, if_pos hc1]

/-- Instance of C5 on a concrete input over the reals. -/
theorem update_empty_cluster_stable_witness :
    Shaped [[(4 : ℝ), 6], [0, 0]] 2 2 ∧ [(2 : Int), 0].length = 2 ∧
    Shaped [[(3 : ℝ), 4], [1, 2]] 2 2 ∧
    ∃ centroids1, update [[(4 : ℝ), 6], [0, 0]] [2, 0] 2 2 [[(3 : ℝ), 4], [1, 2]]
        = some centroids1 ∧
      ∀ k : Nat, [(2 : Int), 0][k]? = some 0 → centroids1[k]? = [[(3 : ℝ), 4], [1, 2]][k]? :=
  ⟨by simp [Shaped], by simp, by simp [Shaped],
    update_empty_cluster_stable _ _ _ 2 2 (by simp [Shaped]) (by simp) (by simp [Shaped])⟩

/-- C6: conservation.  After the reduction loop the counts add up to `N`:
for every label vector in `[0, K)`, and in particular in an iteration of the
main loop, where the reduction reads the labels that the assignment pass of
the same iteration wrote. -/
theorem counts_sum_to_N (sqrt : α → α) (data centroids : List (List α))
    (labels labels0 : List Int) (N K D : Nat) (hK : 1 ≤ K)
    (hdata : Shaped data N D) (hcent : Shaped centroids K D) (hlen0 : labels0.length = N)
    (hlen : labels.length = N) (hlab : InRange K labels) :
    (∃ sum count, reduce data N K D labels = some (sum, count) ∧ count.sum = (N : Int)) ∧
    ∃ labels1 changed sum count,
      assign sqrt data centroids N K labels0 = some (labels1, changed) ∧
      reduce data N K D labels1 = some (sum, count) ∧ count.sum = (N : Int) := by
  constructor
  · have h := reduce_mat N K D (entry data) (fun i => labels.getD i 0) (inRange_getD hlen hlab)
    rw [← shaped_eq_mat hdata, ← labels_eq_vec hlen] at h
    refine ⟨_, _, h, ?_⟩
    rw [vec_sum, countOf_sum (inRange_getD hlen hlab)]
  · rw [shaped_eq_mat hdata, shaped_eq_mat hcent, labels_eq_vec hlen0, assign_mat]
    have hr := fun i (_ : i < N) => newLabel_range sqrt hK D (entry data) (entry centroids) i
    refine ⟨_, _, _, _, rfl, reduce_mat N K D _ _ hr, ?_⟩
    rw [vec_sum, countOf_sum hr]

/-- Instance of C6 on a concrete input over the reals, with `Real.sqrt`. -/
theorem counts_sum_to_N_witness :
    1 ≤ 2 ∧ Shaped [[(1 : ℝ), 2], [3, 4], [5, 6]] 3 2 ∧ Shaped [[(3 : ℝ), 4], [1, 2]] 2 2 ∧
    [(-1 : Int), -1, -1].length = 3 ∧ [(1 : Int), 0, 1].length = 3 ∧ InRange 2 [1, 0, 1] ∧
    ((∃ sum count, reduce [[(1 : ℝ), 2], [3, 4], [5, 6]] 3 2 2 [1, 0, 1] = some (sum, count) ∧
        count.sum = ((3 : Nat) : Int)) ∧
      ∃ labels1 changed sum count,
        assign Real.sqrt [[(1 : ℝ), 2], [3, 4], [5, 6]] [[(3 : ℝ), 4], [1, 2]] 3 2 [-1, -1, -1]
          = some (labels1, changed) ∧
        reduce [[(1 : ℝ), 2], [3, 4], [5, 6]] 3 2 2 labels1 = some (sum, count) ∧
        count.sum = ((3 : Nat) : Int)) :=
  ⟨by decide, by simp [Shaped], by simp [Shaped], by simp, by simp, by simp [InRange],
    counts_sum_to_N Real.sqrt _ _ _ _ 3 2 2 (by decide) (by simp [Shaped]) (by simp [Shaped])
      (by simp) (by simp) (by simp [InRange])⟩

/-- C7: convergence is detected before any update.  Whenever the main loop is
left through the `!changed` branch with reported count `n`, that happened in
iteration `n` of the run, an assignment pass over the final centroids and the
final labels returns those labels with `changed == false`, and an iteration
started from the final centroids and labels is left at once through that
branch with the centroids untouched (no reduction or update runs in it). -/
theorem converged_before_update (sqrt : α → α) (data : List (List α)) (N K D : Nat) :
    ∀ (fuel iter : Nat) (centroids : List (List α)) (labels : List Int) (out : Outcome α)
      (n : Nat),
      mainLoop sqrt data N K D fuel iter centroids labels = some out →
      out.converged = some n →
      iter ≤ n ∧ n < iter + fuel ∧
      assign sqrt data out.centroids N K out.labels = some (out.labels, false) ∧
      ∀ fuel1, mainLoop sqrt data N K D (fuel1 + 1) n out.centroids out.labels = some out
  | 0, iter, centroids, labels, out, n, hrun, hconv => by
    simp only [mainLoop, Option.some.injEq] at hrun
    subst hrun
    cases hconv
  | fuel + 1, iter, centroids, labels, out, n, hrun, hconv => by
    rw [mainLoop] at hrun
    obtain ⟨r, hr, hrun⟩ := Option.bind_eq_some.1 hrun
    obtain ⟨l1, ch⟩ := r
    cases ch with
    | false =>
      simp only [Bool.not_false, if_true, Option.some.injEq] at hrun
      subst hrun
      simp only [Option.some.injEq] at hconv
      subst hconv
      have := assign_unchanged sqrt data centroids N K labels l1 hr
      subst this
      refine ⟨le_refl _, by omega, hr, ?_⟩
      intro fuel1
      rw [mainLoop, hr]
      rfl
    | true =>
      simp only [Bool.not_true, Bool.false_eq_true, if_false] at hrun
      obtain ⟨acc, _, hrun⟩ := Option.bind_eq_some.1 hrun
      obtain ⟨c1, _, hrun⟩ := Option.bind_eq_some.1 hrun
      have ih := converged_before_update sqrt data N K D fuel (iter + 1) c1 l1 out n hrun hconv
      refine ⟨by omega, by omega, ih.2.2⟩

/-- Instance of C7 on a concrete input over the reals, with `Real.sqrt`. -/
theorem converged_before_update_witness :
    mainLoop Real.sqrt [[0, 0], [0, 1], [10, 0], [10, 1]] 4 2 2 2 0 [[0, 0], [10, 0]]
        [-1, -1, -1, -1]
      = some ⟨[[0, 1 / 2], [10, 1 / 2]], [0, 0, 1, 1], some 1⟩ ∧
    (0 ≤ 1 ∧ 1 < 0 + 2 ∧
      assign Real.sqrt [[0, 0], [0, 1], [10, 0], [10, 1]] [[0, 1 / 2], [10, 1 / 2]] 4 2
          [0, 0, 1, 1] = some ([0, 0, 1, 1], false) ∧
      ∀ fuel1, mainLoop Real.sqrt [[0, 0], [0, 1], [10, 0], [10, 1]] 4 2 2 (fuel1 + 1) 1
          [[0, 1 / 2], [10, 1 / 2]] [0, 0, 1, 1]
        = some ⟨[[0, 1 / 2], [10, 1 / 2]], [0, 0, 1, 1], some 1⟩) :=
  ⟨scenario_loop Real.sqrt real_sqrt_strictMonoOn 0,
    converged_before_update Real.sqrt _ 4 2 2 2 0 _ _ _ 1
      (scenario_loop Real.sqrt real_sqrt_strictMonoOn 0) rfl⟩

/-- C8 (amended): in exact arithmetic (an ordered field, with a root that is
strictly increasing on the non-negative numbers, so that two distinct points
have a distance different from that of a point to itself), with `K = N`,
pairwise distinct points, the points in some order as initial centroids and
`max_iter ≥ 2`, the first iteration gives every point the label of the
centroid that copies it, so that every cluster holds exactly one point, and
leaves the centroids as they were; the second assignment pass changes no label
and the loop is left through the convergence branch with reported iteration
count `1`.  Nothing is said here about `double` inputs whose squared
differences underflow to zero. -/
theorem singleton_clusters (sqrt : α → α) (hs : StrictMonoOn sqrt (Set.Ici 0))
    (data centroids : List (List α)) (N D : Nat) (max_iter : Int) (hN : 1 ≤ N)
    (hm : 2 ≤ max_iter) (hdata : Shaped data N D) (hnodup : data.Nodup)
    (hperm : centroids.Perm data) :
    ∃ labels1 : List Int,
      (∀ i, i < N → ∃ k : Nat, labels1[i]? = some (k : Int) ∧ centroids[k]? = data[i]?) ∧
      (∀ k, k < N → (cluster labels1 N k).card = 1) ∧
      kmeans sqrt data N N D 1 centroids = some ⟨centroids, labels1, none⟩ ∧
      assign sqrt data centroids N N labels1 = some (labels1, false) ∧
      kmeans sqrt data N N D max_iter centroids = some ⟨centroids, labels1, some 1⟩ := by
  have hcent := shaped_of_perm hdata hperm
  have hassign : assign sqrt data centroids N N
      (vec N (newLabel sqrt N D (entry data) (entry centroids)))
      = some (vec N (newLabel sqrt N D (entry data) (entry centroids)), false) := by
    have h := assign_mat sqrt N N D (entry data) (entry centroids)
      (newLabel sqrt N D (entry data) (entry centroids))
    rw [← shaped_eq_mat hdata, ← shaped_eq_mat hcent] at h
    rw [h]
    simp
  have hstep : ∀ fuel, mainLoop sqrt data N N D (fuel + 1) 0 centroids (List.replicate N (-1))
      = mainLoop sqrt data N N D fuel 1 centroids
          (vec N (newLabel sqrt N D (entry data) (entry centroids))) := by
    intro fuel
    have h := mainLoop_mat sqrt N N D (by omega) (entry data) (entry centroids)
      (fun _ => (-1 : Int)) fuel 0
    rw [if_pos (first_pass_changes sqrt (by omega) (by omega) D _ _),
      own_update sqrt hs data centroids N D hdata hnodup hperm, ← shaped_eq_mat hdata,
      ← shaped_eq_mat hcent, ← replicate_eq_vec] at h
    exact h
  refine ⟨vec N (newLabel sqrt N D (entry data) (entry centroids)), ?_, ?_, ?_, hassign, ?_⟩
  · intro i hi
    obtain ⟨_, hc⟩ := own_label sqrt hs data centroids N D hdata hperm i hi
    exact ⟨_, vec_getElem? _ hi, hc⟩
  · intro k hk
    obtain ⟨i0, _, _, hmem⟩ := own_cluster sqrt hs data centroids N D hdata hnodup hperm k hk
    rw [cluster_vec, hmem, Finset.card_singleton]
  · have : (1 : Int).toNat = 0 + 1 := rfl
    rw [kmeans, this, hstep]
    rfl
  · obtain ⟨fuel, hf⟩ : ∃ fuel, max_iter.toNat = fuel + 1 + 1 := ⟨max_iter.toNat - 2, by omega⟩
    rw [kmeans, hf, hstep, mainLoop, hassign]
    rfl

/-- C8 as stated fails.  With the two equal points `(0)`, `(0)` and `K = N = 2`
both points get label `0` in the first iteration and keep it: cluster `0`
holds two points and cluster `1` none.  With the distinct points `(0)`, `(1)`
and `max_iter = 1` the loop ends after the first iteration without passing
through the convergence branch, so no iteration count is reported. -/
theorem singleton_clusters_counterexample :
    ([[(0 : ℝ)], [0]].Perm [[(0 : ℝ)], [0]] ∧
      kmeans Real.sqrt [[(0 : ℝ)], [0]] 2 2 1 1 [[0], [0]] = some ⟨[[0], [0]], [0, 0], none⟩ ∧
      kmeans Real.sqrt [[(0 : ℝ)], [0]] 2 2 1 150 [[0], [0]]
        = some ⟨[[0], [0]], [0, 0], some 1⟩ ∧
      (cluster [0, 0] 2 0).card = 2 ∧ (cluster [0, 0] 2 1).card = 0) ∧
    ([[(0 : ℝ)], [1]].Perm [[(0 : ℝ)], [1]] ∧ [[(0 : ℝ)], [1]].Nodup ∧
      kmeans Real.sqrt [[(0 : ℝ)], [1]] 2 2 1 1 [[0], [1]]
        = some ⟨[[0], [1]], [0, 1], none⟩) :=
  ⟨⟨List.Perm.refl _, dup_loop1 Real.sqrt, dup_loop Real.sqrt 148, by decide, by decide⟩,
    List.Perm.refl _, by simp, pair_loop1 Real.sqrt real_sqrt_strictMonoOn⟩

/-- Instance of C8 (amended) on a concrete input over the reals, with `Real.sqrt`. -/
theorem singleton_clusters_witness :
    StrictMonoOn Real.sqrt (Set.Ici 0) ∧ 1 ≤ 3 ∧ (2 : Int) ≤ 150 ∧
    Shaped [[(1 : ℝ), 2], [3, 4], [5, 6]] 3 2 ∧ [[(1 : ℝ), 2], [3, 4], [5, 6]].Nodup ∧
    [[(5 : ℝ), 6], [1, 2], [3, 4]].Perm [[(1 : ℝ), 2], [3, 4], [5, 6]] ∧
    ∃ labels1 : List Int,
      (∀ i, i < 3 → ∃ k : Nat, labels1[i]? = some (k : Int) ∧
        [[(5 : ℝ), 6], [1, 2], [3, 4]][k]? = [[(1 : ℝ), 2], [3, 4], [5, 6]][i]?) ∧
      (∀ k, k < 3 → (cluster labels1 3 k).card = 1) ∧
      kmeans Real.sqrt [[(1 : ℝ), 2], [3, 4], [5, 6]] 3 3 2 1 [[(5 : ℝ), 6], [1, 2], [3, 4]]
        = some ⟨[[(5 : ℝ), 6], [1, 2], [3, 4]], labels1, none⟩ ∧
      assign Real.sqrt [[(1 : ℝ), 2], [3, 4], [5, 6]] [[(5 : ℝ), 6], [1, 2], [3, 4]] 3 3 labels1
        = some (labels1, false) ∧
      kmeans Real.sqrt [[(1 : ℝ), 2], [3, 4], [5, 6]] 3 3 2 150 [[(5 : ℝ), 6], [1, 2], [3, 4]]
        = some ⟨[[(5 : ℝ), 6], [1, 2], [3, 4]], labels1, some 1⟩ :=
  ⟨real_sqrt_strictMonoOn, by decide, by decide, by simp [Shaped], by simp,
    (List.perm_append_comm :
      ([[(5 : ℝ), 6]] ++ [[1, 2], [3, 4]]).Perm ([[1, 2], [3, 4]] ++ [[(5 : ℝ), 6]])),
    singleton_clusters Real.sqrt real_sqrt_strictMonoOn _ _ 3 2 150 (by decide) (by decide)
      (by simp [Shaped]) (by simp)
      (List.perm_append_comm :
        ([[(5 : ℝ), 6]] ++ [[1, 2], [3, 4]]).Perm ([[1, 2], [3, 4]] ++ [[(5 : ℝ), 6]]))⟩

/-- C10: on the points `(0,0)`, `(0,1)`, `(10,0)`, `(10,1)` with `K = 2`,
initial centroids `(0,0)` and `(10,0)` and `max_iter ≥ 2`, the loop is left
through the convergence branch with reported iteration count `1`, centroids
`(0, 1/2)` and `(10, 1/2)`, labels `[0, 0, 1, 1]` and cluster sizes `2` and `2`. -/
theorem scenario_four_points (sqrt : α → α) (hs : StrictMonoOn sqrt (Set.Ici 0))
    (max_iter : Int) (hm : 2 ≤ max_iter) :
    ∃ out, kmeans sqrt [[0, 0], [0, 1], [10, 0], [10, 1]] 4 2 2 max_iter [[0, 0], [10, 0]]
        = some out ∧
      out.converged = some 1 ∧ out.centroids = [[0, 1 / 2], [10, 1 / 2]] ∧
      out.labels = [0, 0, 1, 1] ∧ tally 2 out.labels = some [2, 2] := by
  obtain ⟨fuel, hf⟩ : ∃ fuel, max_iter.toNat = fuel + 2 := ⟨max_iter.toNat - 2, by omega⟩
  refine ⟨⟨[[0, 1 / 2], [10, 1 / 2]], [0, 0, 1, 1], some 1⟩, ?_, rfl, rfl, rfl, scenario_tally⟩
  rw [kmeans, hf]
  exact scenario_loop sqrt hs fuel

/-- Instance of C10 on a concrete input over the reals, with `Real.sqrt`. -/
theorem scenario_four_points_witness :
    StrictMonoOn Real.sqrt (Set.Ici 0) ∧ (2 : Int) ≤ 150 ∧
    ∃ out, kmeans Real.sqrt [[0, 0], [0, 1], [10, 0], [10, 1]] 4 2 2 150 [[0, 0], [10, 0]]
        = some out ∧
      out.converged = some 1 ∧ out.centroids = [[0, 1 / 2], [10, 1 / 2]] ∧
      out.labels = [0, 0, 1, 1] ∧ tally 2 out.labels = some [2, 2] :=
  ⟨real_sqrt_strictMonoOn, by decide,
    scenario_four_points Real.sqrt real_sqrt_strictMonoOn 150 (by decide)⟩

/-! ## The output after the loop: claims C11 and C12 -/

theorem vec_succ {β : Type} (n : Nat) (g : Nat → β) : vec (n + 1) g = vec n g ++ [g n] := by
  simp [vec, List.range_succ]

theorem tally_step_vec {K : Nat} (c : Nat → Int) {l : Int} (h0 : 0 ≤ l) (h1 : l < (K : Int)) :
    ((rd (vec K c) l).bind fun x => wr (vec K c) l (x + 1))
      = some (vec K fun k => if l = (k : Int) then c k + 1 else c k) := by
  obtain ⟨k0, rfl⟩ := Int.eq_ofNat_of_zero_le h0
  have hk : k0 < K := by omega
  rw [rd_vec _ hk, Option.some_bind, wr_vec _ hk]
  congr 1
  apply vec_congr
  intro k _
  by_cases e : k = k0
  · subst e; simp
  · have e1 : ¬ ((k0 : Int) = (k : Int)) := by omega
    simp [Function.update_noteq e, e1]

theorem tally_prefix (K : Nat) (lab : Nat → Int) :
    ∀ n, (∀ i, i < n → 0 ≤ lab i ∧ lab i < (K : Int)) →
      (vec n lab).foldlM (fun sz l => (rd sz l).bind fun c => wr sz l (c + 1))
          (List.replicate K 0) = some (vec K (countOf lab n))
  | 0, _ => by
    rw [replicate_eq_vec]
    simp only [vec, List.range_zero, List.map_nil, List.foldlM_nil, pure, Option.some.injEq]
    apply List.map_congr_left
    intro k _
    simp [countOf, members]
  | n + 1, h => by
    have ih := tally_prefix K lab n (fun i hi => h i (by omega))
    obtain ⟨h0, h1⟩ := h n (by omega)
    rw [vec_succ, List.foldlM_append, ih]
    simp only [Option.bind_eq_bind, Option.some_bind, List.foldlM_cons, List.foldlM_nil]
    rw [tally_step_vec _ h0 h1]
    simp only [Option.some_bind, pure, Option.some.injEq]
    apply vec_congr
    intro k _
    simp only [countOf, members_succ]
    split
    · simp [Finset.card_insert_of_not_mem (not_mem_members lab n k)]
    · rfl

theorem tally_vec {N K : Nat} {lab : Nat → Int}
    (h : ∀ i, i < N → 0 ≤ lab i ∧ lab i < (K : Int)) :
    tally K (vec N lab) = some (vec K (countOf lab N)) :=
  tally_prefix K lab N h

theorem tally_sentinel (K : Nat) {N : Nat} (hN : 1 ≤ N) :
    tally K (List.replicate N (-1)) = none := by
  obtain ⟨n, rfl⟩ : ∃ n, N = n + 1 := ⟨N - 1, by omega⟩
  simp [tally, List.replicate_succ, rd]

theorem printCentroids_vec {β : Type} (K : Nat) (g : Nat → List β) :
    forLoop (fun k out => (rd (vec K g) k).bind fun row => some (out ++ [row])) 0 K []
      = some (vec K g) := by
  have h := forLoop_closed (fun k out => (rd (vec K g) k).bind fun row => some (out ++ [row]))
    (fun k => vec k g) K 0 (by
      intro k _ hk
      have hk : k < K := by omega
      simp only [rd_vec _ hk, Option.some_bind, vec_succ])
  simp only [Nat.zero_add] at h
  exact h

theorem printCentroids_eq {β : Type} {K : Nat} {centroids : List (List β)}
    (h : centroids.length = K) :
    printCentroids K centroids = some centroids := by
  subst h
  unfold printCentroids
  conv_lhs => rw [eq_vec centroids []]
  conv_rhs => rw [eq_vec centroids []]
  rw [vec_length]
  exact printCentroids_vec _ _

theorem kmeans_zero (sqrt : α → α) (data centroids : List (List α)) (N K D : Nat)
    (max_iter : Int) (h : max_iter ≤ 0) :
    kmeans sqrt data N K D max_iter centroids
      = some ⟨centroids, List.replicate N (-1), none⟩ := by
  have : max_iter.toNat = 0 := by omega
  rw [kmeans, this, mainLoop]

/-- C11: with `max_iter == 0` the loop body never runs: the loop is left with
the initial centroids, every label equal to `-1` and nothing reported as
converged, and the output loop prints those centroids.  The run does not end
normally after that: the size tally subscripts `sz` with `-1`, so `run` has no
result. -/
theorem zero_budget (sqrt : α → α) (data centroids : List (List α)) (N K D : Nat)
    (hN : 1 ≤ N) (hcent : centroids.length = K) :
    kmeans sqrt data N K D 0 centroids = some ⟨centroids, List.replicate N (-1), none⟩ ∧
    printCentroids K centroids = some centroids ∧
    tally K (List.replicate N (-1)) = none ∧
    run sqrt data N K D 0 centroids = none := by
  have h1 := kmeans_zero sqrt data centroids N K D 0 (le_refl 0)
  have h2 := tally_sentinel K hN
  refine ⟨h1, printCentroids_eq hcent, h2, ?_⟩
  simp [run, report, h1, h2]

/-- Instance of C11 on a concrete input over the reals, with `Real.sqrt`. -/
theorem zero_budget_witness :
    1 ≤ 1 ∧ [[(0 : ℝ)]].length = 1 ∧
    (kmeans Real.sqrt [[(0 : ℝ)]] 1 1 1 0 [[(0 : ℝ)]]
        = some ⟨[[(0 : ℝ)]], List.replicate 1 (-1), none⟩ ∧
      printCentroids 1 [[(0 : ℝ)]] = some [[(0 : ℝ)]] ∧
      tally 1 (List.replicate 1 (-1)) = none ∧
      run Real.sqrt [[(0 : ℝ)]] 1 1 1 0 [[(0 : ℝ)]] = none) :=
  ⟨by decide, by simp, zero_budget Real.sqrt _ _ 1 1 1 (by decide) (by simp)⟩

theorem cluster_getD {labels : List Int} {N : Nat} (h : labels.length = N) (k : Nat) :
    countOf (fun i => labels.getD i 0) N k = ((cluster labels N k).card : Int) := by
  rw [countOf, members_eq_cluster h]

/-- C12: when at least one iteration runs (`max_iter1 ≥ 1`), the tally after
the loop only subscripts `sz` inside `[0, K)` (it returns), the size it reports
for cluster `k` is the number of points whose final label is `k`, and the
sizes add up to `N`.  With a budget `max_iter0 ≤ 0` the labels are still `-1`
after the loop and the tally subscripts `sz` with `-1`: it has no result. -/
theorem tally_after_loop (sqrt : α → α) (data centroids : List (List α)) (N K D : Nat)
    (max_iter1 max_iter0 : Int) (hN : 1 ≤ N) (hK : 1 ≤ K) (hdata : Shaped data N D)
    (hcent : Shaped centroids K D) (hm1 : 1 ≤ max_iter1) (hm0 : max_iter0 ≤ 0) :
    (∃ out sz, kmeans sqrt data N K D max_iter1 centroids = some out ∧
      tally K out.labels = some sz ∧ sz.length = K ∧
      (∀ k, k < K → sz[k]? = some ((cluster out.labels N k).card : Int)) ∧
      sz.sum = (N : Int)) ∧
    ∃ out, kmeans sqrt data N K D max_iter0 centroids = some out ∧
      out.labels = List.replicate N (-1) ∧ tally K out.labels = none := by
  constructor
  · obtain ⟨fuel, hf⟩ : ∃ fuel, max_iter1.toNat = fuel + 1 := ⟨max_iter1.toNat - 1, by omega⟩
    have ht := mainLoop_total sqrt N K D hK (entry data) fuel 0 (entry centroids)
      (fun _ => (-1 : Int))
    rw [← shaped_eq_mat hdata, ← shaped_eq_mat hcent, ← replicate_eq_vec] at ht
    obtain ⟨out, hout, _, hlen, hr⟩ := ht
    have hr1 := inRange_getD hlen hr
    have htally := tally_vec hr1
    rw [← labels_eq_vec hlen] at htally
    refine ⟨out, _, by rw [kmeans, hf]; exact hout, htally, by simp, ?_, ?_⟩
    · intro k hk
      rw [vec_getElem? _ hk, cluster_getD hlen]
    · rw [vec_sum, countOf_sum hr1]
  · exact ⟨_, kmeans_zero sqrt data centroids N K D max_iter0 hm0, rfl, tally_sentinel K hN⟩

/-- Instance of C12 on a concrete input over the reals, with `Real.sqrt`. -/
theorem tally_after_loop_witness :
    1 ≤ 1 ∧ 1 ≤ 1 ∧ Shaped [[(0 : ℝ)]] 1 1 ∧ Shaped [[(0 : ℝ)]] 1 1 ∧ (1 : Int) ≤ 150 ∧
    (0 : Int) ≤ 0 ∧
    ((∃ out sz, kmeans Real.sqrt [[(0 : ℝ)]] 1 1 1 150 [[(0 : ℝ)]] = some out ∧
        tally 1 out.labels = some sz ∧ sz.length = 1 ∧
        (∀ k, k < 1 → sz[k]? = some ((cluster out.labels 1 k).card : Int)) ∧
        sz.sum = ((1 : Nat) : Int)) ∧
      ∃ out, kmeans Real.sqrt [[(0 : ℝ)]] 1 1 1 0 [[(0 : ℝ)]] = some out ∧
        out.labels = List.replicate 1 (-1) ∧ tally 1 out.labels = none) :=
  ⟨by decide, by decide, by simp [Shaped], by simp [Shaped], by decide, by decide,
    tally_after_loop Real.sqrt _ _ 1 1 1 150 0 (by decide) (by decide) (by simp [Shaped])
      (by simp [Shaped]) (by decide) (by decide)⟩

/-! ## Initialization: claims C13 and C14 -/

theorem firstNew_positions : ∀ (draws used : List Int),
    firstNew used draws = (List.range draws.length).filterMap fun t =>
      if draws.getD t 0 ∈ used ∨ draws.getD t 0 ∈ draws.take t then none
      else some (draws.getD t 0)
  | [], used => by simp [firstNew]
  | x :: xs, used => by
    rw [firstNew, List.length_cons, List.range_succ_eq_map, List.filterMap_cons,
      List.filterMap_map]
    by_cases hx : x ∈ used
    · simp only [hx, if_true, List.getD_cons_zero, true_or]
      rw [firstNew_positions xs used]
      apply List.filterMap_congr
      intro t _
      simp only [Function.comp, List.getD_cons_succ, List.take_succ_cons, List.mem_cons]
      generalize xs.getD t 0 = y
      by_cases h1 : y = x
      · simp [h1, hx]
      · simp [h1]
    · simp only [hx, if_false, List.getD_cons_zero, List.take_zero, List.not_mem_nil, or_self]
      rw [firstNew_positions xs (used ++ [x])]
      congr 1
      apply List.filterMap_congr
      intro t _
      simp only [Function.comp, List.getD_cons_succ, List.take_succ_cons, List.mem_cons,
        List.mem_append, List.mem_singleton]
      generalize xs.getD t 0 = y
      by_cases h1 : y = x
      · simp [h1]
      · simp [h1, or_assoc]

theorem firstNew_nil (draws : List Int) : firstNew [] draws = firstOccurrences draws := by
  rw [firstNew_positions, firstOccurrences]
  simp

theorem firstNew_mem : ∀ (draws used : List Int) (x : Int),
    x ∈ firstNew used draws → x ∉ used ∧ x ∈ draws
  | [], _, x, h => by simp [firstNew] at h
  | y :: ys, used, x, h => by
    rw [firstNew] at h
    by_cases hy : y ∈ used
    · rw [if_pos hy] at h
      have := firstNew_mem ys used x h
      exact ⟨this.1, List.mem_cons_of_mem _ this.2⟩
    · rw [if_neg hy] at h
      rcases List.mem_cons.1 h with rfl | h1
      · exact ⟨hy, List.mem_cons_self _ _⟩
      · have := firstNew_mem ys (used ++ [y]) x h1
        exact ⟨fun hx => this.1 (List.mem_append_left _ hx), List.mem_cons_of_mem _ this.2⟩

theorem firstNew_nodup : ∀ (draws used : List Int), (firstNew used draws).Nodup
  | [], _ => by simp [firstNew]
  | y :: ys, used => by
    rw [firstNew]
    by_cases hy : y ∈ used
    · rw [if_pos hy]
      exact firstNew_nodup ys used
    · rw [if_neg hy]
      refine List.nodup_cons.2 ⟨?_, firstNew_nodup ys (used ++ [y])⟩
      intro h
      exact (firstNew_mem ys (used ++ [y]) y h).1 (by simp)

theorem initLoop_mat {β : Type} (N K D : Nat) (X : Nat → Nat → β) : ∀ (draws used : List Int)
    (centroids : List (List β)), (∀ x, x ∈ draws → 0 ≤ x ∧ x < (N : Int)) →
    centroids.length ≤ K →
    initLoop (mat N D X) K draws used centroids
      = if K - centroids.length ≤ (firstNew used draws).length then
          some (used ++ (firstNew used draws).take (K - centroids.length),
            centroids ++ ((firstNew used draws).take (K - centroids.length)).map
              fun j => vec D (X j.toNat))
        else none
  | [], used, centroids, _, hlen => by
    rw [initLoop, firstNew]
    by_cases h : centroids.length < K
    · have : ¬ (K - centroids.length ≤ 0) := by omega
      simp [h, this]
    · have : K - centroids.length = 0 := by omega
      simp [h, this]
  | idx :: rest, used, centroids, hd, hlen => by
    rw [initLoop, firstNew]
    have hrest : ∀ x, x ∈ rest → 0 ≤ x ∧ x < (N : Int) :=
      fun x hx => hd x (List.mem_cons_of_mem _ hx)
    by_cases h : centroids.length < K
    · rw [if_pos h]
      by_cases hu : idx ∈ used
      · rw [if_pos hu, if_pos hu]
        exact initLoop_mat N K D X rest used centroids hrest hlen
      · rw [if_neg hu, if_neg hu]
        obtain ⟨h0, h1⟩ := hd idx (List.mem_cons_self _ _)
        obtain ⟨i, rfl⟩ := Int.eq_ofNat_of_zero_le h0
        have hi : i < N := by omega
        rw [rd_mat D X hi, Option.some_bind,
          initLoop_mat N K D X rest _ _ hrest (by simp; omega)]
        obtain ⟨m, hm⟩ : ∃ m, K - centroids.length = m + 1 :=
          ⟨K - centroids.length - 1, by omega⟩
        have hm1 : K - (centroids ++ [vec D (X i)]).length = m := by
          simp only [List.length_append, List.length_singleton]
          omega
        rw [hm, hm1]
        simp only [List.length_cons, Nat.add_le_add_iff_right, List.take_succ_cons,
          List.map_cons, Int.toNat_ofNat, List.append_assoc, List.singleton_append]
    · have : K - centroids.length = 0 := by omega
      simp [h, this]

theorem take_map_eq_vec {β : Type} (L : List Int) (K : Nat) (hK : K ≤ L.length)
    (row : Nat → β) :
    (L.take K).map (fun j => row j.toNat) = vec K fun k => row (L.getD k 0).toNat := by
  apply List.ext_getElem?
  intro k
  by_cases hk : k < K
  · rw [vec_getElem? _ hk, List.getElem?_map, List.getElem?_take_of_lt hk,
      List.getElem?_eq_getElem (by omega), List.getD_eq_getElem?_getD,
      List.getElem?_eq_getElem (by omega)]
    rfl
  · rw [List.getElem?_eq_none (by simp; omega), List.getElem?_eq_none (by simp; omega)]

/-- The rows that the initialization copies: row `k` is the point whose index
is the `k`-th draw in order of first occurrence. -/
theorem initCentroids_mat {β : Type} (N K D : Nat) (X : Nat → Nat → β) (draws : List Int)
    (hd : ∀ x, x ∈ draws → 0 ≤ x ∧ x < (N : Int)) :
    initCentroids (mat N D X) K draws
      = if K ≤ (firstOccurrences draws).length then
          some ((firstOccurrences draws).take K,
            vec K fun k => vec D (X ((firstOccurrences draws).getD k 0).toNat))
        else none := by
  rw [initCentroids, initLoop_mat N K D X draws [] [] hd (Nat.zero_le _), firstNew_nil]
  simp only [List.length_nil, Nat.sub_zero, List.nil_append]
  split
  · rw [take_map_eq_vec _ K (by assumption) (fun i => vec D (X i))]
  · rfl

theorem initLoopCpu_mat {β : Type} (N K D : Nat) (X : Nat → Nat → β) :
    ∀ (draws : List Int) (k : Nat) (used : List Int) (g : Nat → List β),
    (∀ x, x ∈ draws → 0 ≤ x ∧ x < (N : Int)) → k ≤ K →
    initLoopCpu (mat N D X) K draws k used (vec K g)
      = if K - k ≤ (firstNew used draws).length then
          some (used ++ (firstNew used draws).take (K - k),
            vec K fun j => if j < k then g j
              else vec D (X ((firstNew used draws).getD (j - k) 0).toNat))
        else none
  | [], k, used, g, _, hk => by
    rw [initLoopCpu, firstNew]
    by_cases h : k < K
    · have : ¬ (K - k ≤ 0) := by omega
      simp [h, this]
    · have : K - k = 0 := by omega
      simp only [h, if_false, this, List.length_nil, le_refl, if_true, List.take_zero,
        List.append_nil, Option.some.injEq, Prod.mk.injEq, true_and]
      apply vec_congr
      intro j hj
      rw [if_pos (by omega)]
  | idx :: rest, k, used, g, hd, hk => by
    rw [initLoopCpu, firstNew]
    have hrest : ∀ x, x ∈ rest → 0 ≤ x ∧ x < (N : Int) :=
      fun x hx => hd x (List.mem_cons_of_mem _ hx)
    by_cases h : k < K
    · rw [if_pos h]
      by_cases hu : idx ∈ used
      · rw [if_pos hu, if_pos hu]
        exact initLoopCpu_mat N K D X rest k used g hrest hk
      · rw [if_neg hu, if_neg hu]
        obtain ⟨h0, h1⟩ := hd idx (List.mem_cons_self _ _)
        obtain ⟨i, rfl⟩ := Int.eq_ofNat_of_zero_le h0
        have hi : i < N := by omega
        rw [rd_mat D X hi, Option.some_bind, wr_vec _ h, Option.some_bind,
          initLoopCpu_mat N K D X rest (k + 1) _ _ hrest (by omega)]
        obtain ⟨m, hm⟩ : ∃ m, K - k = m + 1 := ⟨K - k - 1, by omega⟩
        have hm1 : K - (k + 1) = m := by omega
        rw [hm, hm1]
        simp only [List.length_cons, Nat.add_le_add_iff_right, List.take_succ_cons,
          List.append_assoc, List.singleton_append]
        split
        · simp only [Option.some.injEq, Prod.mk.injEq, true_and]
          apply vec_congr
          intro j _
          by_cases hj : j < k
          · rw [if_pos hj, if_pos (by omega), Function.update_noteq (by omega)]
          · rw [if_neg hj]
            by_cases hjk : j = k
            · subst hjk
              simp
            · rw [if_neg (by omega)]
              obtain ⟨r, hr⟩ : ∃ r, j - k = r + 1 := ⟨j - k - 1, by omega⟩
              have hr1 : j - (k + 1) = r := by omega
              rw [hr, hr1, List.getD_cons_succ]
        · rfl
    · have : K - k = 0 := by omega
      simp only [h, if_false, this, Nat.zero_le, if_true, List.take_zero,
        List.append_nil, Option.some.injEq, Prod.mk.injEq, true_and]
      apply vec_congr
      intro j hj
      rw [if_pos (by omega)]

theorem initCentroidsCpu_mat (N K D : Nat) (X : Nat → Nat → α) (draws : List Int)
    (hd : ∀ x, x ∈ draws → 0 ≤ x ∧ x < (N : Int)) :
    initCentroidsCpu (mat N D X) K D draws
      = if K ≤ (firstOccurrences draws).length then
          some ((firstOccurrences draws).take K,
            vec K fun k => vec D (X ((firstOccurrences draws).getD k 0).toNat))
        else none := by
  rw [initCentroidsCpu, replicate_eq_vec K,
    initLoopCpu_mat N K D X draws 0 [] _ hd (Nat.zero_le _), firstNew_nil]
  simp only [Nat.sub_zero, List.nil_append, Nat.not_lt_zero, if_false]
theorem flat_index_lt {n D i d : Nat} (hi : i < n) (hd : d < D) : i * D + d < n * D := by
  have h1 : (i + 1) * D ≤ n * D := Nat.mul_le_mul_right D hi
  have h2 : (i + 1) * D = i * D + D := Nat.succ_mul i D
  omega

theorem flat_div {D d : Nat} (i : Nat) (hd : d < D) : (i * D + d) / D = i := by
  rw [Nat.add_comm, Nat.add_mul_div_right _ _ (by omega), Nat.div_eq_of_lt hd, Nat.zero_add]

theorem flat_mod {D d : Nat} (i : Nat) (hd : d < D) : (i * D + d) % D = d := by
  rw [Nat.add_comm, Nat.add_mul_mod_self_right, Nat.mod_eq_of_lt hd]

theorem flat_index_eq {D i d j : Nat} (hd : d < D) :
    j = i * D + d ↔ j / D = i ∧ j % D = d := by
  constructor
  · rintro rfl
    exact ⟨flat_div i hd, flat_mod i hd⟩
  · rintro ⟨rfl, rfl⟩
    rw [Nat.mul_comm]
    exact (Nat.div_add_mod j D).symm

theorem flat_cast (i D d : Nat) : (i : Int) * (D : Int) + (d : Int) = ((i * D + d : Nat) : Int) := by
  push_cast
  rfl

theorem flatOf_length {β : Type} (n D : Nat) (f : Nat → Nat → β) :
    (flatOf n D f).length = n * D := by
  simp [flatOf]

theorem flatOf_congr {β : Type} {n D : Nat} {f g : Nat → Nat → β}
    (h : ∀ a, a < n → ∀ b, b < D → f a b = g a b) : flatOf n D f = flatOf n D g := by
  apply vec_congr
  intro j hj
  have hD : 0 < D := by
    rcases Nat.eq_zero_or_pos D with h0 | h0
    · subst h0; simp at hj
    · exact h0
  exact h _ (Nat.div_lt_of_lt_mul (by rw [Nat.mul_comm]; exact hj)) _ (Nat.mod_lt _ hD)

theorem rd_flat {β : Type} {n D i d : Nat} (f : Nat → Nat → β) (hi : i < n) (hd : d < D) :
    rd (flatOf n D f) ((i : Int) * (D : Int) + (d : Int)) = some (f i d) := by
  rw [flat_cast, flatOf, rd_vec _ (flat_index_lt hi hd), flat_div i hd, flat_mod i hd]

theorem wr_flat {β : Type} {n D i d : Nat} (f : Nat → Nat → β) (hi : i < n) (hd : d < D)
    (x : β) :
    wr (flatOf n D f) ((i : Int) * (D : Int) + (d : Int)) x
      = some (flatOf n D fun a b => if a = i ∧ b = d then x else f a b) := by
  rw [flat_cast, flatOf, wr_vec _ (flat_index_lt hi hd)]
  congr 1
  apply vec_congr
  intro j _
  by_cases e : j = i * D + d
  · rw [e, Function.update_same, flat_div i hd, flat_mod i hd]
    simp
  · rw [Function.update_noteq e]
    have := (not_congr (flat_index_eq hd)).1 e
    simp only [this, if_false]

theorem flatOf_getElem? {β : Type} {n D i d : Nat} (f : Nat → Nat → β) (hi : i < n)
    (hd : d < D) : (flatOf n D f)[i * D + d]? = some (f i d) := by
  rw [flatOf, vec_getElem? _ (flat_index_lt hi hd), flat_div i hd, flat_mod i hd]

theorem replicate_eq_flatOf {β : Type} (n D : Nat) (x : β) :
    List.replicate (n * D) x = flatOf n D fun _ _ => x :=
  replicate_eq_vec _ _

theorem flattenRow_mat {β : Type} (N D : Nat) (X F : Nat → Nat → β) {i : Nat} (hi : i < N) :
    forLoop (flattenBody (mat N D X) D i) 0 D (flatOf N D F)
      = some (flatOf N D fun a b => if a = i then X a b else F a b) := by
  have h := forLoop_closed (flattenBody (mat N D X) D i)
    (fun d => flatOf N D fun a b => if a = i ∧ b < d then X a b else F a b) D 0 (by
      intro d _ hd
      have hd : d < D := by omega
      simp only [flattenBody, rd_mat D _ hi, rd_vec _ hd, Option.some_bind, wr_flat _ hi hd]
      congr 1
      apply flatOf_congr
      intro a _ b _
      by_cases e : a = i
      · subst e
        by_cases e1 : b = d
        · subst e1; simp
        · have : b < d + 1 ↔ b < d := by omega
          simp [e1, this]
      · simp [e])
  simp only [Nat.zero_add] at h
  rw [show (flatOf N D fun a b => if a = i ∧ b < 0 then X a b else F a b) = flatOf N D F from
    flatOf_congr (by intro a _ b _; simp)] at h
  rw [h]
  congr 1
  apply flatOf_congr
  intro a _ b hb
  simp [hb]

theorem flatten_mat (N D : Nat) (X : Nat → Nat → α) :
    flatten (mat N D X) N D = some (flatOf N D X) := by
  have h := forLoop_closed
    (fun i flat_data => forLoop (flattenBody (mat N D X) D i) 0 D flat_data)
    (fun i => flatOf N D fun a b => if a < i then X a b else 0) N 0 (by
      intro i _ hi
      have hi : i < N := by omega
      simp only [flattenRow_mat N D X _ hi]
      congr 1
      apply flatOf_congr
      intro a _ b _
      by_cases e : a = i
      · subst e; simp
      · have : a < i + 1 ↔ a < i := by omega
        simp [e, this])
  simp only [Nat.zero_add] at h
  rw [flatten, replicate_eq_flatOf,
    show (flatOf N D fun _ _ => (0 : α)) = flatOf N D fun a b => if a < 0 then X a b else 0 from
      flatOf_congr (by intro a _ b _; simp), h]
  congr 1
  apply flatOf_congr
  intro a ha b _
  simp [ha]

theorem copyLoop_flat {β : Type} (N K D : Nat) (X G : Nat → Nat → β) {i k : Nat} (hi : i < N)
    (hk : k < K) :
    forLoop (copyBody (flatOf N D X) D k (i : Int)) 0 D (flatOf K D G)
      = some (flatOf K D fun a b => if a = k then X i b else G a b) := by
  have h := forLoop_closed (copyBody (flatOf N D X) D k (i : Int))
    (fun d => flatOf K D fun a b => if a = k ∧ b < d then X i b else G a b) D 0 (by
      intro d _ hd
      have hd : d < D := by omega
      simp only [copyBody, rd_flat _ hi hd, Option.some_bind, wr_flat _ hk hd]
      congr 1
      apply flatOf_congr
      intro a _ b _
      by_cases e : a = k
      · subst e
        by_cases e1 : b = d
        · subst e1; simp
        · have : b < d + 1 ↔ b < d := by omega
          simp [e1, this]
      · simp [e])
  simp only [Nat.zero_add] at h
  rw [show (flatOf K D fun a b => if a = k ∧ b < 0 then X i b else G a b) = flatOf K D G from
    flatOf_congr (by intro a _ b _; simp)] at h
  rw [h]
  congr 1
  apply flatOf_congr
  intro a _ b hb
  simp [hb]

theorem initLoopGpu_flat {β : Type} (N K D : Nat) (X : Nat → Nat → β) :
    ∀ (draws : List Int) (k : Nat) (used : List Int) (G : Nat → Nat → β),
    (∀ x, x ∈ draws → 0 ≤ x ∧ x < (N : Int)) → k ≤ K →
    initLoopGpu (flatOf N D X) K D draws k used (flatOf K D G)
      = if K - k ≤ (firstNew used draws).length then
          some (used ++ (firstNew used draws).take (K - k),
            flatOf K D fun a b => if a < k then G a b
              else X ((firstNew used draws).getD (a - k) 0).toNat b)
        else none
  | [], k, used, G, _, hk => by
    rw [initLoopGpu, firstNew]
    by_cases h : k < K
    · have : ¬ (K - k ≤ 0) := by omega
      simp [h, this]
    · have : K - k = 0 := by omega
      simp only [h, if_false, this, List.length_nil, le_refl, if_true, List.take_zero,
        List.append_nil, Option.some.injEq, Prod.mk.injEq, true_and]
      apply flatOf_congr
      intro a ha b _
      rw [if_pos (by omega)]
  | idx :: rest, k, used, G, hd, hk => by
    rw [initLoopGpu, firstNew]
    have hrest : ∀ x, x ∈ rest → 0 ≤ x ∧ x < (N : Int) :=
      fun x hx => hd x (List.mem_cons_of_mem _ hx)
    by_cases h : k < K
    · rw [if_pos h]
      by_cases hu : idx ∈ used
      · rw [if_pos hu, if_pos hu]
        exact initLoopGpu_flat N K D X rest k used G hrest hk
      · rw [if_neg hu, if_neg hu]
        obtain ⟨h0, h1⟩ := hd idx (List.mem_cons_self _ _)
        obtain ⟨i, rfl⟩ := Int.eq_ofNat_of_zero_le h0
        have hi : i < N := by omega
        rw [copyLoop_flat N K D X G hi h, Option.some_bind,
          initLoopGpu_flat N K D X rest (k + 1) _ _ hrest (by omega)]
        obtain ⟨m, hm⟩ : ∃ m, K - k = m + 1 := ⟨K - k - 1, by omega⟩
        have hm1 : K - (k + 1) = m := by omega
        rw [hm, hm1]
        simp only [List.length_cons, Nat.add_le_add_iff_right, List.take_succ_cons,
          List.append_assoc, List.singleton_append]
        split
        · simp only [Option.some.injEq, Prod.mk.injEq, true_and]
          apply flatOf_congr
          intro a _ b _
          by_cases ha : a < k
          · rw [if_pos ha, if_pos (by omega), if_neg (by omega)]
          · rw [if_neg ha]
            by_cases hak : a = k
            · subst hak
              simp
            · rw [if_neg (by omega)]
              obtain ⟨r, hr⟩ : ∃ r, a - k = r + 1 := ⟨a - k - 1, by omega⟩
              have hr1 : a - (k + 1) = r := by omega
              rw [hr, hr1, List.getD_cons_succ]
        · rfl
    · have : K - k = 0 := by omega
      simp only [h, if_false, this, Nat.zero_le, if_true, List.take_zero,
        List.append_nil, Option.some.injEq, Prod.mk.injEq, true_and]
      apply flatOf_congr
      intro a ha b _
      rw [if_pos (by omega)]

theorem initCentroidsGpu_flat (N K D : Nat) (X : Nat → Nat → α) (draws : List Int)
    (hd : ∀ x, x ∈ draws → 0 ≤ x ∧ x < (N : Int)) :
    initCentroidsGpu (flatOf N D X) K D draws
      = if K ≤ (firstOccurrences draws).length then
          some ((firstOccurrences draws).take K,
            flatOf K D fun k d => X ((firstOccurrences draws).getD k 0).toNat d)
        else none := by
  rw [initCentroidsGpu, replicate_eq_flatOf,
    initLoopGpu_flat N K D X draws 0 [] _ hd (Nat.zero_le _), firstNew_nil]
  simp only [Nat.sub_zero, List.nil_append, Nat.not_lt_zero, if_false]
theorem firstOccurrences_mem {draws : List Int} {x : Int} (h : x ∈ firstOccurrences draws) :
    x ∈ draws := by
  rw [← firstNew_nil] at h
  exact (firstNew_mem draws [] x h).2

theorem firstOccurrences_nodup (draws : List Int) : (firstOccurrences draws).Nodup := by
  rw [← firstNew_nil]
  exact firstNew_nodup draws []

theorem initLoop_append {β : Type} (data : List (List β)) (K : Nat) (more : List Int) :
    ∀ (draws used : List Int) (centroids : List (List β)) (r : List Int × List (List β)),
    initLoop data K draws used centroids = some r →
    initLoop data K (draws ++ more) used centroids = some r
  | [], used, centroids, r, h => by
    rw [initLoop] at h
    by_cases hlt : centroids.length < K
    · simp [hlt] at h
    · rw [if_neg hlt] at h
      cases more with
      | nil => rw [List.append_nil, initLoop, if_neg hlt, h]
      | cons y ys => rw [List.nil_append, initLoop, if_neg hlt, h]
  | idx :: rest, used, centroids, r, h => by
    rw [initLoop] at h
    rw [List.cons_append, initLoop]
    by_cases hlt : centroids.length < K
    · rw [if_pos hlt] at h ⊢
      by_cases hu : idx ∈ used
      · rw [if_pos hu] at h ⊢
        exact initLoop_append data K more rest used centroids r h
      · rw [if_neg hu] at h ⊢
        obtain ⟨p, hp, h1⟩ := Option.bind_eq_some.1 h
        rw [hp, Option.some_bind]
        exact initLoop_append data K more rest _ _ r h1
    · rw [if_neg hlt] at h ⊢
      exact h

/-- C13: initialization picks `K` distinct points.  For a point set of `N`
rows and draws in `[0, N-1]` that hold at least `K` distinct values (the loop
ends within them), the loop returns `K` centroids; the indices it accepted are
the first `K` draws in order of first occurrence (repeated draws are skipped),
pairwise distinct and in `[0, N)`; centroid `k` is the point at the `k`-th of
them; draws after the end of the loop are not read; and on a shorter prefix
of the draws that holds fewer than `K` distinct values the loop has not
ended. -/
theorem init_picks_distinct (data : List (List α)) (N K D : Nat) (draws : List Int)
    (hdata : Shaped data N D) (hd : ∀ x, x ∈ draws → 0 ≤ x ∧ x < (N : Int))
    (hterm : K ≤ (firstOccurrences draws).length) :
    ∃ idxs centroids, initCentroids data K draws = some (idxs, centroids) ∧
      idxs = (firstOccurrences draws).take K ∧ idxs.length = K ∧ centroids.length = K ∧
      idxs.Nodup ∧ (∀ j, j ∈ idxs → 0 ≤ j ∧ j < (N : Int)) ∧
      (∀ k, k < K → ∃ j, idxs[k]? = some j ∧ centroids[k]? = data[j.toNat]?) ∧
      (∀ more, initCentroids data K (draws ++ more) = some (idxs, centroids)) ∧
      ∀ t, (firstOccurrences (draws.take t)).length < K →
        initCentroids data K (draws.take t) = none := by
  have hc := initCentroids_mat N K D (entry data) draws hd
  rw [← shaped_eq_mat hdata, if_pos hterm] at hc
  have hmem : ∀ j, j ∈ (firstOccurrences draws).take K → 0 ≤ j ∧ j < (N : Int) :=
    fun j hj => hd j (firstOccurrences_mem (List.mem_of_mem_take hj))
  refine ⟨_, _, hc, rfl, by simp [hterm], by simp,
    (firstOccurrences_nodup draws).sublist (List.take_sublist _ _), hmem, ?_, ?_, ?_⟩
  · intro k hk
    have hkl : k < (firstOccurrences draws).length := by omega
    have hj : ((firstOccurrences draws).take K)[k]? = some ((firstOccurrences draws).getD k 0) := by
      rw [List.getElem?_take_of_lt hk, List.getD_eq_getElem?_getD,
        List.getElem?_eq_getElem hkl]
      rfl
    refine ⟨_, hj, ?_⟩
    have hr := hmem _ (List.getElem?_mem hj)
    have hlt : ((firstOccurrences draws).getD k 0).toNat < N := by omega
    rw [vec_getElem? _ hk, row_of_shaped hdata hlt]
  · intro more
    exact initLoop_append data K more draws [] [] _ hc
  · intro t ht
    have h1 := initCentroids_mat N K D (entry data) (draws.take t)
      (fun x hx => hd x (List.mem_of_mem_take hx))
    rw [← shaped_eq_mat hdata, if_neg (by omega)] at h1
    exact h1
/-- Instance of C13 on a concrete input over the reals. -/
theorem init_picks_distinct_witness :
    Shaped [[(1 : ℝ), 1], [2, 2], [3, 3]] 3 2 ∧
    (∀ x, x ∈ [(2 : Int), 2, 0, 1] → 0 ≤ x ∧ x < ((3 : Nat) : Int)) ∧
    2 ≤ (firstOccurrences [2, 2, 0, 1]).length ∧
    ∃ idxs centroids,
      initCentroids [[(1 : ℝ), 1], [2, 2], [3, 3]] 2 [2, 2, 0, 1] = some (idxs, centroids) ∧
      idxs = (firstOccurrences [2, 2, 0, 1]).take 2 ∧ idxs.length = 2 ∧ centroids.length = 2 ∧
      idxs.Nodup ∧ (∀ j, j ∈ idxs → 0 ≤ j ∧ j < ((3 : Nat) : Int)) ∧
      (∀ k, k < 2 → ∃ j, idxs[k]? = some j ∧
        centroids[k]? = [[(1 : ℝ), 1], [2, 2], [3, 3]][j.toNat]?) ∧
      (∀ more, initCentroids [[(1 : ℝ), 1], [2, 2], [3, 3]] 2 ([2, 2, 0, 1] ++ more)
        = some (idxs, centroids)) ∧
      ∀ t, (firstOccurrences (([2, 2, 0, 1] : List Int).take t)).length < 2 →
        initCentroids [[(1 : ℝ), 1], [2, 2], [3, 3]] 2 (([2, 2, 0, 1] : List Int).take t) = none :=
  ⟨by simp [Shaped], by decide, by decide,
    init_picks_distinct _ 3 2 2 [2, 2, 0, 1] (by simp [Shaped]) (by decide) (by decide)⟩

/-- C14: initialization is identical across the three programs.  On the same
draws, the same point set and the same `K`, the sequential, the CPU-parallel
and the accelerator initialization accept the same sequence of point indices
(the first `K` draws in order of first occurrence), the sequential and the
CPU-parallel program end with the same `centroids`, and
`centroids_flat[k*D + d]` of the accelerator program is `centroids[k][d]`. -/
theorem init_same_across_variants (data : List (List α)) (N K D : Nat) (draws : List Int)
    (hdata : Shaped data N D) (hd : ∀ x, x ∈ draws → 0 ≤ x ∧ x < (N : Int))
    (hterm : K ≤ (firstOccurrences draws).length) :
    ∃ idxs centroids flat_data centroids_flat,
      initCentroids data K draws = some (idxs, centroids) ∧
      initCentroidsCpu data K D draws = some (idxs, centroids) ∧
      flatten data N D = some flat_data ∧
      initCentroidsGpu flat_data K D draws = some (idxs, centroids_flat) ∧
      idxs = (firstOccurrences draws).take K ∧
      centroids_flat.length = K * D ∧
      ∀ k d, k < K → d < D → ∃ row x, centroids[k]? = some row ∧ row[d]? = some x ∧
        centroids_flat[k * D + d]? = some x := by
  have h1 := initCentroids_mat N K D (entry data) draws hd
  have h2 := initCentroidsCpu_mat N K D (entry data) draws hd
  have h3 := flatten_mat N D (entry data)
  have h4 := initCentroidsGpu_flat N K D (entry data) draws hd
  rw [← shaped_eq_mat hdata, if_pos hterm] at h1 h2
  rw [← shaped_eq_mat hdata] at h3
  rw [if_pos hterm] at h4
  refine ⟨_, _, _, _, h1, h2, h3, h4, rfl, flatOf_length _ _ _, ?_⟩
  intro k d hk hd1
  exact ⟨_, _, vec_getElem? _ hk, vec_getElem? _ hd1, flatOf_getElem? _ hk hd1⟩

/-- Instance of C14 on a concrete input over the reals. -/
theorem init_same_across_variants_witness :
    Shaped [[(1 : ℝ), 1], [2, 2], [3, 3]] 3 2 ∧
    (∀ x, x ∈ [(2 : Int), 2, 0, 1] → 0 ≤ x ∧ x < ((3 : Nat) : Int)) ∧
    2 ≤ (firstOccurrences [2, 2, 0, 1]).length ∧
    ∃ idxs centroids flat_data centroids_flat,
      initCentroids [[(1 : ℝ), 1], [2, 2], [3, 3]] 2 [2, 2, 0, 1] = some (idxs, centroids) ∧
      initCentroidsCpu [[(1 : ℝ), 1], [2, 2], [3, 3]] 2 2 [2, 2, 0, 1]
        = some (idxs, centroids) ∧
      flatten [[(1 : ℝ), 1], [2, 2], [3, 3]] 3 2 = some flat_data ∧
      initCentroidsGpu flat_data 2 2 [2, 2, 0, 1] = some (idxs, centroids_flat) ∧
      idxs = (firstOccurrences [2, 2, 0, 1]).take 2 ∧
      centroids_flat.length = 2 * 2 ∧
      ∀ k d, k < 2 → d < 2 → ∃ row x, centroids[k]? = some row ∧ row[d]? = some x ∧
        centroids_flat[k * 2 + d]? = some x :=
  ⟨by simp [Shaped], by decide, by decide,
    init_same_across_variants _ 3 2 2 [2, 2, 0, 1] (by simp [Shaped]) (by decide)
      (by decide)⟩

/-! ## The CPU-parallel reduction: claim C15 -/

theorem reduceBody_mat (N K D : Nat) (X S : Nat → Nat → α) (lab : Nat → Int) (c : Nat → Int)
    {i : Nat} (hi : i < N) (h0 : 0 ≤ lab i) (h1 : lab i < (K : Int)) :
    reduceBody (mat N D X) D (vec N lab) i (mat K D S, vec K c)
      = some (mat K D (fun k d => S k d + if lab i = (k : Int) then X i d else 0),
          vec K fun k => c k + if lab i = (k : Int) then 1 else 0) := by
  obtain ⟨k0, hk0⟩ := Int.eq_ofNat_of_zero_le h0
  have hk : k0 < K := by omega
  simp only [reduceBody, rd_vec _ hi, hk0, rd_vec _ hk, wr_vec _ hk, Option.some_bind,
    sumLoop_mat N K D X _ hi hk, Option.some.injEq, Prod.mk.injEq, Nat.cast_inj]
  constructor
  · apply mat_congr
    intro k _ d _
    by_cases e : k = k0
    · subst e; simp
    · simp [e, Ne.symm e]
  · apply vec_congr
    intro k _
    by_cases e : k = k0
    · subst e; simp
    · simp [Function.update_noteq e, Ne.symm e]

theorem localReduce_from (N K D : Nat) (X : Nat → Nat → α) (lab : Nat → Int)
    (hlab : ∀ i, i < N → 0 ≤ lab i ∧ lab i < (K : Int)) :
    ∀ (chunk : List Nat) (S : Nat → Nat → α) (c : Nat → Int), (∀ i, i ∈ chunk → i < N) →
      chunk.foldlM (fun st i => reduceBody (mat N D X) D (vec N lab) i st)
          (mat K D S, vec K c)
        = some (mat K D (fun k d => S k d + chunkSum X lab chunk k d),
            vec K fun k => c k + chunkCount lab chunk k)
  | [], S, c, _ => by
    simp only [List.foldlM_nil, pure, Option.some.injEq, Prod.mk.injEq]
    exact ⟨mat_congr (by intro k _ d _; simp [chunkSum]),
      vec_congr (by intro k _; simp [chunkCount])⟩
  | i :: rest, S, c, h => by
    have hi := h i (List.mem_cons_self _ _)
    obtain ⟨h0, h1⟩ := hlab i hi
    rw [List.foldlM_cons, reduceBody_mat N K D X S lab c hi h0 h1]
    simp only [Option.bind_eq_bind, Option.some_bind]
    rw [localReduce_from N K D X lab hlab rest _ _ (fun j hj => h j (List.mem_cons_of_mem _ hj))]
    simp only [Option.some.injEq, Prod.mk.injEq]
    exact ⟨mat_congr (by intro k _ d _; simp [chunkSum, add_assoc]),
      vec_congr (by intro k _; simp [chunkCount, add_assoc])⟩

theorem localReduce_mat (N K D : Nat) (X : Nat → Nat → α) (lab : Nat → Int)
    (hlab : ∀ i, i < N → 0 ≤ lab i ∧ lab i < (K : Int)) (chunk : List Nat)
    (h : ∀ i, i ∈ chunk → i < N) :
    localReduce (mat N D X) K D (vec N lab) chunk
      = some (mat K D (chunkSum X lab chunk), vec K (chunkCount lab chunk)) := by
  rw [localReduce, replicate_eq_mat, replicate_eq_vec,
    localReduce_from N K D X lab hlab chunk _ _ h]
  simp

theorem mergeSumLoop_mat (K D : Nat) (S T : Nat → Nat → α) {k : Nat} (hk : k < K) :
    forLoop (mergeSumBody (mat K D T) k) 0 D (mat K D S)
      = some (mat K D fun k1 d1 => if k1 = k then S k1 d1 + T k1 d1 else S k1 d1) := by
  have h := forLoop_closed (mergeSumBody (mat K D T) k)
    (fun d => mat K D fun k1 d1 => if k1 = k ∧ d1 < d then S k1 d1 + T k1 d1 else S k1 d1)
    D 0 (by
      intro d _ hd
      have hd : d < D := by omega
      simp only [mergeSumBody, rd_mat D _ hk, rd_vec _ hd, wr_vec _ hd, Option.some_bind,
        wr_mat D _ hk]
      congr 1
      apply mat_congr
      intro k1 _ d1 _
      by_cases e : k1 = k
      · subst e
        by_cases e1 : d1 = d
        · subst e1; simp
        · have : d1 < d + 1 ↔ d1 < d := by omega
          simp [Function.update_noteq e1, this]
      · simp [Function.update_noteq e, e])
  simp only [Nat.zero_add] at h
  rw [show (mat K D fun k1 d1 => if k1 = k ∧ d1 < 0 then S k1 d1 + T k1 d1 else S k1 d1)
      = mat K D S from mat_congr (by intro k1 _ d1 _; simp)] at h
  rw [h]
  congr 1
  apply mat_congr
  intro k1 _ d1 hd1
  simp [hd1]

theorem merge_mat (K D : Nat) (S T : Nat → Nat → α) (c e : Nat → Int) :
    merge K D (mat K D S, vec K c) (mat K D T, vec K e)
      = some (mat K D (fun k d => S k d + T k d), vec K fun k => c k + e k) := by
  have h := forLoop_closed (mergeBody (mat K D T, vec K e) D)
    (fun k => (mat K D (fun k1 d1 => if k1 < k then S k1 d1 + T k1 d1 else S k1 d1),
      vec K fun k1 => if k1 < k then c k1 + e k1 else c k1)) K 0 (by
      intro k _ hk
      have hk : k < K := by omega
      simp only [mergeBody, rd_vec _ hk, wr_vec _ hk, Option.some_bind,
        mergeSumLoop_mat K D _ T hk, lt_irrefl, if_false, Option.some.injEq, Prod.mk.injEq]
      constructor
      · apply mat_congr
        intro k1 _ d1 _
        by_cases e1 : k1 = k
        · subst e1; simp
        · have : k1 < k + 1 ↔ k1 < k := by omega
          simp [e1, this]
      · apply vec_congr
        intro k1 _
        by_cases e1 : k1 = k
        · subst e1; simp
        · have : k1 < k + 1 ↔ k1 < k := by omega
          simp [Function.update_noteq e1, this])
  simp only [Nat.zero_add] at h
  rw [show (mat K D fun k1 d1 => if k1 < 0 then S k1 d1 + T k1 d1 else S k1 d1) = mat K D S from
      mat_congr (by intro k1 _ d1 _; simp),
    show (vec K fun k1 => if k1 < 0 then c k1 + e k1 else c k1) = vec K c from
      vec_congr (by intro k1 _; simp)] at h
  rw [merge, h]
  simp only [Option.some.injEq, Prod.mk.injEq]
  exact ⟨mat_congr (by intro k1 hk1 d1 _; simp [hk1]), vec_congr (by intro k1 hk1; simp [hk1])⟩

theorem parReduce_from (N K D : Nat) (X : Nat → Nat → α) (lab : Nat → Int)
    (hlab : ∀ i, i < N → 0 ≤ lab i ∧ lab i < (K : Int)) :
    ∀ (chunks : List (List Nat)) (S : Nat → Nat → α) (c : Nat → Int),
      (∀ i, i ∈ chunks.flatten → i < N) →
      chunks.foldlM
          (fun st chunk => (localReduce (mat N D X) K D (vec N lab) chunk).bind fun loc =>
            merge K D st loc) (mat K D S, vec K c)
        = some (mat K D (fun k d => S k d + chunkSum X lab chunks.flatten k d),
            vec K fun k => c k + chunkCount lab chunks.flatten k)
  | [], S, c, _ => by
    simp only [List.foldlM_nil, pure, List.flatten_nil, Option.some.injEq, Prod.mk.injEq]
    exact ⟨mat_congr (by intro k _ d _; simp [chunkSum]),
      vec_congr (by intro k _; simp [chunkCount])⟩
  | chunk :: rest, S, c, h => by
    have hc : ∀ i, i ∈ chunk → i < N := fun i hi => h i (by simp [hi])
    have hr : ∀ i, i ∈ rest.flatten → i < N := fun i hi => h i (by
      rw [List.flatten_cons]
      exact List.mem_append_right _ hi)
    rw [List.foldlM_cons, localReduce_mat N K D X lab hlab chunk hc]
    simp only [Option.bind_eq_bind, Option.some_bind, merge_mat]
    rw [parReduce_from N K D X lab hlab rest _ _ hr]
    simp only [Option.some.injEq, Prod.mk.injEq]
    exact ⟨mat_congr (by intro k _ d _; simp [chunkSum, add_assoc]),
      vec_congr (by intro k _; simp [chunkCount, add_assoc])⟩

theorem chunkSum_range (X : Nat → Nat → α) (lab : Nat → Int) (N k d : Nat) :
    chunkSum X lab (List.range N) k d = sumOf X lab N k d := by
  unfold chunkSum sumOf members
  rw [Finset.sum_filter]
  induction N with
  | zero => simp
  | succ n ih => rw [List.range_succ, List.map_append, List.sum_append, ih,
      Finset.sum_range_succ]; simp

theorem chunkCount_range (lab : Nat → Int) (N k : Nat) :
    chunkCount lab (List.range N) k = countOf lab N k := by
  unfold chunkCount countOf members
  rw [Finset.card_filter, Nat.cast_sum]
  induction N with
  | zero => simp
  | succ n ih => rw [List.range_succ, List.map_append, List.sum_append, ih,
      Finset.sum_range_succ]; simp

theorem parReduce_mat (N K D : Nat) (X : Nat → Nat → α) (lab : Nat → Int)
    (hlab : ∀ i, i < N → 0 ≤ lab i ∧ lab i < (K : Int)) (chunks : List (List Nat))
    (hpart : chunks.flatten.Perm (List.range N)) :
    parReduce (mat N D X) K D (vec N lab) chunks
      = some (mat K D (sumOf X lab N), vec K (countOf lab N)) := by
  have hmem : ∀ i, i ∈ chunks.flatten → i < N := fun i hi =>
    List.mem_range.1 (hpart.mem_iff.1 hi)
  rw [parReduce, replicate_eq_mat, replicate_eq_vec,
    parReduce_from N K D X lab hlab chunks _ _ hmem]
  simp only [Option.some.injEq, Prod.mk.injEq]
  constructor
  · apply mat_congr
    intro k _ d _
    rw [zero_add, ← chunkSum_range]
    exact (hpart.map _).sum_eq
  · apply vec_congr
    intro k _
    rw [zero_add, ← chunkCount_range]
    exact (hpart.map _).sum_eq
theorem acc_eq_mat {a : List (List α) × List Int} {K D : Nat}
    (h : Shaped a.1 K D ∧ a.2.length = K) :
    a = (mat K D (entry a.1), vec K fun k => a.2.getD k 0) := by
  obtain ⟨a1, a2⟩ := a
  simp only [Prod.mk.injEq]
  exact ⟨shaped_eq_mat h.1, labels_eq_vec h.2⟩

/-- C15: the CPU-parallel reduction refines the sequential one.  For labels
in `[0, K)`, every split `chunks` of the rounds `[0, N)` among the workers and
every order `order` in which the workers pass through the critical section,
the shared `(sum, count)` after the parallel region is the one that the
sequential reduction loop computes.  The addition done in the critical
section is associative and commutative on accumulators of `K × D` sums and `K`
counts, and the all-zero accumulator is neutral for it. -/
theorem parallel_reduce_refines (data : List (List α)) (labels : List Int) (N K D : Nat)
    (chunks order : List (List Nat)) (a b c : List (List α) × List Int)
    (hdata : Shaped data N D) (hlen : labels.length = N) (hlab : InRange K labels)
    (hpart : chunks.flatten.Perm (List.range N)) (hord : order.Perm chunks)
    (ha : Shaped a.1 K D ∧ a.2.length = K) (hb : Shaped b.1 K D ∧ b.2.length = K)
    (hc : Shaped c.1 K D ∧ c.2.length = K) :
    (∃ acc, reduce data N K D labels = some acc ∧
      parReduce data K D labels order = some acc) ∧
    (∃ ab bc abc, merge K D a b = some ab ∧ merge K D b c = some bc ∧
      merge K D ab c = some abc ∧ merge K D a bc = some abc) ∧
    merge K D a b = merge K D b a ∧
    merge K D (List.replicate K (List.replicate D 0), List.replicate K 0) a = some a ∧
    merge K D a (List.replicate K (List.replicate D 0), List.replicate K 0) = some a := by
  have hr := inRange_getD hlen hlab
  have h1 := reduce_mat N K D (entry data) (fun i => labels.getD i 0) hr
  have h2 := parReduce_mat N K D (entry data) (fun i => labels.getD i 0) hr order
    (hord.flatten.trans hpart)
  rw [← shaped_eq_mat hdata, ← labels_eq_vec hlen] at h1 h2
  refine ⟨⟨_, h1, h2⟩, ?_, ?_, ?_, ?_⟩
  · rw [acc_eq_mat ha, acc_eq_mat hb, acc_eq_mat hc]
    refine ⟨_, _, _, merge_mat _ _ _ _ _ _, merge_mat _ _ _ _ _ _, merge_mat _ _ _ _ _ _, ?_⟩
    rw [merge_mat]
    simp only [Option.some.injEq, Prod.mk.injEq]
    exact ⟨mat_congr (by intro k _ d _; rw [add_assoc]),
      vec_congr (by intro k _; rw [add_assoc])⟩
  · rw [acc_eq_mat ha, acc_eq_mat hb, merge_mat, merge_mat]
    simp only [Option.some.injEq, Prod.mk.injEq]
    exact ⟨mat_congr (by intro k _ d _; rw [add_comm]),
      vec_congr (by intro k _; rw [add_comm])⟩
  · conv_lhs => rw [acc_eq_mat ha, replicate_eq_mat, replicate_eq_vec, merge_mat]
    conv_rhs => rw [acc_eq_mat ha]
    simp only [Option.some.injEq, Prod.mk.injEq]
    exact ⟨mat_congr (by intro k _ d _; rw [zero_add]),
      vec_congr (by intro k _; rw [zero_add])⟩
  · conv_lhs => rw [acc_eq_mat ha, replicate_eq_mat, replicate_eq_vec, merge_mat]
    conv_rhs => rw [acc_eq_mat ha]
    simp only [Option.some.injEq, Prod.mk.injEq]
    exact ⟨mat_congr (by intro k _ d _; rw [add_zero]),
      vec_congr (by intro k _; rw [add_zero])⟩

/-- Instance of C15 on a concrete input over the reals. -/
theorem parallel_reduce_refines_witness :
    Shaped [[(1 : ℝ), 2], [3, 4], [5, 6]] 3 2 ∧ [(1 : Int), 0, 1].length = 3 ∧
    InRange 2 [1, 0, 1] ∧
    ([[0, 2], [], [1]] : List (List Nat)).flatten.Perm (List.range 3) ∧
    ([[1], [0, 2], []] : List (List Nat)).Perm [[0, 2], [], [1]] ∧
    (Shaped ([[(1 : ℝ), 0], [0, 0]], [(1 : Int), 0]).1 2 2 ∧
      ([[(1 : ℝ), 0], [0, 0]], [(1 : Int), 0]).2.length = 2) ∧
    (Shaped ([[(0 : ℝ), 0], [2, 2]], [(0 : Int), 1]).1 2 2 ∧
      ([[(0 : ℝ), 0], [2, 2]], [(0 : Int), 1]).2.length = 2) ∧
    (Shaped ([[(5 : ℝ), 5], [5, 5]], [(2 : Int), 3]).1 2 2 ∧
      ([[(5 : ℝ), 5], [5, 5]], [(2 : Int), 3]).2.length = 2) ∧
    ((∃ acc, reduce [[(1 : ℝ), 2], [3, 4], [5, 6]] 3 2 2 [1, 0, 1] = some acc ∧
        parReduce [[(1 : ℝ), 2], [3, 4], [5, 6]] 2 2 [1, 0, 1] [[1], [0, 2], []] = some acc) ∧
      (∃ ab bc abc,
        merge 2 2 ([[(1 : ℝ), 0], [0, 0]], [(1 : Int), 0]) ([[(0 : ℝ), 0], [2, 2]], [(0 : Int), 1])
          = some ab ∧
        merge 2 2 ([[(0 : ℝ), 0], [2, 2]], [(0 : Int), 1]) ([[(5 : ℝ), 5], [5, 5]], [(2 : Int), 3])
          = some bc ∧
        merge 2 2 ab ([[(5 : ℝ), 5], [5, 5]], [(2 : Int), 3]) = some abc ∧
        merge 2 2 ([[(1 : ℝ), 0], [0, 0]], [(1 : Int), 0]) bc = some abc) ∧
      merge 2 2 ([[(1 : ℝ), 0], [0, 0]], [(1 : Int), 0]) ([[(0 : ℝ), 0], [2, 2]], [(0 : Int), 1])
        = merge 2 2 ([[(0 : ℝ), 0], [2, 2]], [(0 : Int), 1])
            ([[(1 : ℝ), 0], [0, 0]], [(1 : Int), 0]) ∧
      merge 2 2 (List.replicate 2 (List.replicate 2 0), List.replicate 2 0)
          ([[(1 : ℝ), 0], [0, 0]], [(1 : Int), 0])
        = some ([[(1 : ℝ), 0], [0, 0]], [(1 : Int), 0]) ∧
      merge 2 2 ([[(1 : ℝ), 0], [0, 0]], [(1 : Int), 0])
          (List.replicate 2 (List.replicate 2 0), List.replicate 2 0)
        = some ([[(1 : ℝ), 0], [0, 0]], [(1 : Int), 0])) :=
  ⟨by simp [Shaped], by simp, by simp [InRange], by decide, by decide,
    by simp [Shaped], by simp [Shaped], by simp [Shaped],
    parallel_reduce_refines _ _ 3 2 2 [[0, 2], [], [1]] [[1], [0, 2], []] _ _ _
      (by simp [Shaped]) (by simp) (by simp [InRange]) (by decide) (by decide)
      (by simp [Shaped]) (by simp [Shaped]) (by simp [Shaped])⟩

/-! ## The accelerator program: claim C16 -/

theorem rd_natCast {β : Type} (v : List β) (i : Nat) : rd v (i : Int) = v[i]? := by
  simp [rd]

theorem nearestFlat_nonneg (sqrt : α → α) (flat_data centroids_flat : List α) (K D i : Nat)
    (r : WithTop α × Int)
    (h : forLoop (nearestFlatBody sqrt flat_data centroids_flat D i) 0 K (⊤, 0) = some r) :
    0 ≤ r.2 := by
  have := forLoop_some_inv (nearestFlatBody sqrt flat_data centroids_flat D i)
    (fun _ st => 0 ≤ st.2) (by
      intro k s s1 hb hinv
      simp only [nearestFlatBody, Option.bind_eq_some] at hb
      obtain ⟨dist, _, hb⟩ := hb
      split at hb
      · cases hb
        exact Int.natCast_nonneg k
      · cases hb
        exact hinv) K 0 (⊤, 0) r h (le_refl 0)
  exact this

theorem kernel_changed (sqrt : α → α) (flat_data centroids_flat : List α) (N K D : Nat)
    (hN : 1 ≤ N) (r : List Int × Bool)
    (h : kernel sqrt flat_data centroids_flat N K D (List.replicate N (-1)) = some r) :
    r.2 = true := by
  have := forLoop_some_inv (kernelBody sqrt flat_data centroids_flat K D)
    (fun i st => (∀ j, i ≤ j → st.1[j]? = (List.replicate N (-1 : Int))[j]?) ∧
      (0 < i → st.2 = true)) (by
      intro i s s1 hb hinv
      simp only [kernelBody, Option.bind_eq_some] at hb
      obtain ⟨r1, hr1, li, hli, hb⟩ := hb
      have h0 := nearestFlat_nonneg sqrt flat_data centroids_flat K D i r1 hr1
      rw [rd_natCast, hinv.1 i (le_refl i), List.getElem?_replicate] at hli
      have hli1 : li = -1 := by
        split at hli
        · exact (Option.some.inj hli).symm
        · cases hli
      have hne : li ≠ r1.2 := by omega
      rw [if_pos hne] at hb
      simp only [Option.map_eq_some'] at hb
      obtain ⟨l, hl, rfl⟩ := hb
      simp only [wr] at hl
      split at hl
      · cases hl
        refine ⟨?_, fun _ => rfl⟩
        intro j hj
        rw [Int.toNat_ofNat, List.getElem?_set_ne (by omega)]
        exact hinv.1 j (by omega)
      · cases hl) N 0 (List.replicate N (-1), false) r h
    ⟨fun _ _ => rfl, fun h0 => absurd h0 (lt_irrefl 0)⟩
  exact this.2 (by omega)

theorem reduceFlat_sentinel (flat_data : List α) (N K D : Nat) (hN : 1 ≤ N) :
    reduceFlat flat_data N K D (List.replicate N (-1)) = none := by
  obtain ⟨n, rfl⟩ : ∃ n, N = n + 1 := ⟨N - 1, by omega⟩
  simp [reduceFlat, forLoop, reduceFlatBody, rd, List.replicate_succ]

theorem gpuLoop_first (sqrt : α → α) (flat_data : List α) (N K D : Nat) (hN : 1 ≤ N)
    (fuel iter : Nat) (centroids_flat devCentroids : List α) :
    gpuLoop sqrt flat_data N K D (fuel + 1) iter
      ⟨centroids_flat, List.replicate N (-1), devCentroids, List.replicate N (-1)⟩ = none := by
  rw [gpuLoop]
  cases hk : kernel sqrt flat_data devCentroids N K D (List.replicate N (-1)) with
  | none => rfl
  | some r =>
    have hc := kernel_changed sqrt flat_data devCentroids N K D hN r hk
    simp [hc, reduceFlat_sentinel flat_data N K D hN]

theorem gpuLoop_stale (sqrt : α → α) (flat_data : List α) (N K D : Nat) :
    ∀ (fuel iter : Nat) (s : Copies α) (r : Copies α × Option Nat),
      gpuLoop sqrt flat_data N K D fuel iter s = some r →
      r.1.devCentroids = s.devCentroids ∧ r.1.hostLabels = s.hostLabels
  | 0, _, s, r, h => by
    simp only [gpuLoop, Option.some.injEq] at h
    subst h
    exact ⟨rfl, rfl⟩
  | fuel + 1, iter, s, r, h => by
    rw [gpuLoop] at h
    obtain ⟨r1, _, h⟩ := Option.bind_eq_some.1 h
    split at h
    · cases h
      exact ⟨rfl, rfl⟩
    · obtain ⟨acc, _, h⟩ := Option.bind_eq_some.1 h
      obtain ⟨c1, _, h⟩ := Option.bind_eq_some.1 h
      exact gpuLoop_stale sqrt flat_data N K D fuel (iter + 1)
        { s with devLabels := r1.1, hostCentroids := c1 } r h

/-- C16: with a host copy and a device copy of each array mapped by the
`target data` region, the accelerator program does not have the data flow of
the sequential one.  During the loop the kernel always reads the device copy
of `centroids_flat` made on entry and the host always reads the host copy of
`labels` made before the region.  So for `N ≥ 1` and `max_iter ≥ 1` the host
reduction of iteration `0` reads labels that are still `-1` and subscripts
`count` with `-1`: the accelerator program has no result, where the
sequential program returns one. -/
theorem gpu_copies_out_of_sync (sqrt : α → α) (data centroids : List (List α))
    (flat_data centroids_flat : List α) (N K D : Nat) (max_iter : Int) (hN : 1 ≤ N)
    (hK : 1 ≤ K) (hm : 1 ≤ max_iter) (hdata : Shaped data N D)
    (hcent : Shaped centroids K D) :
    (∃ out, kmeans sqrt data N K D max_iter centroids = some out) ∧
    gpuKmeans sqrt flat_data N K D max_iter centroids_flat = none ∧
    ∀ fuel iter s r, gpuLoop sqrt flat_data N K D fuel iter s = some r →
      r.1.devCentroids = s.devCentroids ∧ r.1.hostLabels = s.hostLabels := by
  obtain ⟨fuel, hf⟩ : ∃ fuel, max_iter.toNat = fuel + 1 := ⟨max_iter.toNat - 1, by omega⟩
  refine ⟨?_, ?_, gpuLoop_stale sqrt flat_data N K D⟩
  · have ht := mainLoop_total sqrt N K D hK (entry data) fuel 0 (entry centroids)
      (fun _ => (-1 : Int))
    rw [← shaped_eq_mat hdata, ← shaped_eq_mat hcent, ← replicate_eq_vec] at ht
    obtain ⟨out, hout, _⟩ := ht
    exact ⟨out, by rw [kmeans, hf]; exact hout⟩
  · rw [gpuKmeans, hf, gpuLoop_first sqrt flat_data N K D hN]
    rfl

/-- Instance of C16 on a concrete input over the reals, with `Real.sqrt`. -/
theorem gpu_copies_out_of_sync_witness :
    1 ≤ 1 ∧ 1 ≤ 1 ∧ (1 : Int) ≤ 1 ∧ Shaped [[(0 : ℝ)]] 1 1 ∧ Shaped [[(0 : ℝ)]] 1 1 ∧
    ((∃ out, kmeans Real.sqrt [[(0 : ℝ)]] 1 1 1 1 [[(0 : ℝ)]] = some out) ∧
      gpuKmeans Real.sqrt [(0 : ℝ)] 1 1 1 1 [(0 : ℝ)] = none ∧
      ∀ fuel iter s r, gpuLoop Real.sqrt [(0 : ℝ)] 1 1 1 fuel iter s = some r →
        r.1.devCentroids = s.devCentroids ∧ r.1.hostLabels = s.hostLabels) :=
  ⟨by decide, by decide, by decide, by simp [Shaped], by simp [Shaped],
    gpu_copies_out_of_sync Real.sqrt _ _ _ _ 1 1 1 1 (by decide) (by decide) (by decide)
      (by simp [Shaped]) (by simp [Shaped])⟩

/-! ## Exit status: claim C17 -/

theorem run_some (sqrt : α → α) (data centroids : List (List α)) (N K D : Nat)
    (max_iter : Int) (hK : 1 ≤ K) (hdata : Shaped data N D) (hcent : Shaped centroids K D)
    (hm : 1 ≤ max_iter) : ∃ r, run sqrt data N K D max_iter centroids = some r := by
  obtain ⟨fuel, hf⟩ : ∃ fuel, max_iter.toNat = fuel + 1 := ⟨max_iter.toNat - 1, by omega⟩
  have ht := mainLoop_total sqrt N K D hK (entry data) fuel 0 (entry centroids)
    (fun _ => (-1 : Int))
  rw [← shaped_eq_mat hdata, ← shaped_eq_mat hcent, ← replicate_eq_vec] at ht
  obtain ⟨out, hout, hsh, hlen, hr⟩ := ht
  have htally := tally_vec (inRange_getD hlen hr)
  rw [← labels_eq_vec hlen] at htally
  refine ⟨(out, ⟨out.centroids, vec K (countOf (fun i => out.labels.getD i 0) N)⟩), ?_⟩
  rw [run, kmeans, hf, hout]
  simp only [Option.some_bind, report, printCentroids_eq hsh.1, htally]

theorem run_zero (sqrt : α → α) (data centroids : List (List α)) (N K D : Nat)
    (max_iter : Int) (hN : 1 ≤ N) (hm : max_iter ≤ 0) :
    run sqrt data N K D max_iter centroids = none := by
  rw [run, kmeans_zero sqrt data centroids N K D max_iter hm]
  simp only [Option.some_bind, report, tally_sentinel K hN]
  cases printCentroids K centroids <;> rfl

theorem mainFrom_invalid (sqrt : α → α) (data : List (List α)) (K max_iter : Int)
    (draws : List Int) :
    mainFrom sqrt data K max_iter draws = some 1
      ↔ data.length = 0 ∨ K ≤ 0 ∨ K > (data.length : Int) := by
  unfold mainFrom
  by_cases hN : data.length = 0
  · simp [hN]
  · have hN1 : ¬ ((data.length : Int) = 0) := by omega
    obtain ⟨row0, hrow⟩ : ∃ row0, rd data 0 = some row0 := by
      cases data with
      | nil => simp at hN
      | cons x xs => exact ⟨x, by simp [rd]⟩
    simp only [hN1, if_false, hrow, Option.some_bind, hN, false_or]
    by_cases hK : K ≤ 0 ∨ K > (data.length : Int)
    · simp [hK]
    · simp only [hK, if_false, iff_false]
      intro h
      obtain ⟨_, _, h⟩ := Option.bind_eq_some.1 h
      obtain ⟨_, _, h⟩ := Option.bind_eq_some.1 h
      cases h

theorem mainFrom_valid (sqrt : α → α) (data : List (List α)) (N D : Nat) (K max_iter : Int)
    (draws : List Int) (hdata : Shaped data N D) (hN : 1 ≤ N) (hK : 1 ≤ K)
    (hKN : K ≤ (N : Int)) :
    mainFrom sqrt data K max_iter draws
      = (initCentroids data K.toNat draws).bind fun init =>
          (run sqrt data N K.toNat D max_iter init.2).bind fun _ => some 0 := by
  unfold mainFrom
  have hrow : rd data 0 = some (vec D (entry data 0)) := by
    rw [show (0 : Int) = ((0 : Nat) : Int) from rfl, rd_natCast]
    exact row_of_shaped hdata (by omega)
  have hlen := hdata.1
  subst hlen
  have hN1 : ¬ ((data.length : Int) = 0) := by omega
  have hK1 : ¬ (K ≤ 0 ∨ K > (data.length : Int)) := by omega
  simp only [hN1, if_false, hrow, Option.some_bind, hK1, vec_length, Int.toNat_ofNat]

/-- C17: the exit status is `1` exactly when `N == 0` or `K <= 0` or `K > N`,
whatever the draws and the iteration budget are (nothing is initialized and no
iteration runs).  On a valid input whose draws let the initialization end,
`main` returns `0` when the budget `max_iter1` is at least `1`.  With a budget
`max_iter0 ≤ 0` it does not return: the labels are still `-1` after the loop
and the size tally subscripts `sz` with `-1`. -/
theorem exit_status (sqrt : α → α) (data : List (List α)) (N D : Nat)
    (K max_iter1 max_iter0 : Int) (draws : List Int) (hdata : Shaped data N D)
    (hN : 1 ≤ N) (hK : 1 ≤ K) (hKN : K ≤ (N : Int))
    (hd : ∀ x, x ∈ draws → 0 ≤ x ∧ x < (N : Int))
    (hterm : K.toNat ≤ (firstOccurrences draws).length) (hm1 : 1 ≤ max_iter1)
    (hm0 : max_iter0 ≤ 0) :
    (∀ (data1 : List (List α)) (K1 max_iter : Int) (draws1 : List Int),
      mainFrom sqrt data1 K1 max_iter draws1 = some 1
        ↔ data1.length = 0 ∨ K1 ≤ 0 ∨ K1 > (data1.length : Int)) ∧
    mainFrom sqrt data K max_iter1 draws = some 0 ∧
    mainFrom sqrt data K max_iter0 draws = none := by
  refine ⟨fun data1 K1 max_iter draws1 => mainFrom_invalid sqrt data1 K1 max_iter draws1,
    ?_, ?_⟩
  · rw [mainFrom_valid sqrt data N D K max_iter1 draws hdata hN hK hKN]
    have hi := initCentroids_mat N K.toNat D (entry data) draws hd
    rw [← shaped_eq_mat hdata, if_pos hterm] at hi
    rw [hi, Option.some_bind]
    obtain ⟨r, hr⟩ := run_some sqrt data _ N K.toNat D max_iter1 (by omega) hdata
      (shaped_mat K.toNat D _) hm1
    rw [show (vec K.toNat fun k => vec D (entry data ((firstOccurrences draws).getD k 0).toNat))
      = mat K.toNat D (fun k => entry data ((firstOccurrences draws).getD k 0).toNat) from rfl,
      hr]
    rfl
  · rw [mainFrom_valid sqrt data N D K max_iter0 draws hdata hN hK hKN]
    cases initCentroids data K.toNat draws with
    | none => rfl
    | some init =>
      rw [Option.some_bind, run_zero sqrt data init.2 N K.toNat D max_iter0 hN hm0]
      rfl

/-- Instance of C17 on a concrete input over the reals, with `Real.sqrt`. -/
theorem exit_status_witness :
    Shaped [[(0 : ℝ)]] 1 1 ∧ 1 ≤ 1 ∧ (1 : Int) ≤ 1 ∧ (1 : Int) ≤ ((1 : Nat) : Int) ∧
    (∀ x, x ∈ [(0 : Int)] → 0 ≤ x ∧ x < ((1 : Nat) : Int)) ∧
    (1 : Int).toNat ≤ (firstOccurrences [0]).length ∧ (1 : Int) ≤ 150 ∧ (0 : Int) ≤ 0 ∧
    ((∀ (data1 : List (List ℝ)) (K1 max_iter : Int) (draws1 : List Int),
        mainFrom Real.sqrt data1 K1 max_iter draws1 = some 1
          ↔ data1.length = 0 ∨ K1 ≤ 0 ∨ K1 > (data1.length : Int)) ∧
      mainFrom Real.sqrt [[(0 : ℝ)]] 1 150 [0] = some 0 ∧
      mainFrom Real.sqrt [[(0 : ℝ)]] 1 0 [0] = none) :=
  ⟨by simp [Shaped], by decide, by decide, by decide, by decide, by decide, by decide,
    by decide,
    exit_status Real.sqrt _ 1 1 1 150 0 [0] (by simp [Shaped]) (by decide) (by decide)
      (by decide) (by decide) (by decide) (by decide) (by decide)⟩

/-! ## Iteration budget: claim C18 -/

theorem mainLoop_passes (sqrt : α → α) (data : List (List α)) (N K D : Nat) :
    ∀ (fuel iter : Nat) (centroids : List (List α)) (labels : List Int) (out : Outcome α),
      mainLoop sqrt data N K D fuel iter centroids labels = some out →
      ∃ m s, passes sqrt data N K D m (centroids, labels) = some s ∧
        out.centroids = s.1 ∧ out.labels = s.2 ∧
        ((out.converged = some (iter + m) ∧ m < fuel ∧
            assign sqrt data s.1 N K s.2 = some (s.2, false)) ∨
          (out.converged = none ∧ m = fuel))
  | 0, iter, centroids, labels, out, h => by
    simp only [mainLoop, Option.some.injEq] at h
    subst h
    exact ⟨0, (centroids, labels), rfl, rfl, rfl, Or.inr ⟨rfl, rfl⟩⟩
  | fuel + 1, iter, centroids, labels, out, h => by
    rw [mainLoop] at h
    obtain ⟨r, hr, h⟩ := Option.bind_eq_some.1 h
    obtain ⟨l1, ch⟩ := r
    cases ch with
    | false =>
      simp only [Bool.not_false, if_true, Option.some.injEq] at h
      subst h
      have hl := assign_unchanged sqrt data centroids N K labels l1 hr
      subst hl
      exact ⟨0, (centroids, l1), rfl, rfl, rfl, Or.inl ⟨rfl, by omega, hr⟩⟩
    | true =>
      simp only [Bool.not_true, Bool.false_eq_true, if_false] at h
      obtain ⟨acc, hacc, h⟩ := Option.bind_eq_some.1 h
      obtain ⟨c1, hc1, h⟩ := Option.bind_eq_some.1 h
      obtain ⟨m, s, hp, h1, h2, h3⟩ :=
        mainLoop_passes sqrt data N K D fuel (iter + 1) c1 l1 out h
      refine ⟨m + 1, s, ?_, h1, h2, ?_⟩
      · rw [passes, fullIteration, hr]
        simp only [Option.some_bind, if_true, hacc, hc1]
        exact hp
      · rcases h3 with ⟨ha, hb, hc⟩ | ⟨ha, hb⟩
        · exact Or.inl ⟨by rw [ha]; congr 1; omega, by omega, hc⟩
        · exact Or.inr ⟨ha, by omega⟩

/-- C18: the iteration budget.  For a valid input and `max_iter ≥ 0` the main
loop returns.  Up to its exit it ran `m` iterations that each changed some
label and went through reduction and update, and then either an assignment
pass changed nothing and `m`, strictly below `max_iter`, is the reported
iteration count (converged: `m + 1` assignment passes, `m` reduction and
update passes), or `m` equals `max_iter` and nothing is reported (exhausted:
`max_iter` passes of each kind). -/
theorem iteration_budget (sqrt : α → α) (data centroids : List (List α)) (N K D : Nat)
    (max_iter : Int) (hK : 1 ≤ K) (hm : 0 ≤ max_iter) (hdata : Shaped data N D)
    (hcent : Shaped centroids K D) :
    ∃ out m s, kmeans sqrt data N K D max_iter centroids = some out ∧
      passes sqrt data N K D m (centroids, List.replicate N (-1)) = some s ∧
      out.centroids = s.1 ∧ out.labels = s.2 ∧
      ((out.converged = some m ∧ (m : Int) < max_iter ∧
          assign sqrt data s.1 N K s.2 = some (s.2, false)) ∨
        (out.converged = none ∧ (m : Int) = max_iter)) := by
  have hout : ∃ out, kmeans sqrt data N K D max_iter centroids = some out := by
    rcases Nat.eq_zero_or_pos max_iter.toNat with h0 | h0
    · exact ⟨_, by rw [kmeans, h0, mainLoop]⟩
    · obtain ⟨fuel, hf⟩ : ∃ fuel, max_iter.toNat = fuel + 1 := ⟨max_iter.toNat - 1, by omega⟩
      have ht := mainLoop_total sqrt N K D hK (entry data) fuel 0 (entry centroids)
        (fun _ => (-1 : Int))
      rw [← shaped_eq_mat hdata, ← shaped_eq_mat hcent, ← replicate_eq_vec] at ht
      obtain ⟨out, hout, _⟩ := ht
      exact ⟨out, by rw [kmeans, hf]; exact hout⟩
  obtain ⟨out, hout⟩ := hout
  obtain ⟨m, s, hp, h1, h2, h3⟩ :=
    mainLoop_passes sqrt data N K D max_iter.toNat 0 centroids _ out hout
  refine ⟨out, m, s, hout, hp, h1, h2, ?_⟩
  rcases h3 with ⟨ha, hb, hc⟩ | ⟨ha, hb⟩
  · exact Or.inl ⟨by rw [ha, Nat.zero_add], by omega, hc⟩
  · exact Or.inr ⟨ha, by omega⟩

/-- Instance of C18 on a concrete input over the reals, with `Real.sqrt`. -/
theorem iteration_budget_witness :
    1 ≤ 2 ∧ (0 : Int) ≤ 150 ∧ Shaped [[(0 : ℝ), 0], [0, 1], [10, 0], [10, 1]] 4 2 ∧
    Shaped [[(0 : ℝ), 0], [10, 0]] 2 2 ∧
    ∃ out m s,
      kmeans Real.sqrt [[(0 : ℝ), 0], [0, 1], [10, 0], [10, 1]] 4 2 2 150 [[0, 0], [10, 0]]
        = some out ∧
      passes Real.sqrt [[(0 : ℝ), 0], [0, 1], [10, 0], [10, 1]] 4 2 2 m
        ([[0, 0], [10, 0]], List.replicate 4 (-1)) = some s ∧
      out.centroids = s.1 ∧ out.labels = s.2 ∧
      ((out.converged = some m ∧ (m : Int) < 150 ∧
          assign Real.sqrt [[(0 : ℝ), 0], [0, 1], [10, 0], [10, 1]] s.1 4 2 s.2
            = some (s.2, false)) ∨
        (out.converged = none ∧ (m : Int) = 150)) :=
  ⟨by decide, by decide, by simp [Shaped], by simp [Shaped],
    iteration_budget Real.sqrt _ _ 4 2 2 150 (by decide) (by decide) (by simp [Shaped])
      (by simp [Shaped])⟩

/-! ## The loader: claim C19 -/

theorem loadLines_inv {β : Type} (stod : List Char → Parsed β) (P : List β → Prop) :
    ∀ (lines : List (List Char)) (data out : List (List β)),
      (∀ line, line ∈ lines → ∀ row, parseLine stod line = some row →
        row.dropLast ≠ [] → P row.dropLast) →
      (∀ r, r ∈ data → P r) → loadLines stod lines data = some out → ∀ r, r ∈ out → P r
  | [], data, out, _, hdata, h => by
    simp only [loadLines, Option.some.injEq] at h
    subst h
    exact hdata
  | line :: rest, data, out, hl, hdata, h => by
    have hrest : ∀ l, l ∈ rest → ∀ row, parseLine stod l = some row →
        row.dropLast ≠ [] → P row.dropLast :=
      fun l hl1 => hl l (List.mem_cons_of_mem _ hl1)
    rw [loadLines] at h
    by_cases hs : stripLine line = []
    · rw [if_pos hs] at h
      exact loadLines_inv stod P rest data out hrest hdata h
    · rw [if_neg hs] at h
      obtain ⟨row, hrow, h⟩ := Option.bind_eq_some.1 h
      have hrow1 : (if !row.isEmpty then row.dropLast else row) = row.dropLast := by
        cases row <;> simp
      simp only [hrow1] at h
      by_cases he : row.dropLast = []
      · simp only [he, List.isEmpty_nil, Bool.not_true, Bool.false_eq_true, if_false] at h
        exact loadLines_inv stod P rest data out hrest hdata h
      · have he1 : (!row.dropLast.isEmpty) = true := by
          cases hd : row.dropLast with
          | nil => exact absurd hd he
          | cons x xs => rfl
        rw [if_pos he1] at h
        refine loadLines_inv stod P rest _ out hrest ?_ h
        intro r hr
        rcases List.mem_append.1 hr with h1 | h1
        · exact hdata r h1
        · rw [List.mem_singleton.1 h1]
          exact hl line (List.mem_cons_self _ _) row hrow he

theorem load_csv_lines {β : Type} (stod : List Char → Parsed β) (text : List Char)
    (data : List (List β)) (h : load_csv stod text = some data) :
    loadLines stod (getlines '\n' text []).tail [] = some data := by
  unfold load_csv at h
  cases hg : getlines '\n' text [] with
  | nil => rw [hg] at h; cases h
  | cons x xs => rw [hg] at h; exact h

/-- C19 (amended): every row that `load_csv` returns has at least one
coordinate.  The rows have one common number `c` of coordinates, which is then
`D = data[0].size()`, when every line after the header holds either at most
one or exactly `c + 1` cells that `stod` converts; `load_csv` does not compare
the lengths of the rows. -/
theorem loaded_rows {β : Type} (stod : List Char → Parsed β) (text : List Char)
    (data : List (List β)) (c : Nat) (h : load_csv stod text = some data)
    (hc : ∀ line, line ∈ (getlines '\n' text []).tail → ∀ row,
      parseLine stod line = some row → row.length ≤ 1 ∨ row.length = c + 1) :
    (∀ (text1 : List Char) (data1 : List (List β)), load_csv stod text1 = some data1 →
      ∀ row, row ∈ data1 → 1 ≤ row.length) ∧
    (∀ row, row ∈ data → row.length = c) ∧
    ∀ row0, data[0]? = some row0 → row0.length = c := by
  have h2 : ∀ row, row ∈ data → row.length = c := by
    refine loadLines_inv stod (fun r => r.length = c) _ [] data ?_ (by simp)
      (load_csv_lines stod text data h)
    intro line hline row hrow hne
    rcases hc line hline row hrow with h1 | h1
    · exfalso
      apply hne
      cases row with
      | nil => rfl
      | cons x xs =>
        cases xs with
        | nil => rfl
        | cons y ys => simp at h1
    · simp [h1]
  refine ⟨?_, h2, fun row0 h0 => h2 row0 (List.getElem?_mem h0)⟩
  intro text1 data1 h1
  refine loadLines_inv stod (fun r => 1 ≤ r.length) _ [] data1 ?_ (by simp)
    (load_csv_lines stod text1 data1 h1)
  intro line _ row _ hne
  cases hd : row.dropLast with
  | nil => exact absurd hd hne
  | cons x xs => simp

theorem ragged_load :
    load_csv (stodDigits : List Char → Parsed ℝ)
        ['h', '\n', '1', ',', '2', ',', '3', '\n', '4', ',', '5', '\n']
      = some [[1, 2], [4]] := by
  simp [load_csv, getlines, loadLines, parseLine, parseCells, stripLine, trim, isspace,
    stodDigits]

theorem ragged_reduce : reduce [[(1 : ℝ), 2], [4]] 2 1 2 [0, 0] = none := by
  simp [reduce, forLoop, reduceBody, sumBody, rd, wr]

/-- C19 as stated fails.  The file with the lines `h`, `1,2,3` and `4,5` is
accepted and gives the rows `(1, 2)` and `(4)`: the second row has one
coordinate where `D = data[0].size()` is `2`, and the reduction loop reads
`data[1][1]` past the end of that row. -/
theorem loaded_rows_counterexample :
    ∃ data : List (List ℝ),
      load_csv stodDigits ['h', '\n', '1', ',', '2', ',', '3', '\n', '4', ',', '5', '\n']
        = some data ∧
      data = [[1, 2], [4]] ∧ data[0]?.map List.length = some 2 ∧
      data[1]?.map List.length = some 1 ∧ reduce data 2 1 2 [0, 0] = none :=
  ⟨_, ragged_load, rfl, rfl, rfl, ragged_reduce⟩

theorem even_load :
    load_csv (stodDigits : List Char → Parsed ℝ)
        ['h', '\n', '1', ',', '2', ',', '3', '\n', '4', ',', '5', ',', '6', '\n']
      = some [[1, 2], [4, 5]] := by
  simp [load_csv, getlines, loadLines, parseLine, parseCells, stripLine, trim, isspace,
    stodDigits]

theorem even_lines :
    ∀ line, line ∈ (getlines '\n'
        ['h', '\n', '1', ',', '2', ',', '3', '\n', '4', ',', '5', ',', '6', '\n'] []).tail →
      ∀ row : List ℝ, parseLine stodDigits line = some row →
        row.length ≤ 1 ∨ row.length = 2 + 1 := by
  intro line hline row hrow
  simp only [getlines, List.tail_cons] at hline
  simp at hline
  rcases hline with rfl | rfl
  · simp [parseLine, getlines, parseCells, stripLine, trim, isspace, stodDigits] at hrow
    subst hrow
    simp
  · simp [parseLine, getlines, parseCells, stripLine, trim, isspace, stodDigits] at hrow
    subst hrow
    simp

/-- Instance of C19 (amended) on a concrete file, with numbers read as reals. -/
theorem loaded_rows_witness :
    load_csv (stodDigits : List Char → Parsed ℝ)
        ['h', '\n', '1', ',', '2', ',', '3', '\n', '4', ',', '5', ',', '6', '\n']
      = some [[1, 2], [4, 5]] ∧
    (∀ line, line ∈ (getlines '\n'
        ['h', '\n', '1', ',', '2', ',', '3', '\n', '4', ',', '5', ',', '6', '\n'] []).tail →
      ∀ row : List ℝ, parseLine stodDigits line = some row →
        row.length ≤ 1 ∨ row.length = 2 + 1) ∧
    ((∀ (text1 : List Char) (data1 : List (List ℝ)), load_csv stodDigits text1 = some data1 →
        ∀ row, row ∈ data1 → 1 ≤ row.length) ∧
      (∀ row, row ∈ ([[1, 2], [4, 5]] : List (List ℝ)) → row.length = 2) ∧
      ∀ row0, ([[1, 2], [4, 5]] : List (List ℝ))[0]? = some row0 → row0.length = 2) :=
  ⟨even_load, even_lines, loaded_rows stodDigits _ _ 2 even_load even_lines⟩

/-! ## Change detection in the CPU-parallel program: claim C20 -/

theorem roundWrites_mat (sqrt : α → α) (N K D : Nat) (X C : Nat → Nat → α) (lab : Nat → Int)
    {i : Nat} (hi : i < N) :
    roundWrites sqrt (mat N D X) (mat K D C) K (vec N lab) i
      = some (if lab i ≠ newLabel sqrt K D X C i then [Loc.label i, Loc.changed] else []) := by
  simp only [roundWrites, rd_mat D X hi, Option.some_bind, nearest_mat, rd_vec _ hi, newLabel]
  split <;> rfl

theorem assignBody_mat (sqrt : α → α) (N K D : Nat) (X C : Nat → Nat → α) (L : Nat → Int)
    (ch : Bool) {i : Nat} (hi : i < N) :
    assignBody sqrt (mat N D X) (mat K D C) K i (vec N L, ch)
      = some (vec N (Function.update L i (newLabel sqrt K D X C i)),
          ch || decide (L i ≠ newLabel sqrt K D X C i)) := by
  simp only [assignBody, rd_mat D X hi, Option.some_bind, nearest_mat, rd_vec _ hi]
  by_cases hc : L i = newLabel sqrt K D X C i
  · have hc1 : ¬ L i ≠ ((argmin (distTo sqrt D C (X i)) K : Nat) : Int) := by
      simpa [newLabel] using hc
    rw [if_neg hc1]
    simp only [ne_eq, hc, not_true_eq_false, decide_False, Bool.or_false, Option.some.injEq,
      Prod.mk.injEq, and_true]
    apply vec_congr
    intro j _
    by_cases e : j = i
    · subst e; simp [hc]
    · simp [Function.update_noteq e]
  · have hc1 : L i ≠ ((argmin (distTo sqrt D C (X i)) K : Nat) : Int) := by
      simpa [newLabel] using hc
    rw [if_pos hc1, wr_vec _ hi]
    simp [hc, hc1, newLabel]

theorem assignInOrder_from (sqrt : α → α) (N K D : Nat) (X C : Nat → Nat → α) :
    ∀ (order : List Nat) (L : Nat → Int) (ch : Bool), order.Nodup → (∀ i, i ∈ order → i < N) →
      order.foldlM (fun st i => assignBody sqrt (mat N D X) (mat K D C) K i st) (vec N L, ch)
        = some (vec N (fun j => if j ∈ order then newLabel sqrt K D X C j else L j),
            ch || decide (∃ j, j ∈ order ∧ L j ≠ newLabel sqrt K D X C j))
  | [], L, ch, _, _ => by
    simp
  | i :: rest, L, ch, hnd, hlt => by
    have hi := hlt i (List.mem_cons_self _ _)
    obtain ⟨hnot, hnd1⟩ := List.nodup_cons.1 hnd
    rw [List.foldlM_cons, assignBody_mat sqrt N K D X C L ch hi]
    simp only [Option.bind_eq_bind, Option.some_bind]
    rw [assignInOrder_from sqrt N K D X C rest _ _ hnd1
      (fun j hj => hlt j (List.mem_cons_of_mem _ hj))]
    simp only [Option.some.injEq, Prod.mk.injEq]
    constructor
    · apply vec_congr
      intro j _
      by_cases e : j = i
      · subst e; simp [hnot]
      · simp [e, Function.update_noteq e]
    · have hupd : ∀ j, j ∈ rest → Function.update L i (newLabel sqrt K D X C i) j = L j := by
        intro j hj
        have hji : j ≠ i := by
          rintro rfl
          exact hnot hj
        exact Function.update_noteq hji _ _
      rw [Bool.or_assoc]
      congr 1
      rw [← Bool.decide_or]
      apply decide_eq_decide.2
      constructor
      · rintro (h | ⟨j, hj, hne⟩)
        · exact ⟨i, List.mem_cons_self _ _, h⟩
        · exact ⟨j, List.mem_cons_of_mem _ hj, by rw [← hupd j hj]; exact hne⟩
      · rintro ⟨j, hj, hne⟩
        rcases List.mem_cons.1 hj with rfl | hj1
        · exact Or.inl hne
        · exact Or.inr ⟨j, hj1, by rw [hupd j hj1]; exact hne⟩

theorem assignInOrder_mat (sqrt : α → α) (N K D : Nat) (X C : Nat → Nat → α) (lab : Nat → Int)
    (order : List Nat) (hperm : order.Perm (List.range N)) :
    assignInOrder sqrt (mat N D X) (mat K D C) K (vec N lab) order
      = assign sqrt (mat N D X) (mat K D C) N K (vec N lab) := by
  have hmem : ∀ i, i ∈ order ↔ i < N := fun i => by rw [hperm.mem_iff, List.mem_range]
  rw [assignInOrder, assign_mat, assignInOrder_from sqrt N K D X C order lab false
    (hperm.nodup_iff.2 (List.nodup_range N)) (fun i hi => (hmem i).1 hi)]
  simp only [Bool.false_or, Option.some.injEq, Prod.mk.injEq]
  constructor
  · apply vec_congr
    intro j hj
    rw [if_pos ((hmem j).2 hj)]
  · apply decide_eq_decide.2
    constructor
    · rintro ⟨j, hj, hne⟩
      exact ⟨j, (hmem j).1 hj, hne⟩
    · rintro ⟨j, hj, hne⟩
      exact ⟨j, (hmem j).2 hj, hne⟩
/-- C20: run one at a time, in any order, the rounds of the parallel
assignment loop leave the labels of the sequential pass and `changed` equal to
the logical OR over the points of "old label differs from new label".  The
flag is not combined without a data race, though: in iteration `0`, where
every label is still `-1`, any two rounds `i`, `j` that belong to different
workers both execute the plain write `changed = true` on the shared
variable. -/
theorem changed_flag_race (sqrt : α → α) (data centroids : List (List α))
    (labels : List Int) (N K D : Nat) (shares : List (List Nat)) (order : List Nat)
    (t1 t2 i j : Nat) (hK : 1 ≤ K) (hdata : Shaped data N D) (hcent : Shaped centroids K D)
    (hlen : labels.length = N) (hperm : order.Perm (List.range N)) (ht : t1 ≠ t2)
    (hi : i ∈ shares.getD t1 []) (hj : j ∈ shares.getD t2 []) (hiN : i < N) (hjN : j < N) :
    (∃ labels1 changed,
      assignInOrder sqrt data centroids K labels order = some (labels1, changed) ∧
      assign sqrt data centroids N K labels = some (labels1, changed) ∧
      changed = decide (∃ p, p < N ∧ labels[p]? ≠ labels1[p]?)) ∧
    RaceOn Loc.changed shares
      (fun r => (roundWrites sqrt data centroids K (List.replicate N (-1)) r).getD []) := by
  constructor
  · have h1 := assignInOrder_mat sqrt N K D (entry data) (entry centroids)
      (fun p => labels.getD p 0) order hperm
    have h2 := assign_mat sqrt N K D (entry data) (entry centroids) (fun p => labels.getD p 0)
    rw [← shaped_eq_mat hdata, ← shaped_eq_mat hcent, ← labels_eq_vec hlen] at h1 h2
    refine ⟨_, _, h1.trans h2, h2, ?_⟩
    apply decide_eq_decide.2
    constructor
    · rintro ⟨p, hp, hne⟩
      refine ⟨p, hp, ?_⟩
      rw [getElem?_of_lt_length hlen hp, vec_getElem? _ hp]
      exact fun e => hne (Option.some.inj e)
    · rintro ⟨p, hp, hne⟩
      refine ⟨p, hp, ?_⟩
      rw [getElem?_of_lt_length hlen hp, vec_getElem? _ hp] at hne
      exact fun e => hne (congrArg some e)
  · have hw : ∀ r, r < N →
        (roundWrites sqrt data centroids K (List.replicate N (-1)) r).getD []
          = [Loc.label r, Loc.changed] := by
      intro r hr
      have h := roundWrites_mat sqrt N K D (entry data) (entry centroids)
        (fun _ => (-1 : Int)) hr
      rw [← shaped_eq_mat hdata, ← shaped_eq_mat hcent, ← replicate_eq_vec] at h
      have hne : (-1 : Int) ≠ newLabel sqrt K D (entry data) (entry centroids) r := by
        have := newLabel_range sqrt hK D (entry data) (entry centroids) r
        omega
      rw [h, if_pos hne]
      rfl
    refine ⟨t1, t2, i, j, ht, hi, hj, ?_, ?_⟩
    · simp only [hw i hiN]
      simp
    · simp only [hw j hjN]
      simp

/-- Instance of C20 on a concrete input over the reals, with `Real.sqrt`. -/
theorem changed_flag_race_witness :
    1 ≤ 1 ∧ Shaped [[(0 : ℝ)], [1]] 2 1 ∧ Shaped [[(0 : ℝ)]] 1 1 ∧
    [(-1 : Int), -1].length = 2 ∧ [1, 0].Perm (List.range 2) ∧ 0 ≠ 1 ∧
    0 ∈ ([[0], [1]] : List (List Nat)).getD 0 [] ∧ 1 ∈ ([[0], [1]] : List (List Nat)).getD 1 [] ∧
    0 < 2 ∧ 1 < 2 ∧
    ((∃ labels1 changed,
        assignInOrder Real.sqrt [[(0 : ℝ)], [1]] [[(0 : ℝ)]] 1 [-1, -1] [1, 0]
          = some (labels1, changed) ∧
        assign Real.sqrt [[(0 : ℝ)], [1]] [[(0 : ℝ)]] 2 1 [-1, -1] = some (labels1, changed) ∧
        changed = decide (∃ p, p < 2 ∧ [(-1 : Int), -1][p]? ≠ labels1[p]?)) ∧
      RaceOn Loc.changed [[0], [1]]
        (fun r => (roundWrites Real.sqrt [[(0 : ℝ)], [1]] [[(0 : ℝ)]] 1
          (List.replicate 2 (-1)) r).getD [])) :=
  ⟨by decide, by simp [Shaped], by simp [Shaped], by simp, by decide, by decide, by decide,
    by decide, by decide, by decide,
    changed_flag_race Real.sqrt _ _ _ 2 1 1 [[0], [1]] [1, 0] 0 1 0 1 (by decide)
      (by simp [Shaped]) (by simp [Shaped]) (by simp) (by decide) (by decide) (by decide)
      (by decide) (by decide) (by decide)⟩

/-! ## The converged state is a fixed point: claim C22 -/

theorem updated_idem (S C : Nat → Nat → α) (cnt : Nat → Int) (k d : Nat) :
    updated S cnt (updated S cnt C) k d = updated S cnt C k d := by
  unfold updated
  split <;> rfl

theorem members_sentinel (N k : Nat) : members (fun _ => (-1 : Int)) N k = ∅ := by
  unfold members
  apply Finset.filter_false_of_mem
  intro i _ h
  have h1 : (-1 : Int) = (k : Int) := h
  omega

theorem members_congr {lab lab1 : Nat → Int} {N : Nat} (h : ∀ i, i < N → lab i = lab1 i)
    (k : Nat) : members lab N k = members lab1 N k := by
  unfold members
  apply Finset.filter_congr
  intro i hi
  rw [h i (Finset.mem_range.1 hi)]

theorem mainLoop_fixed (sqrt : α → α) (N K D : Nat) (hK : 0 < K) (X : Nat → Nat → α) :
    ∀ (fuel iter : Nat) (C : Nat → Nat → α) (lab : Nat → Int) (out : Outcome α) (n : Nat),
      (∀ k d, updated (sumOf X lab N) (countOf lab N) C k d = C k d) →
      mainLoop sqrt (mat N D X) N K D fuel iter (mat K D C) (vec N lab) = some out →
      out.converged = some n →
      ∃ (C1 : Nat → Nat → α) (lab1 : Nat → Int),
        out.centroids = mat K D C1 ∧ out.labels = vec N lab1 ∧
        (∀ i, i < N → 0 ≤ lab1 i ∧ lab1 i < (K : Int)) ∧
        (∀ i, i < N → lab1 i = newLabel sqrt K D X C1 i) ∧
        ∀ k d, updated (sumOf X lab1 N) (countOf lab1 N) C1 k d = C1 k d
  | 0, iter, C, lab, out, n, _, hrun, hconv => by
    simp only [mainLoop, Option.some.injEq] at hrun
    subst hrun
    cases hconv
  | fuel + 1, iter, C, lab, out, n, hinv, hrun, hconv => by
    rw [mainLoop_mat sqrt N K D hK] at hrun
    split at hrun
    · exact mainLoop_fixed sqrt N K D hK X fuel (iter + 1) _ _ out n
        (fun k d => updated_idem _ _ _ k d) hrun hconv
    · rename_i hno
      simp only [Option.some.injEq] at hrun
      subst hrun
      have hsame : ∀ i, i < N → lab i = newLabel sqrt K D X C i := by
        intro i hi
        by_contra hne
        exact hno ⟨i, hi, hne⟩
      refine ⟨C, lab, rfl, (vec_congr hsame).symm, ?_, hsame, hinv⟩
      intro i hi
      rw [hsame i hi]
      exact newLabel_range sqrt hK D X C i

/-- C22: the converged state is a fixed point of the iteration.  For a valid
input (`N ≥ 1`, `K ≥ 1`, rows of `D` coordinates) the first assignment pass,
run on the labels `-1`, returns with `changed == true` and leaves every label
in `[0, K)`, so none is `-1` any more; the run returns; and whenever it is left
through the `!changed` branch, the reported iteration count is at least `1`,
every centroid `k` whose final cluster is not empty is the arithmetic mean of
the points whose final label is `k`, and a reduction and update run on the
final labels and centroids return the final centroids again. -/
theorem converged_fixed_point (sqrt : α → α) (data centroids : List (List α)) (N K D : Nat)
    (max_iter : Int) (hN : 1 ≤ N) (hK : 1 ≤ K) (hdata : Shaped data N D)
    (hcent : Shaped centroids K D) :
    (∃ labels1, assign sqrt data centroids N K (List.replicate N (-1)) = some (labels1, true) ∧
      labels1.length = N ∧ InRange K labels1) ∧
    (∃ out, kmeans sqrt data N K D max_iter centroids = some out) ∧
    ∀ (out : Outcome α) (n : Nat),
      kmeans sqrt data N K D max_iter centroids = some out → out.converged = some n →
      1 ≤ n ∧
      (∀ k, k < K → 0 < (cluster out.labels N k).card →
        ∀ d, d < D → entry out.centroids k d
          = (∑ i in cluster out.labels N k, entry data i d)
            / ((cluster out.labels N k).card : α)) ∧
      ∃ sum count, reduce data N K D out.labels = some (sum, count) ∧
        update sum count K D out.centroids = some out.centroids := by
  constructor
  · have h := assign_mat sqrt N K D (entry data) (entry centroids) (fun _ => (-1 : Int))
    rw [← shaped_eq_mat hdata, ← shaped_eq_mat hcent, ← replicate_eq_vec] at h
    refine ⟨vec N (newLabel sqrt K D (entry data) (entry centroids)), ?_, by simp,
      inRange_vec fun i _ => newLabel_range sqrt hK D _ _ i⟩
    rw [h, decide_eq_true (first_pass_changes sqrt hN hK D _ _)]
  constructor
  · rcases Nat.eq_zero_or_pos max_iter.toNat with h0 | h0
    · exact ⟨_, by rw [kmeans, h0, mainLoop]⟩
    · obtain ⟨fuel, hf⟩ : ∃ fuel, max_iter.toNat = fuel + 1 := ⟨max_iter.toNat - 1, by omega⟩
      have ht := mainLoop_total sqrt N K D hK (entry data) fuel 0 (entry centroids)
        (fun _ => (-1 : Int))
      rw [← shaped_eq_mat hdata, ← shaped_eq_mat hcent, ← replicate_eq_vec] at ht
      obtain ⟨out, hout, _⟩ := ht
      exact ⟨out, by rw [kmeans, hf]; exact hout⟩
  · intro out n hrun hconv
    have hn : 1 ≤ n := by
      rw [kmeans] at hrun
      rcases Nat.eq_zero_or_pos max_iter.toNat with h0 | h0
      · rw [h0, mainLoop] at hrun
        simp only [Option.some.injEq] at hrun
        subst hrun
        cases hconv
      · obtain ⟨fuel, hf⟩ : ∃ fuel, max_iter.toNat = fuel + 1 := ⟨max_iter.toNat - 1, by omega⟩
        rw [hf, shaped_eq_mat hdata, shaped_eq_mat hcent, replicate_eq_vec,
          mainLoop_mat sqrt N K D hK, if_pos (first_pass_changes sqrt hN hK D _ _),
          ← shaped_eq_mat hdata] at hrun
        exact (converged_before_update sqrt data N K D fuel 1 _ _ out n hrun hconv).1
    rw [kmeans, shaped_eq_mat hdata, shaped_eq_mat hcent, replicate_eq_vec] at hrun
    obtain ⟨C1, lab1, hc, hl, hrange, _, hfix⟩ :=
      mainLoop_fixed sqrt N K D hK (entry data) max_iter.toNat 0 (entry centroids)
        (fun _ => (-1 : Int)) out n (by
          intro k d
          rw [updated, if_pos]
          rw [countOf, members_sentinel]
          rfl) hrun hconv
    refine ⟨hn, ?_, ?_⟩
    · intro k hk hpos d hd
      rw [hl, cluster_vec] at hpos ⊢
      have hne : ¬ countOf lab1 N k = 0 := by
        rw [countOf]
        omega
      rw [hc, entry_mat _ hk hd, ← hfix k d, updated, if_neg hne, sumOf, countOf,
        Int.cast_natCast]
    · refine ⟨mat K D (sumOf (entry data) lab1 N), vec K (countOf lab1 N), ?_, ?_⟩
      · have h := reduce_mat N K D (entry data) lab1 hrange
        rw [← shaped_eq_mat hdata] at h
        rw [hl, h]
      · rw [hc, update_mat]
        congr 1
        exact mat_congr fun k _ d _ => hfix k d

/-- Instance of C22 on a concrete input over the reals, with `Real.sqrt`. -/
theorem converged_fixed_point_witness :
    1 ≤ 4 ∧ 1 ≤ 2 ∧ Shaped [[(0 : ℝ), 0], [0, 1], [10, 0], [10, 1]] 4 2 ∧
    Shaped [[(0 : ℝ), 0], [10, 0]] 2 2 ∧
    ((∃ labels1,
        assign Real.sqrt [[(0 : ℝ), 0], [0, 1], [10, 0], [10, 1]] [[0, 0], [10, 0]] 4 2
          (List.replicate 4 (-1)) = some (labels1, true) ∧
        labels1.length = 4 ∧ InRange 2 labels1) ∧
      (∃ out,
        kmeans Real.sqrt [[(0 : ℝ), 0], [0, 1], [10, 0], [10, 1]] 4 2 2 150 [[0, 0], [10, 0]]
          = some out) ∧
      ∀ (out : Outcome ℝ) (n : Nat),
        kmeans Real.sqrt [[(0 : ℝ), 0], [0, 1], [10, 0], [10, 1]] 4 2 2 150 [[0, 0], [10, 0]]
          = some out →
        out.converged = some n →
        1 ≤ n ∧
        (∀ k, k < 2 → 0 < (cluster out.labels 4 k).card →
          ∀ d, d < 2 → entry out.centroids k d
            = (∑ i in cluster out.labels 4 k,
                entry [[(0 : ℝ), 0], [0, 1], [10, 0], [10, 1]] i d)
              / ((cluster out.labels 4 k).card : ℝ)) ∧
        ∃ sum count,
          reduce [[(0 : ℝ), 0], [0, 1], [10, 0], [10, 1]] 4 2 2 out.labels
            = some (sum, count) ∧
          update sum count 2 2 out.centroids = some out.centroids) :=
  ⟨by decide, by decide, by simp [Shaped], by simp [Shaped],
    converged_fixed_point Real.sqrt _ _ 4 2 2 150 (by decide) (by decide) (by simp [Shaped])
      (by simp [Shaped])⟩

/-! ## Descent of the clustering cost: claim C21 -/

theorem mean_min (s : Finset Nat) (f : Nat → α) (c : α) (hs : s.card ≠ 0) :
    ∑ i in s, (f i - (∑ j in s, f j) / (s.card : α)) * (f i - (∑ j in s, f j) / (s.card : α))
      ≤ ∑ i in s, (f i - c) * (f i - c) := by
  have hn : (s.card : α) ≠ 0 := Nat.cast_ne_zero.2 hs
  generalize hm : (∑ j in s, f j) / (s.card : α) = m
  have hS : ∑ j in s, f j = (s.card : α) * m := by
    rw [← hm, mul_div_cancel₀ _ hn]
  have key : ∀ i, (f i - c) * (f i - c)
      = (f i - m) * (f i - m) + (2 * (m - c)) * (f i - m) + (m - c) * (m - c) := by
    intro i
    ring
  have hz : ∑ i in s, (f i - m) = 0 := by
    rw [Finset.sum_sub_distrib, Finset.sum_const, nsmul_eq_mul, hS, sub_self]
  rw [Finset.sum_congr rfl fun i _ => key i, Finset.sum_add_distrib, Finset.sum_add_distrib,
    ← Finset.mul_sum, hz, Finset.sum_const, nsmul_eq_mul]
  have h1 : 0 ≤ (s.card : α) * ((m - c) * (m - c)) :=
    mul_nonneg (Nat.cast_nonneg _) (mul_self_nonneg _)
  linarith

theorem cluster_descent (N D : Nat) (X C : Nat → Nat → α) (lab : Nat → Int) (k : Nat) :
    ∑ i in members lab N k, sqDist D (X i) (updated (sumOf X lab N) (countOf lab N) C k)
      ≤ ∑ i in members lab N k, sqDist D (X i) (C k) := by
  by_cases hc : countOf lab N k = 0
  · apply le_of_eq
    apply Finset.sum_congr rfl
    intro i _
    unfold sqDist
    apply Finset.sum_congr rfl
    intro d _
    rw [updated, if_pos hc]
  · have hcard : (members lab N k).card ≠ 0 := by
      intro h
      apply hc
      rw [countOf, h]
      rfl
    unfold sqDist
    have hswap : ∀ c : Nat → α,
        ∑ i in members lab N k, ∑ d in Finset.range D, (X i d - c d) * (X i d - c d)
          = ∑ d in Finset.range D, ∑ i in members lab N k, (X i d - c d) * (X i d - c d) :=
      fun _ => Finset.sum_comm
    rw [hswap, hswap]
    apply Finset.sum_le_sum
    intro d _
    have h := mean_min (members lab N k) (fun i => X i d) (C k d) hcard
    have hu : updated (sumOf X lab N) (countOf lab N) C k d
        = (∑ j in members lab N k, X j d) / ((members lab N k).card : α) := by
      rw [updated, if_neg hc, sumOf, countOf, Int.cast_natCast]
    simp only [hu]
    exact h

theorem costOf_fiberwise {N K : Nat} (D : Nat) (X C : Nat → Nat → α) {lab : Nat → Int}
    (h : ∀ i, i < N → 0 ≤ lab i ∧ lab i < (K : Int)) :
    costOf N D X C lab = ∑ k in Finset.range K, ∑ i in members lab N k, sqDist D (X i) (C k) := by
  have hmaps : ∀ i ∈ Finset.range N, (lab i).toNat ∈ Finset.range K := by
    intro i hi
    have := h i (Finset.mem_range.1 hi)
    rw [Finset.mem_range]
    omega
  unfold costOf
  rw [← Finset.sum_fiberwise_of_maps_to hmaps]
  apply Finset.sum_congr rfl
  intro k _
  have hset : (Finset.range N).filter (fun i => (lab i).toNat = k) = members lab N k := by
    unfold members
    apply Finset.filter_congr
    intro i hi
    have := h i (Finset.mem_range.1 hi)
    omega
  rw [hset]
  apply Finset.sum_congr rfl
  intro i hi
  have hi2 : lab i = (k : Int) := (Finset.mem_filter.1 hi).2
  rw [hi2, Int.toNat_ofNat]

theorem update_descent {N K : Nat} (D : Nat) (X C : Nat → Nat → α) {lab : Nat → Int}
    (h : ∀ i, i < N → 0 ≤ lab i ∧ lab i < (K : Int)) :
    costOf N D X (updated (sumOf X lab N) (countOf lab N) C) lab ≤ costOf N D X C lab := by
  rw [costOf_fiberwise D X _ h, costOf_fiberwise D X C h]
  exact Finset.sum_le_sum fun k _ => cluster_descent N D X C lab k

theorem le_of_sqrt_le (sqrt : α → α) (hs : StrictMonoOn sqrt (Set.Ici 0)) {a b : α}
    (hb : 0 ≤ b) (h : sqrt a ≤ sqrt b) : a ≤ b := by
  by_contra hlt
  exact absurd (sqrt_lt sqrt hs hb (lt_of_not_le hlt)) (not_lt.2 h)

theorem assign_descent (sqrt : α → α) (hs : StrictMonoOn sqrt (Set.Ici 0)) {N K : Nat}
    (D : Nat) (X C : Nat → Nat → α) {lab2 : Nat → Int}
    (h : ∀ i, i < N → 0 ≤ lab2 i ∧ lab2 i < (K : Int)) :
    costOf N D X C (newLabel sqrt K D X C) ≤ costOf N D X C lab2 := by
  unfold costOf
  apply Finset.sum_le_sum
  intro i hi
  have h2 := h i (Finset.mem_range.1 hi)
  have hj : (lab2 i).toNat < K := by omega
  have hle := argmin_le (distTo sqrt D C (X i)) K (lab2 i).toNat hj
  rw [newLabel, Int.toNat_ofNat]
  exact le_of_sqrt_le sqrt hs (sqDist_nonneg D _ _) hle

theorem costOf_congr {N : Nat} (D : Nat) (X : Nat → Nat → α) {C C1 : Nat → Nat → α}
    {lab lab1 : Nat → Int} {K : Nat} (hl : ∀ i, i < N → lab i = lab1 i)
    (hr : ∀ i, i < N → 0 ≤ lab i ∧ lab i < (K : Int))
    (hc : ∀ k, k < K → ∀ d, d < D → C k d = C1 k d) :
    costOf N D X C lab = costOf N D X C1 lab1 := by
  unfold costOf
  apply Finset.sum_congr rfl
  intro i hi
  rw [← hl i (Finset.mem_range.1 hi)]
  have h2 := hr i (Finset.mem_range.1 hi)
  unfold sqDist
  apply Finset.sum_congr rfl
  intro d hd
  rw [hc _ (by omega) d (Finset.mem_range.1 hd)]

theorem cost_mat {N K : Nat} (D : Nat) (data : List (List α)) (C : Nat → Nat → α)
    {lab : Nat → Int} (h : ∀ i, i < N → 0 ≤ lab i ∧ lab i < (K : Int)) :
    cost data (mat K D C) (vec N lab) N D = costOf N D (entry data) C lab := by
  unfold cost
  refine (costOf_congr D (entry data) (fun i hi => ?_) h fun k hk d hd => ?_).symm
  · exact (getD_of_getElem? (vec_getElem? lab hi)).symm
  · exact (entry_mat C hk hd).symm

/-- C21: descent of the clustering cost in one iteration.  For a valid input
(rows of `D` coordinates, `K ≥ 1`, one label per point) and a root function
that is strictly increasing on the non-negative numbers, the assignment pass
returns labels `labels1`, and the reduction and the update run on them return
centroids `centroids1` (this is the iteration the loop runs when the pass
changed a label), such that the cost of `labels1` against `centroids1` is at
most the cost of `labels1` against the centroids before the update, which is
at most the cost of any labelling with values in `[0, K)` against the
centroids before the update; a centroid whose cluster is empty is held fixed.
Arithmetic is exact (an ordered field). -/
theorem lloyd_descent (sqrt : α → α) (hs : StrictMonoOn sqrt (Set.Ici 0))
    (data centroids : List (List α)) (labels : List Int) (N K D : Nat) (hK : 1 ≤ K)
    (hdata : Shaped data N D) (hcent : Shaped centroids K D) (hlen : labels.length = N) :
    ∃ (labels1 : List Int) (changed : Bool) (sum : List (List α)) (count : List Int)
      (centroids1 : List (List α)),
      assign sqrt data centroids N K labels = some (labels1, changed) ∧
      reduce data N K D labels1 = some (sum, count) ∧
      update sum count K D centroids = some centroids1 ∧
      (changed = true →
        fullIteration sqrt data N K D (centroids, labels) = some (centroids1, labels1)) ∧
      (∀ k, k < K → (cluster labels1 N k).card = 0 →
        ∀ d, d < D → entry centroids1 k d = entry centroids k d) ∧
      cost data centroids1 labels1 N D ≤ cost data centroids labels1 N D ∧
      ∀ labels2 : List Int, labels2.length = N → InRange K labels2 →
        cost data centroids labels1 N D ≤ cost data centroids labels2 N D := by
  have hrange := fun i (_ : i < N) => newLabel_range sqrt hK D (entry data) (entry centroids) i
  have ha := assign_mat sqrt N K D (entry data) (entry centroids) (fun i => labels.getD i 0)
  have hr := reduce_mat N K D (entry data) _ hrange
  have hu := update_mat K D (sumOf (entry data) (newLabel sqrt K D (entry data) (entry centroids)) N)
    (entry centroids) (countOf (newLabel sqrt K D (entry data) (entry centroids)) N)
  rw [← shaped_eq_mat hdata, ← shaped_eq_mat hcent, ← labels_eq_vec hlen] at ha
  rw [← shaped_eq_mat hdata] at hr
  rw [← shaped_eq_mat hcent] at hu
  refine ⟨_, _, _, _, _, ha, hr, hu, ?_, ?_, ?_, ?_⟩
  · intro hch
    rw [fullIteration]
    simp only [ha, Option.some_bind, hch, if_true, hr, hu]
  · intro k hk hcard d hd
    have hc : countOf (newLabel sqrt K D (entry data) (entry centroids)) N k = 0 := by
      rw [cluster_vec] at hcard
      rw [countOf, hcard]
      rfl
    rw [entry_mat _ hk hd, updated, if_pos hc]
  · rw [cost_mat D data _ hrange]
    have h2 : cost data centroids
        (vec N (newLabel sqrt K D (entry data) (entry centroids))) N D
        = costOf N D (entry data) (entry centroids)
          (newLabel sqrt K D (entry data) (entry centroids)) := by
      have h3 := cost_mat D data (entry centroids) hrange
      rw [← shaped_eq_mat hcent] at h3
      exact h3
    rw [h2]
    exact update_descent D (entry data) (entry centroids) hrange
  · intro labels2 hlen2 hin2
    have h2 : cost data centroids
        (vec N (newLabel sqrt K D (entry data) (entry centroids))) N D
        = costOf N D (entry data) (entry centroids)
          (newLabel sqrt K D (entry data) (entry centroids)) := by
      have h3 := cost_mat D data (entry centroids) hrange
      rw [← shaped_eq_mat hcent] at h3
      exact h3
    rw [h2]
    exact assign_descent sqrt hs D (entry data) (entry centroids) (inRange_getD hlen2 hin2)

/-- Instance of C21 over the reals, with `Real.sqrt`, on an input where both
centroids coincide, so that the second cluster is empty after the pass. -/
theorem lloyd_descent_witness :
    StrictMonoOn Real.sqrt (Set.Ici 0) ∧ 1 ≤ 2 ∧ Shaped [[(0 : ℝ)], [2]] 2 1 ∧
    Shaped [[(0 : ℝ)], [0]] 2 1 ∧ [(-1 : Int), -1].length = 2 ∧
    ∃ (labels1 : List Int) (changed : Bool) (sum : List (List ℝ)) (count : List Int)
      (centroids1 : List (List ℝ)),
      assign Real.sqrt [[(0 : ℝ)], [2]] [[0], [0]] 2 2 [-1, -1] = some (labels1, changed) ∧
      reduce [[(0 : ℝ)], [2]] 2 2 1 labels1 = some (sum, count) ∧
      update sum count 2 1 [[(0 : ℝ)], [0]] = some centroids1 ∧
      (changed = true →
        fullIteration Real.sqrt [[(0 : ℝ)], [2]] 2 2 1 ([[0], [0]], [-1, -1])
          = some (centroids1, labels1)) ∧
      (∀ k, k < 2 → (cluster labels1 2 k).card = 0 →
        ∀ d, d < 1 → entry centroids1 k d = entry [[(0 : ℝ)], [0]] k d) ∧
      cost [[(0 : ℝ)], [2]] centroids1 labels1 2 1
        ≤ cost [[(0 : ℝ)], [2]] [[0], [0]] labels1 2 1 ∧
      ∀ labels2 : List Int, labels2.length = 2 → InRange 2 labels2 →
        cost [[(0 : ℝ)], [2]] [[0], [0]] labels1 2 1
          ≤ cost [[(0 : ℝ)], [2]] [[0], [0]] labels2 2 1 :=
  ⟨real_sqrt_strictMonoOn, by decide, by simp [Shaped], by simp [Shaped], by simp,
    lloyd_descent Real.sqrt real_sqrt_strictMonoOn _ _ _ 2 2 1 (by decide) (by simp [Shaped])
      (by simp [Shaped]) (by simp)⟩

/-! ## The sieve: claim C23 -/

theorem checked_natCast {x : Nat} (h : (x : Int) ≤ INT_MAX) : checked (x : Int) = some (x : Int) := by
  have h0 : INT_MIN ≤ (x : Int) := by
    unfold INT_MIN
    omega
  simp [checked, h, h0]

theorem markLoop_vec (n p : Nat) (hp : 0 < p) (hmax : (n : Int) + (p : Int) ≤ INT_MAX) :
    ∀ (fuel i : Nat) (f : Nat → Bool), n + 1 ≤ i + fuel →
      markLoop n p (fuel + 1) i (vec (n + 1) f)
        = some (vec (n + 1) fun m => if i ≤ m ∧ p ∣ m - i then false else f m)
  | 0, i, f, h => by
    rw [markLoop]
    have hi1 : ¬ ((i : Int) ≤ (n : Int)) := by omega
    rw [if_neg hi1]
    congr 1
    apply vec_congr
    intro m hm
    have h1 : ¬ (i ≤ m ∧ p ∣ m - i) := by
      rintro ⟨h2, _⟩
      omega
    rw [if_neg h1]
  | fuel + 1, i, f, h => by
    rw [markLoop]
    by_cases hi : i ≤ n
    · have hi1 : (i : Int) ≤ (n : Int) := by omega
      have hc : checked ((i : Int) + (p : Int)) = some (((i + p : Nat) : Nat) : Int) := by
        rw [← Nat.cast_add]
        apply checked_natCast
        rw [Nat.cast_add]
        omega
      rw [if_pos hi1, wr_vec f (by omega : i < n + 1), Option.some_bind, hc, Option.some_bind,
        markLoop_vec n p hp hmax fuel (i + p) _ (by omega)]
      congr 1
      apply vec_congr
      intro m _
      by_cases e : m = i
      · subst e
        have h1 : ¬ (m + p ≤ m) := by omega
        simp [h1]
      · rw [Function.update_noteq e]
        have hiff : (i + p ≤ m ∧ p ∣ m - (i + p)) ↔ (i ≤ m ∧ p ∣ m - i) := by
          constructor
          · rintro ⟨h1, c, hc⟩
            refine ⟨by omega, c + 1, ?_⟩
            rw [Nat.mul_add, Nat.mul_one, ← hc]
            omega
          · rintro ⟨h1, c, hc⟩
            have hc0 : c ≠ 0 := by
              rintro rfl
              omega
            obtain ⟨c1, rfl⟩ : ∃ c1, c = c1 + 1 := ⟨c - 1, by omega⟩
            rw [Nat.mul_add, Nat.mul_one] at hc
            exact ⟨by omega, c1, by omega⟩
        by_cases hcond : i ≤ m ∧ p ∣ m - i
        · rw [if_pos hcond, if_pos (hiff.2 hcond)]
        · rw [if_neg hcond, if_neg (fun h2 => hcond (hiff.1 h2))]
    · have hi1 : ¬ ((i : Int) ≤ (n : Int)) := by omega
      rw [if_neg hi1]
      congr 1
      apply vec_congr
      intro m hm
      have h1 : ¬ (i ≤ m ∧ p ∣ m - i) := by
        rintro ⟨h2, _⟩
        omega
      rw [if_neg h1]

theorem unmarked_succ (q m : Nat) :
    Unmarked (q + 1) m ↔ Unmarked q m ∧ ¬ (2 ≤ q ∧ q ∣ m ∧ q < m) := by
  unfold Unmarked
  constructor
  · intro h
    exact ⟨fun d hd => h d (by omega), h q (by omega)⟩
  · rintro ⟨h1, h2⟩ d hd
    by_cases e : d = q
    · subst e
      exact h2
    · exact h1 d (by omega)

theorem multiple_iff {p m : Nat} (hp : 0 < p) : (p * 2 ≤ m ∧ p ∣ m - p * 2) ↔ (p ∣ m ∧ p < m) := by
  constructor
  · rintro ⟨h1, c, hc⟩
    refine ⟨⟨c + 2, ?_⟩, by omega⟩
    rw [Nat.mul_add, ← hc]
    omega
  · rintro ⟨⟨c, rfl⟩, h2⟩
    have hc : 2 ≤ c := by
      by_contra hlt
      have hc1 : c ≤ 1 := by omega
      have := Nat.mul_le_mul_left p hc1
      omega
    obtain ⟨c1, rfl⟩ : ∃ c1, c = c1 + 2 := ⟨c - 2, by omega⟩
    refine ⟨by rw [Nat.mul_add]; omega, c1, ?_⟩
    rw [Nat.mul_add]
    omega

theorem sieveBody_vec (fuel n p : Nat) (hp : 2 ≤ p) (hpn : p ≤ n)
    (hmax : (n : Int) + (p : Int) ≤ INT_MAX) (hfuel : n ≤ fuel) :
    sieveBody fuel n p (vec (n + 1) fun m => decide (Unmarked p m))
      = some (vec (n + 1) fun m => decide (Unmarked (p + 1) m)) := by
  rw [sieveBody, rd_vec _ (by omega : p < n + 1), Option.some_bind]
  by_cases hU : Unmarked p p
  · have hc : checked ((p : Int) * 2) = some ((p * 2 : Nat) : Int) := by
      have e : (p : Int) * 2 = ((p * 2 : Nat) : Int) := by push_cast; rfl
      rw [e]
      apply checked_natCast
      rw [← e]
      omega
    obtain ⟨fuel1, rfl⟩ : ∃ fuel1, fuel = fuel1 + 1 := ⟨fuel - 1, by omega⟩
    rw [if_pos (decide_eq_true hU), hc, Option.some_bind,
      markLoop_vec n p (by omega) hmax fuel1 (p * 2) _ (by omega)]
    congr 1
    apply vec_congr
    intro m _
    by_cases hm : p * 2 ≤ m ∧ p ∣ m - p * 2
    · rw [if_pos hm]
      have h2 := (multiple_iff (by omega : 0 < p)).1 hm
      have hn : ¬ Unmarked (p + 1) m := fun h => h p (by omega) ⟨hp, h2.1, h2.2⟩
      exact (decide_eq_false hn).symm
    · rw [if_neg hm]
      apply decide_eq_decide.2
      rw [unmarked_succ]
      constructor
      · intro h
        exact ⟨h, fun h3 => hm ((multiple_iff (by omega : 0 < p)).2 ⟨h3.2.1, h3.2.2⟩)⟩
      · exact fun h => h.1
  · rw [if_neg (by simpa using hU)]
    congr 1
    apply vec_congr
    intro m _
    apply decide_eq_decide.2
    rw [unmarked_succ]
    constructor
    · intro h
      refine ⟨h, ?_⟩
      rintro ⟨_, h3, h4⟩
      apply hU
      intro d hd hdp
      exact h d hd ⟨hdp.1, Nat.dvd_trans hdp.2.1 h3, by omega⟩
    · exact fun h => h.1

theorem sieveArray_vec (fuel n : Nat) (hmax : (n : Int) + (Nat.sqrt n : Int) ≤ INT_MAX)
    (hfuel : n ≤ fuel) :
    sieveArray fuel n = some (vec (n + 1) fun m => decide (Unmarked (Nat.sqrt n + 1) m)) := by
  have hsq : Nat.sqrt n ≤ n := Nat.sqrt_le_self n
  have hc : checked ((n : Int) + 1) = some ((n + 1 : Nat) : Int) := by
    have e : (n : Int) + 1 = ((n + 1 : Nat) : Int) := by push_cast; rfl
    rw [e]
    apply checked_natCast
    rw [← e]
    rcases Nat.eq_zero_or_pos n with h0 | h0
    · subst h0
      decide
    · have : 1 ≤ Nat.sqrt n := Nat.sqrt_pos.2 h0
      omega
  have h0 : ¬ ((n : Int) < 0) := by omega
  rw [sieveArray, hc, Option.some_bind, if_neg h0, Int.toNat_ofNat, Int.toNat_ofNat]
  have hinit : List.replicate (n + 1) true = vec (n + 1) fun m => decide (Unmarked 2 m) := by
    rw [replicate_eq_vec]
    apply vec_congr
    intro m _
    have : Unmarked 2 m := fun d hd h => by omega
    exact (decide_eq_true this).symm
  rw [hinit]
  have h := forLoop_closed (sieveBody fuel n)
    (fun q => vec (n + 1) fun m => decide (Unmarked q m)) (Nat.sqrt n - 1) 2 (by
      intro p hp1 hp2
      have hps : p ≤ Nat.sqrt n := by omega
      exact sieveBody_vec fuel n p hp1 (by omega) (by omega) hfuel)
  rcases Nat.lt_or_ge (Nat.sqrt n) 1 with hlt | hge
  · have hz : Nat.sqrt n = 0 := by omega
    have hn0 : n = 0 := Nat.sqrt_eq_zero.1 hz
    subst hn0
    rfl
  · have e : 2 + (Nat.sqrt n - 1) = Nat.sqrt n + 1 := by omega
    rw [e] at h
    exact h

theorem unmarked_iff_prime {n i : Nat} (h2 : 2 ≤ i) (hi : i ≤ n) :
    Unmarked (Nat.sqrt n + 1) i ↔ Nat.Prime i := by
  constructor
  · intro h
    by_contra hnp
    have hd2 : 2 ≤ Nat.minFac i := (Nat.minFac_prime (by omega)).two_le
    have hlt : Nat.minFac i < i := (Nat.not_prime_iff_minFac_lt h2).1 hnp
    have hsq : Nat.minFac i * Nat.minFac i ≤ n := by
      have := Nat.minFac_sq_le_self (by omega : 0 < i) hnp
      rw [pow_two] at this
      omega
    have hle : Nat.minFac i ≤ Nat.sqrt n := Nat.le_sqrt.2 hsq
    exact h (Nat.minFac i) (by omega) ⟨hd2, Nat.minFac_dvd i, hlt⟩
  · intro hp d _ hd
    rcases hp.eq_one_or_self_of_dvd d hd.2.1 with h1 | h1
    · omega
    · omega

theorem counted_succ (g : Nat → Bool) (p : Nat) (hp : 2 ≤ p) :
    ((Finset.range (p + 1)).filter fun i => 2 ≤ i ∧ g i = true).card
      = ((Finset.range p).filter fun i => 2 ≤ i ∧ g i = true).card + if g p = true then 1 else 0 := by
  rw [Finset.range_succ, Finset.filter_insert]
  by_cases h : g p = true
  · rw [if_pos ⟨hp, h⟩, if_pos h, Finset.card_insert_of_not_mem]
    simp
  · rw [if_neg (fun h1 => h h1.2), if_neg h, Nat.add_zero]

theorem countLoop_vec (n : Nat) (g : Nat → Bool) (hmax : (n : Int) + 1 ≤ INT_MAX) :
    forLoop (countBody (vec (n + 1) g)) 2 (n - 1) 0
      = some ((((Finset.range (n + 1)).filter fun i => 2 ≤ i ∧ g i = true).card : Nat) : Int) := by
  have h := forLoop_closed (countBody (vec (n + 1) g))
    (fun p => ((((Finset.range p).filter fun i => 2 ≤ i ∧ g i = true).card : Nat) : Int))
    (n - 1) 2 (by
      intro p hp1 hp2
      have hle : ((Finset.range p).filter fun i => 2 ≤ i ∧ g i = true).card ≤ p := by
        have := Finset.card_filter_le (Finset.range p) fun i => 2 ≤ i ∧ g i = true
        rw [Finset.card_range] at this
        exact this
      rw [countBody, rd_vec _ (by omega : p < n + 1), Option.some_bind]
      show (if g p = true then
          checked (((((Finset.range p).filter fun i => 2 ≤ i ∧ g i = true).card : Nat) : Int) + 1)
        else some ((((Finset.range p).filter fun i => 2 ≤ i ∧ g i = true).card : Nat) : Int))
        = some ((((Finset.range (p + 1)).filter fun i => 2 ≤ i ∧ g i = true).card : Nat) : Int)
      rw [counted_succ g p hp1]
      by_cases hg : g p = true
      · rw [if_pos hg, if_pos hg]
        have e : ((((Finset.range p).filter fun i => 2 ≤ i ∧ g i = true).card : Nat) : Int) + 1
            = (((((Finset.range p).filter fun i => 2 ≤ i ∧ g i = true).card + 1 : Nat) : Nat)
              : Int) := by
          push_cast
          rfl
        rw [e]
        apply checked_natCast
        rw [← e]
        omega
      · rw [if_neg hg, if_neg hg, Nat.add_zero])
  have hlow : ∀ q, q ≤ 2 → ((Finset.range q).filter fun i => 2 ≤ i ∧ g i = true) = ∅ := by
    intro q hq
    apply Finset.filter_false_of_mem
    intro i hi h2
    have := Finset.mem_range.1 hi
    omega
  simp only [hlow 2 (le_refl 2), Finset.card_empty, Nat.cast_zero] at h
  rw [h]
  rcases Nat.lt_or_ge n 1 with hlt | hge
  · have hn : n = 0 := by omega
    subst hn
    simp only [Nat.zero_sub, Nat.add_zero, Nat.zero_add, hlow 2 (le_refl 2), hlow 1 (by omega)]
  · have e : 2 + (n - 1) = n + 1 := by omega
    rw [e]

theorem primes_counted (n : Nat) :
    ((Finset.range (n + 1)).filter
        fun i => 2 ≤ i ∧ decide (Unmarked (Nat.sqrt n + 1) i) = true)
      = (Finset.range (n + 1)).filter Nat.Prime := by
  apply Finset.filter_congr
  intro i hi
  have hin : i ≤ n := by
    have := Finset.mem_range.1 hi
    omega
  constructor
  · rintro ⟨h2, hu⟩
    exact (unmarked_iff_prime h2 hin).1 (of_decide_eq_true hu)
  · intro hp
    exact ⟨hp.two_le, decide_eq_true ((unmarked_iff_prime hp.two_le hin).2 hp)⟩

/-- C23 (amended): the sieve, with its loops run in program order.  For
every `n ≥ 0` with `n + ⌊√n⌋ ≤ INT_MAX` (so that neither the size `n + 1` nor
a step `i += p` of the marking loop leaves the range of `int`) and every
bound `fuel ≥ n` on the rounds of the inner loop, the marking loops return and
leave an array of `n + 1` flags in which, for `2 ≤ i ≤ n`, `prime[i]` is
`true` exactly when `i` is a prime number, and the function returns the number
of primes less than or equal to `n`; for `n ≤ 1` this number is `0`. -/
theorem sieve_counts_primes (fuel n : Nat) (hmax : (n : Int) + (Nat.sqrt n : Int) ≤ INT_MAX)
    (hfuel : n ≤ fuel) :
    (∃ prime, sieveArray fuel n = some prime ∧ prime.length = n + 1 ∧
      ∀ i, 2 ≤ i → i ≤ n → (prime[i]? = some true ↔ Nat.Prime i)) ∧
    sieveOfEratosthenes fuel n
      = some ((((Finset.range (n + 1)).filter Nat.Prime).card : Nat) : Int) ∧
    (n ≤ 1 → sieveOfEratosthenes fuel n = some 0) := by
  have ha := sieveArray_vec fuel n hmax hfuel
  have hcount : sieveOfEratosthenes fuel n
      = some ((((Finset.range (n + 1)).filter Nat.Prime).card : Nat) : Int) := by
    have h1 : (n : Int) + 1 ≤ INT_MAX := by
      rcases Nat.eq_zero_or_pos n with h0 | h0
      · subst h0
        decide
      · have : 1 ≤ Nat.sqrt n := Nat.sqrt_pos.2 h0
        omega
    rw [sieveOfEratosthenes, ha, Option.some_bind, Int.toNat_ofNat, countLoop_vec n _ h1,
      primes_counted]
  refine ⟨⟨_, ha, by simp, ?_⟩, hcount, ?_⟩
  · intro i h2 hi
    rw [vec_getElem? _ (by omega : i < n + 1), ← unmarked_iff_prime h2 hi]
    simp
  · intro hn
    rw [hcount]
    have hnone : (Finset.range (n + 1)).filter Nat.Prime = ∅ := by
      apply Finset.filter_false_of_mem
      intro i hi hp
      have := Finset.mem_range.1 hi
      have := hp.two_le
      omega
    rw [hnone]
    rfl

/-- Instance of C23 (amended) at `n = 30`. -/
theorem sieve_counts_primes_witness :
    ((30 : Nat) : Int) + (Nat.sqrt 30 : Int) ≤ INT_MAX ∧ 30 ≤ 30 ∧
    ((∃ prime, sieveArray 30 ((30 : Nat) : Int) = some prime ∧ prime.length = 30 + 1 ∧
        ∀ i, 2 ≤ i → i ≤ 30 → (prime[i]? = some true ↔ Nat.Prime i)) ∧
      sieveOfEratosthenes 30 ((30 : Nat) : Int)
        = some ((((Finset.range (30 + 1)).filter Nat.Prime).card : Nat) : Int) ∧
      (30 ≤ 1 → sieveOfEratosthenes 30 ((30 : Nat) : Int) = some 0)) :=
  have h : ((30 : Nat) : Int) + (Nat.sqrt 30 : Int) ≤ INT_MAX := by
    have h1 : Nat.sqrt 30 ≤ 30 := Nat.sqrt_le_self 30
    unfold INT_MAX
    omega
  ⟨h, le_refl 30, sieve_counts_primes 30 30 h (le_refl 30)⟩

theorem markLoop_overflow (n p : Int) (hp : 0 < p) (hmax : INT_MAX < n + p) :
    ∀ (fuel : Nat) (i : Int) (prime : List Bool), i ≤ n → p ∣ n - i →
      markLoop n p fuel i prime = none
  | 0, _, _, _, _ => rfl
  | fuel + 1, i, prime, hi, hdvd => by
    rw [markLoop, if_pos hi]
    cases hw : wr prime i false with
    | none => rfl
    | some prime1 =>
      rw [Option.some_bind]
      by_cases e : i = n
      · subst e
        have hc : checked (i + p) = none := by
          rw [checked, if_neg]
          intro h
          omega
        rw [hc]
        rfl
      · have hpos : 0 < n - i := by omega
        have hle : p ≤ n - i := Int.le_of_dvd hpos hdvd
        have hdvd1 : p ∣ n - (i + p) := by
          have e1 : n - (i + p) = n - i - p := by ring
          rw [e1]
          exact Int.dvd_sub hdvd (dvd_refl p)
        by_cases hr : INT_MIN ≤ i + p ∧ i + p ≤ INT_MAX
        · rw [checked, if_pos hr, Option.some_bind]
          exact markLoop_overflow n p hp hmax fuel (i + p) prime1 (by omega) hdvd1
        · rw [checked, if_neg hr]
          rfl

theorem sieve_overflow (fuel n : Nat) (h4 : 4 ≤ n) (heven : 2 ∣ n)
    (hsize : (n : Int) + 1 ≤ INT_MAX) (hmax : INT_MAX < (n : Int) + 2) :
    sieveOfEratosthenes fuel n = none := by
  have hc : checked ((n : Int) + 1) = some ((n + 1 : Nat) : Int) := by
    have e : (n : Int) + 1 = ((n + 1 : Nat) : Int) := by push_cast; rfl
    rw [e]
    apply checked_natCast
    rw [← e]
    exact hsize
  have h0 : ¬ ((n : Int) < 0) := by omega
  have hs : 2 ≤ Nat.sqrt n := Nat.le_sqrt.2 (by omega)
  obtain ⟨k, hk⟩ : ∃ k, Nat.sqrt n - 1 = k + 1 := ⟨Nat.sqrt n - 2, by omega⟩
  have h2 : checked (((2 : Nat) : Int) * 2) = some 4 := by decide
  have hdvd : (2 : Int) ∣ (n : Int) - 4 := by
    obtain ⟨c, rfl⟩ := heven
    exact ⟨(c : Int) - 2, by push_cast; ring⟩
  have hbody : sieveBody fuel n 2 (vec (n + 1) fun _ => true) = none := by
    rw [sieveBody, rd_vec _ (by omega : 2 < n + 1), Option.some_bind, if_pos rfl, h2,
      Option.some_bind]
    exact markLoop_overflow n 2 (by decide) hmax fuel 4 _ (by omega) hdvd
  rw [sieveOfEratosthenes, sieveArray, hc, Option.some_bind, if_neg h0, Int.toNat_ofNat,
    Int.toNat_ofNat, hk, replicate_eq_vec, forLoop, hbody]
  rfl

/-- C23 as stated fails at the top of the range of `int`: for `n = INT_MAX`
the size `n + 1` overflows, and for `n = INT_MAX - 1` the step `i += p` of the
marking loop overflows for `p = 2` after the write to `prime[n]`; in both cases
the function has no defined result, whatever the bound on the rounds. -/
theorem sieve_counts_primes_counterexample :
    (2 ≤ (2147483647 : Int) ∧ (2147483647 : Int) ≤ INT_MAX ∧
      ∀ fuel, sieveOfEratosthenes fuel 2147483647 = none) ∧
    (2 ≤ (2147483646 : Int) ∧ (2147483646 : Int) ≤ INT_MAX ∧
      ∀ fuel, sieveOfEratosthenes fuel 2147483646 = none) := by
  refine ⟨⟨by decide, by decide, ?_⟩, by decide, by decide, ?_⟩
  · intro fuel
    have hc : checked ((2147483647 : Int) + 1) = none := by decide
    rw [sieveOfEratosthenes, sieveArray, hc]
    rfl
  · intro fuel
    exact sieve_overflow fuel 2147483646 (by decide) ⟨1073741823, by decide⟩ (by decide)
      (by decide)

end KMeans
